import Mathlib

/-!
# Flash-attention forward kernel: streaming softmax, merge and epilogue

A shallow embedding of `csrc/flash_attn/src/flash_fwd_kernel.h`.

The kernel computes on `float`.  The embedding keeps the special values of the
format (NaN, the two infinities) and makes the arithmetic on finite values exact,
over an ordered field `α`; `exp2f` and `logf` are parameters, instantiated with
the real functions in the theorems.  Signed zeros, rounding and overflow are not
represented.

A register fragment of a thread is a function of its row index `mi` (and column
index `ni`); a row of the score tile is the list of its `kBlockN` scores.
-/

namespace FlashFwd

/-! ## Values -/

/-- A `float` value: NaN, minus infinity, plus infinity, or a finite number. -/
inductive Flt (α : Type) where
  | nan : Flt α
  | ninf : Flt α
  | pinf : Flt α
  | fin : α → Flt α
  deriving DecidableEq

namespace Flt

variable {α : Type} [LinearOrderedField α]

/-- The sign of a value that is not NaN: `-1`, `0` or `1`. -/
def sign : Flt α → Int
  | nan => 0
  | ninf => -1
  | pinf => 1
  | fin a => if a < 0 then -1 else if a = 0 then 0 else 1

/-- The infinity of a given sign; NaN for sign zero. -/
def ofSign (s : Int) : Flt α :=
  if s < 0 then ninf else if s = 0 then nan else pinf

/-- Float addition. -/
def add : Flt α → Flt α → Flt α
  | nan, _ => nan
  | _, nan => nan
  | fin a, fin b => fin (a + b)
  | pinf, ninf => nan
  | ninf, pinf => nan
  | pinf, _ => pinf
  | _, pinf => pinf
  | ninf, _ => ninf
  | _, ninf => ninf

/-- Float negation. -/
def neg : Flt α → Flt α
  | nan => nan
  | ninf => pinf
  | pinf => ninf
  | fin a => fin (-a)

/-- Float multiplication: an infinity times zero is NaN. -/
def mul : Flt α → Flt α → Flt α
  | nan, _ => nan
  | _, nan => nan
  | fin a, fin b => fin (a * b)
  | x, y => ofSign (sign x * sign y)

/-- Float division: `x / 0` is an infinity for `x` not zero, `0 / 0` and
`inf / inf` are NaN, a finite value over an infinity is zero. -/
def div : Flt α → Flt α → Flt α
  | nan, _ => nan
  | _, nan => nan
  | fin a, fin b => if b = 0 then ofSign (sign (fin a)) else fin (a / b)
  | fin _, _ => fin 0
  | x, fin b => if b < 0 then neg x else x
  | _, _ => nan

instance : Add (Flt α) := ⟨add⟩
instance : Neg (Flt α) := ⟨neg⟩
instance : Sub (Flt α) := ⟨fun x y => add x (neg y)⟩
instance : Mul (Flt α) := ⟨mul⟩
instance : Div (Flt α) := ⟨div⟩

/-- The comparison `x > y` of floats: false when either side is NaN. -/
def gt : Flt α → Flt α → Bool
  | nan, _ => false
  | _, nan => false
  | fin a, fin b => decide (b < a)
  | pinf, pinf => false
  | pinf, _ => true
  | _, pinf => false
  | ninf, _ => false
  | _, ninf => true

/-- The comparison `x == y` of floats: false when either side is NaN. -/
def feq : Flt α → Flt α → Bool
  | nan, _ => false
  | _, nan => false
  | fin a, fin b => decide (a = b)
  | pinf, pinf => true
  | ninf, ninf => true
  | _, _ => false

/-- The comparison `x <= y` of floats. -/
def le (x y : Flt α) : Bool := gt y x || feq x y

/-- The maximum of two floats, `fmaxf`: a NaN operand is ignored. -/
def fmax : Flt α → Flt α → Flt α
  | nan, y => y
  | x, nan => x
  | x, y => if gt y x then y else x

/-- The function `exp2f`, given the function on finite values. -/
def exp2 (exp2f : α → α) : Flt α → Flt α
  | nan => nan
  | ninf => fin 0
  | pinf => pinf
  | fin a => fin (exp2f a)

/-- The function `__logf`, given the function on positive finite values. -/
def log (logf : α → α) : Flt α → Flt α
  | nan => nan
  | ninf => nan
  | pinf => pinf
  | fin a => if a < 0 then nan else if a = 0 then ninf else fin (logf a)

/-- The sum of a list of floats. -/
def sum : List (Flt α) → Flt α
  | [] => fin 0
  | x :: xs => x + sum xs

end Flt

open Flt

variable {ρ κ α : Type} [LinearOrderedField α]

/-! ## Helpers of softmax.h and utils.h -/

/-- Modelled from the spec: `reduce_max` of softmax.h, which is not among the sources:
the row-wise maximum of the score tile.  With `zero_init` the maximum is taken over the
row alone, without it the value already held in `mx` takes part. -/
def reduce_max (zero_init : Bool) (scores : ρ → List (Flt α)) (mx : ρ → Flt α) : ρ → Flt α :=
  fun mi => (scores mi).foldl fmax (if zero_init then ninf else mx mi)

/-- Modelled from the spec: `reduce_sum` of softmax.h, which is not among the sources:
the row-wise sum of the score tile. -/
def reduce_sum (scores : ρ → List (Flt α)) : ρ → Flt α :=
  fun mi => Flt.sum (scores mi)

/-- Modelled from the spec: `scale_apply_exp2` of softmax.h, which is not among the
sources: every score becomes `exp2(scale * (score - row_max))`; a row maximum of minus
infinity (a fully masked row) collapses to zero. -/
def scale_apply_exp2 (exp2f : α → α) (scores : ρ → List (Flt α)) (mx : ρ → Flt α)
    (scale : Flt α) : ρ → List (Flt α) :=
  fun mi => (scores mi).map fun s =>
    Flt.exp2 exp2f (scale * (s - (if feq (mx mi) ninf then fin 0 else mx mi)))

/-- Modelled from the spec: `gemm_A_in_regs` of utils.h, which is not among the sources:
the probabilities are multiplied into the value tile and accumulated into `acc_o`,
`acc_o(mi, ni) += sum_j P(mi, j) * V(j, ni)`. -/
def gemm_A_in_regs (acc_o : ρ → κ → Flt α) (p : ρ → List (Flt α)) (v : List (κ → Flt α)) :
    ρ → κ → Flt α :=
  fun mi ni => acc_o mi ni + Flt.sum (List.zipWith (fun pj vj => pj * vj ni) (p mi) v)

/-! ## softmax_rescale_o -/

/-- The running softmax state held by a unit: the fragments `scores_max`, `scores_sum`
and `acc_o`. -/
structure SoftmaxState (ρ κ α : Type) where
  scores_max : ρ → Flt α
  scores_sum : ρ → Flt α
  acc_o : ρ → κ → Flt α

/-- The local `scores_scale` of `softmax_rescale_o` (lines 86-89): the factor by which
the running sum and the accumulator of a row are rescaled, from the previous and the new
row maximum. -/
def scores_scale (exp2f : α → α) (Check_inf : Bool) (scores_max_prev scores_max : Flt α)
    (softmax_scale_log2 : Flt α) : Flt α :=
  let scores_max_cur :=
    if !Check_inf then scores_max else (if feq scores_max ninf then fin 0 else scores_max)
  Flt.exp2 exp2f ((scores_max_prev - scores_max_cur) * softmax_scale_log2)

/-- The function `softmax_rescale_o` (lines 71-100).  Returns the score tile after
`scale_apply_exp2` and the new running state. -/
def softmax_rescale_o (exp2f : α → α) (Is_first Check_inf : Bool) (scores : ρ → List (Flt α))
    (st : SoftmaxState ρ κ α) (softmax_scale_log2 : Flt α) :
    (ρ → List (Flt α)) × SoftmaxState ρ κ α :=
  if Is_first then
    let scores_max := reduce_max true scores st.scores_max
    let scores1 := scale_apply_exp2 exp2f scores scores_max softmax_scale_log2
    (scores1, { scores_max := scores_max, scores_sum := reduce_sum scores1, acc_o := st.acc_o })
  else
    let scores_max_prev := st.scores_max
    let scores_max := reduce_max false scores st.scores_max
    let scale := fun mi =>
      scores_scale exp2f Check_inf (scores_max_prev mi) (scores_max mi) softmax_scale_log2
    let scores1 := scale_apply_exp2 exp2f scores scores_max softmax_scale_log2
    let scores_sum_cur := reduce_sum scores1
    (scores1,
      { scores_max := scores_max
        scores_sum := fun mi => st.scores_sum mi * scale mi + scores_sum_cur mi
        acc_o := fun mi ni => st.acc_o mi ni * scale mi })

/-! ## softmax_merge_o -/

/-- The six fragments `softmax_merge_o` is called on. -/
structure MergeState (ρ κ α : Type) where
  scores_max_1 : ρ → Flt α
  scores_sum_1 : ρ → Flt α
  scores_max_2 : ρ → Flt α
  scores_sum_2 : ρ → Flt α
  acc_o_1 : ρ → κ → Flt α
  acc_o_2 : ρ → κ → Flt α

/-- The function `softmax_merge_o` (lines 107-148): the merged output goes to `acc_o_2`,
the merged sum and maximum to `scores_sum_1` and `scores_max_1`. -/
def softmax_merge_o (exp2f : α → α) (s : MergeState ρ κ α) (softmax_scale_log2 : Flt α) :
    MergeState ρ κ α :=
  let scores_max := fun mi =>
    if gt (s.scores_max_2 mi) (s.scores_max_1 mi) then s.scores_max_2 mi else s.scores_max_1 mi
  let scale := fun mi =>
    fin 1 / (fin 1 + (s.scores_sum_2 mi / s.scores_sum_1 mi)
      * Flt.exp2 exp2f ((s.scores_max_2 mi - s.scores_max_1 mi) * softmax_scale_log2))
  { scores_max_1 := scores_max
    scores_sum_1 := fun mi =>
      s.scores_sum_1 mi
          * Flt.exp2 exp2f ((s.scores_max_1 mi - scores_max mi) * softmax_scale_log2)
        + s.scores_sum_2 mi
          * Flt.exp2 exp2f ((s.scores_max_2 mi - scores_max mi) * softmax_scale_log2)
    scores_max_2 := s.scores_max_2
    scores_sum_2 := s.scores_sum_2
    acc_o_1 := s.acc_o_1
    acc_o_2 := fun mi ni => s.acc_o_1 mi ni * scale mi + s.acc_o_2 mi ni * (fin 1 - scale mi) }

/-- The call of `softmax_merge_o` with the two partial states exchanged. -/
def MergeState.swap (s : MergeState ρ κ α) : MergeState ρ κ α where
  scores_max_1 := s.scores_max_2
  scores_sum_1 := s.scores_sum_2
  scores_max_2 := s.scores_max_1
  scores_sum_2 := s.scores_sum_1
  acc_o_1 := s.acc_o_2
  acc_o_2 := s.acc_o_1

/-! ## The key-tile loop and the epilogue -/

/-- A key tile as the loop body sees it: the score tile `acc_s` left by `flash::gemm`
and the rows of the value tile. -/
structure KVTile (ρ κ α : Type) where
  scores : ρ → List (Flt α)
  v : List (κ → Flt α)

/-- One iteration of the key-tile loop, dropout and `Return_softmax` off (lines 447-473,
512-535): `softmax_rescale_o`, then `acc_o += P V`.  The conversion of the probabilities
to the narrow element type before the product is exact in this model. -/
def attn_tile (exp2f : α → α) (Is_first Check_inf : Bool) (softmax_scale_log2 : Flt α)
    (st : SoftmaxState ρ κ α) (t : KVTile ρ κ α) : SoftmaxState ρ κ α :=
  let r := softmax_rescale_o exp2f Is_first Check_inf t.scores st softmax_scale_log2
  { r.2 with acc_o := gemm_A_in_regs r.2.acc_o r.1 t.v }

/-- The key-tile loop of `compute_attn_1rowblock` on the tiles in the order in which they
are processed (lines 372-536, masking aside): `clear(acc_o)`, the first tile through the
first-block transition, every later tile through the subsequent-block transition. -/
def attn_tiles (exp2f : α → α) (Check_inf : Bool) (softmax_scale_log2 : Flt α)
    (st : SoftmaxState ρ κ α) : List (KVTile ρ κ α) → SoftmaxState ρ κ α
  | [] => { st with acc_o := fun _ _ => fin 0 }
  | t :: ts =>
    ts.foldl (attn_tile exp2f false Check_inf softmax_scale_log2)
      (attn_tile exp2f true Check_inf softmax_scale_log2
        { st with acc_o := fun _ _ => fin 0 } t)

/-- The result of the epilogue: the fragment `lse` and the normalised `acc_o`. -/
structure Epilogue (ρ κ α : Type) where
  lse : ρ → Flt α
  acc_o : ρ → κ → Flt α

/-- The epilogue (lines 540-551, repeated at 1111-1125 and 1572-1582). -/
def epilogue (logf : α → α) (Is_dropout : Bool) (st : SoftmaxState ρ κ α)
    (scale_softmax rp_dropout : Flt α) : Epilogue ρ κ α :=
  let degenerate := fun mi =>
    feq (st.scores_sum mi) (fin 0) || !feq (st.scores_sum mi) (st.scores_sum mi)
  let inv_sum := fun mi => if degenerate mi then fin 1 else fin 1 / st.scores_sum mi
  let scale := fun mi => if !Is_dropout then inv_sum mi else inv_sum mi * rp_dropout
  { lse := fun mi =>
      if degenerate mi then pinf
      else st.scores_max mi * scale_softmax + Flt.log logf (st.scores_sum mi)
    acc_o := fun mi ni => st.acc_o mi ni * scale mi }

/-! ## The key-tile schedules of the two kernels

The loops advance the tile pointers `tKgK` and `tVgV` in place.  The model keeps, next to
the loop variable `n_block`, the index of the key tile each pointer stands on, and records
for every iteration which key tile was multiplied with which value tile.  Indices are
`Int` as in the source; all operands of a division are non-negative, where `/` agrees with
the truncating division of C. -/

/-- The function `cute::ceil_div`. -/
def ceil_div (a b : Int) : Int := (a + b - 1) / b

/-- The masking applied to the score tile of an iteration: none, `apply_mask` (columns
past the end of the keys) or `apply_mask_causal`. -/
inductive Mask where
  | none : Mask
  | seqlen : Mask
  | causal : Mask
  deriving DecidableEq

/-- One iteration of a key-tile loop: the loop variable, the key tile in `sK` when the
scores are computed, the value tile loaded into `sV`, the template arguments of
`softmax_rescale_o`, the masking, and whether the value tile was loaded by the
bounds-checked copy with `Clear_OOB_MN`. -/
structure Step where
  n_block : Int
  k_tile : Int
  v_tile : Int
  Is_first : Bool
  Check_inf : Bool
  mask : Mask
  v_checked : Bool
  deriving DecidableEq

/-- The loop variable and the key tiles the pointers `tKgK` and `tVgV` stand on. -/
structure Cursor where
  n_block : Int
  k_tile : Int
  v_tile : Int
  deriving DecidableEq

/-- The masking loop of `compute_attn_1rowblock` (lines 382-481), from iteration
`masking_step` on. -/
def masking_loop (Is_causal Is_even_N : Bool) (n_masking_steps : Int) :
    Nat → Int → Cursor → List Step × Cursor
  | 0, _, c => ([], c)
  | fuel + 1, masking_step, c =>
    if masking_step < n_masking_steps then
      let v_tile := if masking_step > 0 then c.v_tile - 1 else c.v_tile
      let step : Step :=
        { n_block := c.n_block, k_tile := c.k_tile, v_tile := v_tile
          Is_first := decide (masking_step = 0), Check_inf := Is_causal
          mask := if !Is_causal then (if !Is_even_N then Mask.seqlen else Mask.none)
            else Mask.causal
          v_checked := !decide (masking_step > 0) }
      let k_tile := if c.n_block > 0 then c.k_tile - 1 else c.k_tile
      if n_masking_steps > 1 ∧ c.n_block ≤ 0 then
        ([step], { n_block := c.n_block - 1, k_tile := k_tile, v_tile := v_tile })
      else
        let r := masking_loop Is_causal Is_even_N n_masking_steps fuel (masking_step + 1)
          { n_block := c.n_block - 1, k_tile := k_tile, v_tile := v_tile }
        (step :: r.1, r.2)
    else ([], c)

/-- The loop of `compute_attn_1rowblock` over the tiles that need no masking (lines
484-536). -/
def nomask_loop : Nat → Cursor → List Step × Cursor
  | 0, c => ([], c)
  | fuel + 1, c =>
    if c.n_block ≥ 0 then
      let v_tile := c.v_tile - 1
      let step : Step :=
        { n_block := c.n_block, k_tile := c.k_tile, v_tile := v_tile
          Is_first := false, Check_inf := false, mask := Mask.none, v_checked := false }
      let k_tile := if c.n_block > 0 then c.k_tile - 1 else c.k_tile
      let r := nomask_loop fuel { n_block := c.n_block - 1, k_tile := k_tile, v_tile := v_tile }
      (step :: r.1, r.2)
    else ([], c)

/-- The iterations of `compute_attn_1rowblock` (lines 190-199, 346, 380-536) in the order
in which they run; `none` when the unit returns early. -/
def compute_attn_1rowblock_steps (Is_causal Is_even_N : Bool)
    (kBlockM kBlockN actual_seqlen_q actual_seqlen_k m_block : Int) : Option (List Step) :=
  if m_block * kBlockM ≥ actual_seqlen_q ∨ actual_seqlen_k = 0 then none
  else
    let n_block_max := ceil_div actual_seqlen_k kBlockN
    let n_block_max :=
      if Is_causal then min n_block_max (ceil_div ((m_block + 1) * kBlockM) kBlockN)
      else n_block_max
    let n_masking_steps := if Is_causal then ceil_div kBlockM kBlockN else 1
    let r1 := masking_loop Is_causal Is_even_N n_masking_steps n_masking_steps.toNat 0
      { n_block := n_block_max - 1, k_tile := n_block_max - 1, v_tile := n_block_max - 1 }
    let r2 := nomask_loop (r1.2.n_block + 1).toNat r1.2
    some (r1.1 ++ r2.1)

/-- The tile count `(actual_seqlen_q + kBlockM - 1) / kBlockM` of
`compute_attn_1rowblock_causal`. -/
def total_tiles (kBlockM actual_seqlen_q : Int) : Int :=
  (actual_seqlen_q + kBlockM - 1) / kBlockM

/-- The condition under which a unit of `compute_attn_1rowblock_causal` stops its own
pass at the rendezvous point, publishes its partial state and sets its flag (lines 711,
885, 926, 1198, 1222). -/
def is_publisher (kBlockM actual_seqlen_q m_block : Int) : Bool :=
  decide (m_block + 1 > total_tiles kBlockM actual_seqlen_q / 2 + 1)

/-- The first loop of the own pass of `compute_attn_1rowblock_causal`, over the tiles
that need no masking (lines 929-991). -/
def own_nomask_loop (n_masking_steps dst : Int) : Nat → Cursor → List Step × Cursor
  | 0, c => ([], c)
  | fuel + 1, c =>
    if c.n_block ≤ dst - n_masking_steps then
      let v_tile := if c.n_block > 0 then c.v_tile + 1 else c.v_tile
      let step : Step :=
        { n_block := c.n_block, k_tile := c.k_tile, v_tile := v_tile
          Is_first := decide (c.n_block = 0), Check_inf := true, mask := Mask.none
          v_checked := !decide (c.n_block > 0) }
      let k_tile :=
        if !decide (n_masking_steps = 0 ∧ c.n_block = dst) then c.k_tile + 1 else c.k_tile
      let r := own_nomask_loop n_masking_steps dst fuel
        { n_block := c.n_block + 1, k_tile := k_tile, v_tile := v_tile }
      (step :: r.1, r.2)
    else ([], c)

/-- The second loop of the own pass of `compute_attn_1rowblock_causal`, over the tiles
that are masked (lines 994-1086). -/
def own_masking_loop (dst : Int) : Nat → Cursor → List Step × Cursor
  | 0, c => ([], c)
  | fuel + 1, c =>
    if c.n_block ≤ dst then
      let v_tile := if dst = 0 then c.v_tile else c.v_tile + 1
      let step : Step :=
        { n_block := c.n_block, k_tile := c.k_tile, v_tile := v_tile
          Is_first := false, Check_inf := true, mask := Mask.causal
          v_checked := decide (dst = 0) }
      let k_tile := if c.n_block < dst then c.k_tile + 1 else c.k_tile
      let r := own_masking_loop dst fuel
        { n_block := c.n_block + 1, k_tile := k_tile, v_tile := v_tile }
      (step :: r.1, r.2)
    else ([], c)

/-- The iterations of the own pass of `compute_attn_1rowblock_causal` (lines 716-720,
881-887, 926-1086) in the order in which they run; `none` when the unit returns early. -/
def compute_attn_1rowblock_causal_own_steps
    (kBlockM kBlockN actual_seqlen_q actual_seqlen_k m_block : Int) : Option (List Step) :=
  if m_block * kBlockM ≥ actual_seqlen_q ∨ actual_seqlen_k = 0 then none
  else
    let n_block_max := ceil_div actual_seqlen_k kBlockN
    let n_block_max := min n_block_max (ceil_div ((m_block + 1) * kBlockM) kBlockN)
    let dst :=
      if is_publisher kBlockM actual_seqlen_q m_block then
        ceil_div kBlockM kBlockN * (ceil_div actual_seqlen_q kBlockM / 2 + 1) - 1
      else n_block_max - 1
    let n_masking_steps :=
      if is_publisher kBlockM actual_seqlen_q m_block then 0 else ceil_div kBlockM kBlockN
    let r1 := own_nomask_loop n_masking_steps dst (dst - n_masking_steps + 1).toNat
      { n_block := 0, k_tile := 0, v_tile := 0 }
    let r2 := own_masking_loop dst (dst + 1 - r1.2.n_block).toNat r1.2
    some (r1.1 ++ r2.1)

/-! ## The fragment pass of the wave-balanced kernel -/

/-- The condition under which a unit of `compute_attn_1rowblock_causal` goes on, after its
own pass, to compute a fragment of the mirrored query tile and to merge it (line 1253). -/
def is_helper (kBlockM actual_seqlen_q m_block : Int) : Bool :=
  decide (m_block + 1 < (total_tiles kBlockM actual_seqlen_q + 1) / 2)

/-- The index `reverse_m_block` of the mirrored query tile (line 1251). -/
def reverse_m_block (kBlockM actual_seqlen_q m_block : Int) : Int :=
  total_tiles kBlockM actual_seqlen_q - m_block - 1

/-- The masking loop of the fragment pass (lines 1397-1495), from iteration
`masking_step` on. -/
def frag_masking_loop (n_masking_steps dst : Int) : Nat → Int → Cursor → List Step × Cursor
  | 0, _, c => ([], c)
  | fuel + 1, masking_step, c =>
    if masking_step < n_masking_steps then
      let v_tile := if masking_step > 0 then c.v_tile - 1 else c.v_tile
      let step : Step :=
        { n_block := c.n_block, k_tile := c.k_tile, v_tile := v_tile
          Is_first := decide (masking_step = 0), Check_inf := true, mask := Mask.causal
          v_checked := !decide (masking_step > 0) }
      let k_tile := if c.n_block > dst then c.k_tile - 1 else c.k_tile
      if n_masking_steps > 1 ∧ c.n_block ≤ dst then
        ([step], { n_block := c.n_block - 1, k_tile := k_tile, v_tile := v_tile })
      else
        let r := frag_masking_loop n_masking_steps dst fuel (masking_step + 1)
          { n_block := c.n_block - 1, k_tile := k_tile, v_tile := v_tile }
        (step :: r.1, r.2)
    else ([], c)

/-- The loop of the fragment pass over the tiles that need no masking (lines
1500-1552). -/
def frag_nomask_loop (dst : Int) : Nat → Cursor → List Step × Cursor
  | 0, c => ([], c)
  | fuel + 1, c =>
    if c.n_block ≥ dst then
      let v_tile := c.v_tile - 1
      let step : Step :=
        { n_block := c.n_block, k_tile := c.k_tile, v_tile := v_tile
          Is_first := false, Check_inf := false, mask := Mask.none, v_checked := false }
      let k_tile := if c.n_block > dst then c.k_tile - 1 else c.k_tile
      let r := frag_nomask_loop dst fuel
        { n_block := c.n_block - 1, k_tile := k_tile, v_tile := v_tile }
      (step :: r.1, r.2)
    else ([], c)

/-- The iterations of the fragment pass of `compute_attn_1rowblock_causal` on the mirrored
query tile (lines 1253-1260, 1397-1552) in the order in which they run; `none` when the
unit returns early or is no helper. -/
def compute_attn_1rowblock_causal_frag_steps
    (kBlockM kBlockN actual_seqlen_q actual_seqlen_k m_block : Int) : Option (List Step) :=
  if m_block * kBlockM ≥ actual_seqlen_q ∨ actual_seqlen_k = 0 then none
  else if is_helper kBlockM actual_seqlen_q m_block then
    let reverse_m_block := reverse_m_block kBlockM actual_seqlen_q m_block
    let n_block_max := ceil_div actual_seqlen_k kBlockN
    let n_block_max := min n_block_max (ceil_div ((reverse_m_block + 1) * kBlockM) kBlockN)
    let dst := ceil_div kBlockM kBlockN * (ceil_div actual_seqlen_q kBlockM / 2 + 1)
    let n_masking_steps := ceil_div kBlockM kBlockN
    let r1 := frag_masking_loop n_masking_steps dst n_masking_steps.toNat 0
      { n_block := n_block_max - 1, k_tile := n_block_max - 1, v_tile := n_block_max - 1 }
    let r2 := frag_nomask_loop dst (r1.2.n_block + 1 - dst).toNat r1.2
    some (r1.1 ++ r2.1)
  else none

/-! ## Running a schedule -/

/-- The operands as the loop body meets them: `S q k` is the score of query row `q`
against key row `k`, as `flash::gemm` leaves it in `acc_s`, and `V k` is row `k` of the
value matrix. -/
structure Operands (κ α : Type) where
  S : Int → Int → Flt α
  V : Int → κ → Flt α

/-- Modelled from the spec: `flash::gemm` of utils.h, which is not among the sources,
leaves in `acc_s` the raw scores of the query tile `q_tile` against the key tile `k_tile`
resident in `sK`.  Rows are indexed by their position in the query tile. -/
def acc_s (inp : Operands κ α) (kBlockM kBlockN q_tile k_tile : Int) : Nat → List (Flt α) :=
  fun mi => (List.range kBlockN.toNat).map fun (j : Nat) =>
    inp.S (q_tile * kBlockM + (mi : Int)) (k_tile * kBlockN + (j : Int))

/-- Modelled from the spec: `apply_mask` of softmax.h, which is not among the sources:
the scores of the columns from `max_seqlen_k` on are set to minus infinity. -/
def apply_mask (scores : Nat → List (Flt α)) (max_seqlen_k : Int) : Nat → List (Flt α) :=
  fun mi => (scores mi).mapIdx fun (j : Nat) s => if (j : Int) ≥ max_seqlen_k then ninf else s

/-- Modelled from the spec: `apply_mask_causal` of softmax.h, which is not among the
sources: a score whose key index exceeds its query index, or is not below `max_seqlen_k`,
is set to minus infinity.  The key index of column `j` is `col_idx_offset + j`, the query
index of row `mi` is `row_idx_offset + mi`. -/
def apply_mask_causal (scores : Nat → List (Flt α)) (col_idx_offset max_seqlen_k
    row_idx_offset : Int) : Nat → List (Flt α) :=
  fun mi => (scores mi).mapIdx fun (j : Nat) s =>
    if col_idx_offset + (j : Int) ≥ min max_seqlen_k (row_idx_offset + (mi : Int) + 1) then ninf
    else s

/-- Modelled from the spec: `flash::copy` of utils.h, which is not among the sources.
The value tile in `sV` after the load of an iteration: the unchecked copy brings the
`kBlockN` rows the pointer stands on; the bounds-checked copy with `Clear_OOB_MN`, when
`Is_even_N` is off, zero-fills the rows from `actual_seqlen_k - n_block * kBlockN` on. -/
def load_v (inp : Operands κ α) (Is_even_N : Bool) (kBlockN actual_seqlen_k : Int)
    (s : Step) : List (κ → Flt α) :=
  (List.range kBlockN.toNat).map fun (j : Nat) =>
    if s.v_checked && !Is_even_N && decide ((j : Int) ≥ actual_seqlen_k - s.n_block * kBlockN)
    then fun _ => fin 0
    else inp.V (s.v_tile * kBlockN + (j : Int))

/-- The body of one iteration on the query tile `q_tile`, dropout and `Return_softmax`
off: the scores of the resident key tile, the masking, `softmax_rescale_o`, and the
product with the resident value tile. -/
def run_step (exp2f : α → α) (inp : Operands κ α) (Is_even_N : Bool)
    (kBlockM kBlockN actual_seqlen_k q_tile : Int) (softmax_scale_log2 : Flt α)
    (st : SoftmaxState Nat κ α) (s : Step) : SoftmaxState Nat κ α :=
  let scores := acc_s inp kBlockM kBlockN q_tile s.k_tile
  let scores :=
    match s.mask with
    | Mask.none => scores
    | Mask.seqlen => apply_mask scores (actual_seqlen_k - s.n_block * kBlockN)
    | Mask.causal =>
      apply_mask_causal scores (s.n_block * kBlockN) actual_seqlen_k (q_tile * kBlockM)
  attn_tile exp2f s.Is_first s.Check_inf softmax_scale_log2 st
    { scores := scores, v := load_v inp Is_even_N kBlockN actual_seqlen_k s }

/-- The rows a unit of `compute_attn_1rowblock` leaves for its query tile, dropout off:
`clear(acc_o)`, the iterations, the epilogue.  The fragments `scores_max` and `scores_sum`
are not initialised by the kernel; `regs` is what they hold on entry. -/
def compute_attn_1rowblock_rows (exp2f logf : α → α) (inp : Operands κ α)
    (Is_causal Is_even_N : Bool) (kBlockM kBlockN actual_seqlen_q actual_seqlen_k m_block : Int)
    (softmax_scale_log2 scale_softmax : Flt α) (regs : SoftmaxState Nat κ α) :
    Option (Epilogue Nat κ α) :=
  (compute_attn_1rowblock_steps Is_causal Is_even_N kBlockM kBlockN actual_seqlen_q
    actual_seqlen_k m_block).map fun steps =>
    epilogue logf false
      (steps.foldl
        (run_step exp2f inp Is_even_N kBlockM kBlockN actual_seqlen_k m_block
          softmax_scale_log2)
        { regs with acc_o := fun _ _ => fin 0 })
      scale_softmax (fin 1)

/-- The rows a unit of `compute_attn_1rowblock_causal` leaves for its own query tile at
the end of its own pass (lines 914-1218), dropout off.  The fragments `scores_max` and
`scores_sum` are not initialised by the kernel; `regs` is what they hold on entry. -/
def compute_attn_1rowblock_causal_own_rows (exp2f logf : α → α) (inp : Operands κ α)
    (Is_even_N : Bool) (kBlockM kBlockN actual_seqlen_q actual_seqlen_k m_block : Int)
    (softmax_scale_log2 scale_softmax : Flt α) (regs : SoftmaxState Nat κ α) :
    Option (Epilogue Nat κ α) :=
  (compute_attn_1rowblock_causal_own_steps kBlockM kBlockN actual_seqlen_q actual_seqlen_k
    m_block).map fun steps =>
    epilogue logf false
      (steps.foldl
        (run_step exp2f inp Is_even_N kBlockM kBlockN actual_seqlen_k m_block
          softmax_scale_log2)
        { regs with acc_o := fun _ _ => fin 0 })
      scale_softmax (fin 1)

/-! ## Bulk memory

The stores of a unit to the arrays `params.o_ptr`, `params.softmax_lse_ptr`,
`params.scores_max_ptr` and `params.scores_sum_ptr`.  The model keeps the slice of each
array that belongs to the batch entry and head of the unit and indexes it by query row:
row `row` of query tile `m_block` is element `m_block * kBlockM + row`. -/

/-- The four output arrays, one batch entry and head. -/
structure Gmem (κ α : Type) where
  o : Int → κ → Flt α
  softmax_lse : Int → Flt α
  scores_max : Int → Flt α
  scores_sum : Int → Flt α

/-- The guarded row loop of lines 595-601 (again at 1190-1204 and 1820-1826): the threads
of the unit hold between them every row `0 .. kBlockM - 1` of the tile, and the value of
row `row` is stored when `row < actual_seqlen_q - m_block * kBlockM`. -/
def store_rows {β : Type} (kBlockM actual_seqlen_q m_block : Int) (frag : Nat → β)
    (mem : Int → β) : Int → β :=
  fun i =>
    if 0 ≤ i - m_block * kBlockM ∧ i - m_block * kBlockM < kBlockM
        ∧ i - m_block * kBlockM < actual_seqlen_q - m_block * kBlockM then
      frag (i - m_block * kBlockM).toNat
    else mem i

/-- The guarded row loop of lines 1735-1744: the value of row `row` is loaded when
`row < actual_seqlen_q - m_block * kBlockM`; the other rows of the fragment, which the
kernel does not initialise, keep what they held. -/
def load_rows {β : Type} (kBlockM actual_seqlen_q m_block : Int) (mem : Int → β)
    (frag : Nat → β) : Nat → β :=
  fun mi =>
    if (mi : Int) < kBlockM ∧ (mi : Int) < actual_seqlen_q - m_block * kBlockM then
      mem (m_block * kBlockM + (mi : Int))
    else frag mi

/-- Modelled from the spec: `flash::copy` of utils.h, which is not among the sources,
called with `Is_even_MN = false` and the row bound `actual_seqlen_q - m_block * kBlockM`
to write an output tile to `gO` (lines 613-615, 1216-1218, 1843-1845): the rows below the
bound are written, the others are left alone. -/
def copy_o_to_gmem (kBlockM actual_seqlen_q m_block : Int) (frag : Nat → κ → Flt α)
    (mem : Int → κ → Flt α) : Int → κ → Flt α :=
  store_rows kBlockM actual_seqlen_q m_block frag mem

/-- Modelled from the spec: `flash::copy` of utils.h, which is not among the sources,
called with `Is_even_MN = false`, `Clear_OOB_MN = false` and the row bound
`actual_seqlen_q - m_block * kBlockM` to read an output tile from `gO` (lines 1683-1684):
the rows below the bound are read, the others keep what the registers held. -/
def copy_o_from_gmem (kBlockM actual_seqlen_q m_block : Int) (mem : Int → κ → Flt α)
    (frag : Nat → κ → Flt α) : Nat → κ → Flt α :=
  load_rows kBlockM actual_seqlen_q m_block mem frag

/-- The running state of `compute_attn_1rowblock` when the loops are over, dropout off;
`none` when the unit returns early. -/
def compute_attn_1rowblock_state (exp2f : α → α) (inp : Operands κ α)
    (Is_causal Is_even_N : Bool) (kBlockM kBlockN actual_seqlen_q actual_seqlen_k m_block : Int)
    (softmax_scale_log2 : Flt α) (regs : SoftmaxState Nat κ α) :
    Option (SoftmaxState Nat κ α) :=
  (compute_attn_1rowblock_steps Is_causal Is_even_N kBlockM kBlockN actual_seqlen_q
    actual_seqlen_k m_block).map fun steps =>
    steps.foldl
      (run_step exp2f inp Is_even_N kBlockM kBlockN actual_seqlen_k m_block softmax_scale_log2)
      { regs with acc_o := fun _ _ => fin 0 }

/-- The running state of the own pass of `compute_attn_1rowblock_causal` when its loops
are over, dropout off; `none` when the unit returns early. -/
def compute_attn_1rowblock_causal_own_state (exp2f : α → α) (inp : Operands κ α)
    (Is_even_N : Bool) (kBlockM kBlockN actual_seqlen_q actual_seqlen_k m_block : Int)
    (softmax_scale_log2 : Flt α) (regs : SoftmaxState Nat κ α) :
    Option (SoftmaxState Nat κ α) :=
  (compute_attn_1rowblock_causal_own_steps kBlockM kBlockN actual_seqlen_q actual_seqlen_k
    m_block).map fun steps =>
    steps.foldl
      (run_step exp2f inp Is_even_N kBlockM kBlockN actual_seqlen_k m_block softmax_scale_log2)
      { regs with acc_o := fun _ _ => fin 0 }

/-- The running state of the fragment pass of `compute_attn_1rowblock_causal` on the
mirrored tile when its loops are over, dropout off: `clear(acc_o)`, `clear(scores_max)`,
`clear(scores_sum)` (lines 1383-1385), then the iterations; `none` when the unit returns
early or is no helper. -/
def compute_attn_1rowblock_causal_frag_state (exp2f : α → α) (inp : Operands κ α)
    (Is_even_N : Bool) (kBlockM kBlockN actual_seqlen_q actual_seqlen_k m_block : Int)
    (softmax_scale_log2 : Flt α) : Option (SoftmaxState Nat κ α) :=
  (compute_attn_1rowblock_causal_frag_steps kBlockM kBlockN actual_seqlen_q actual_seqlen_k
    m_block).map fun steps =>
    steps.foldl
      (run_step exp2f inp Is_even_N kBlockM kBlockN actual_seqlen_k
        (reverse_m_block kBlockM actual_seqlen_q m_block) softmax_scale_log2)
      { scores_max := fun _ => fin 0, scores_sum := fun _ => fin 0, acc_o := fun _ _ => fin 0 }

/-- Bulk memory after a unit of `compute_attn_1rowblock`, dropout off: the epilogue, the
stores to `gLSE` (lines 595-601) and the copy to `gO` (613-615).  A unit that returns
early stores nothing. -/
def compute_attn_1rowblock_gmem (exp2f logf : α → α) (inp : Operands κ α)
    (Is_causal Is_even_N : Bool) (kBlockM kBlockN actual_seqlen_q actual_seqlen_k m_block : Int)
    (softmax_scale_log2 scale_softmax : Flt α) (regs : SoftmaxState Nat κ α) (g : Gmem κ α) :
    Gmem κ α :=
  match compute_attn_1rowblock_state exp2f inp Is_causal Is_even_N kBlockM kBlockN
      actual_seqlen_q actual_seqlen_k m_block softmax_scale_log2 regs with
  | none => g
  | some st =>
    { g with
      softmax_lse := store_rows kBlockM actual_seqlen_q m_block
        (epilogue logf false st scale_softmax (fin 1)).lse g.softmax_lse
      o := copy_o_to_gmem kBlockM actual_seqlen_q m_block
        (epilogue logf false st scale_softmax (fin 1)).acc_o g.o }

/-- Bulk memory after the own pass of a unit of `compute_attn_1rowblock_causal`, dropout
off: the epilogue, the stores to `gLSE` and, for a publisher, to `gscores_max` and
`gscores_sum` (lines 1190-1204), and the copy to `gO` (1216-1218). -/
def compute_attn_1rowblock_causal_own_gmem (exp2f logf : α → α) (inp : Operands κ α)
    (Is_even_N : Bool) (kBlockM kBlockN actual_seqlen_q actual_seqlen_k m_block : Int)
    (softmax_scale_log2 scale_softmax : Flt α) (regs : SoftmaxState Nat κ α) (g : Gmem κ α) :
    Gmem κ α :=
  match compute_attn_1rowblock_causal_own_state exp2f inp Is_even_N kBlockM kBlockN
      actual_seqlen_q actual_seqlen_k m_block softmax_scale_log2 regs with
  | none => g
  | some st =>
    { softmax_lse := store_rows kBlockM actual_seqlen_q m_block
        (epilogue logf false st scale_softmax (fin 1)).lse g.softmax_lse
      scores_max :=
        if is_publisher kBlockM actual_seqlen_q m_block then
          store_rows kBlockM actual_seqlen_q m_block st.scores_max g.scores_max
        else g.scores_max
      scores_sum :=
        if is_publisher kBlockM actual_seqlen_q m_block then
          store_rows kBlockM actual_seqlen_q m_block st.scores_sum g.scores_sum
        else g.scores_sum
      o := copy_o_to_gmem kBlockM actual_seqlen_q m_block
        (epilogue logf false st scale_softmax (fin 1)).acc_o g.o }

/-- The fragment `lse` recomputed from the merged state (lines 1785-1789). -/
def merged_lse (logf : α → α) (s : MergeState ρ κ α) (scale_softmax : Flt α) : ρ → Flt α :=
  fun mi =>
    if feq (s.scores_sum_1 mi) (fin 0) || !feq (s.scores_sum_1 mi) (s.scores_sum_1 mi) then pinf
    else s.scores_max_1 mi * scale_softmax + Flt.log logf (s.scores_sum_1 mi)

/-- The state `softmax_merge_o` leaves in a helper (line 1765), dropout off, from the
memory `g` the helper finds once the spin loop is over: the epilogue of the fragment pass
(lines 1572-1582), the loads of the published output, maxima and sums of the mirrored tile
(1683-1742), then the merge.  The fragments `fragment_scores_max`, `fragment_scores_sum` and
`rOf` are not initialised by the kernel; `regs` is what they hold beforehand.  The result is
`none` when the unit returns early or is no helper. -/
def compute_attn_1rowblock_causal_merged (exp2f logf : α → α) (inp : Operands κ α)
    (Is_even_N : Bool) (kBlockM kBlockN actual_seqlen_q actual_seqlen_k m_block : Int)
    (softmax_scale_log2 scale_softmax : Flt α) (regs : SoftmaxState Nat κ α) (g : Gmem κ α) :
    Option (MergeState Nat κ α) :=
  (compute_attn_1rowblock_causal_frag_state exp2f inp Is_even_N kBlockM kBlockN
    actual_seqlen_q actual_seqlen_k m_block softmax_scale_log2).map fun st =>
    softmax_merge_o exp2f
      { scores_max_1 := st.scores_max
        scores_sum_1 := st.scores_sum
        scores_max_2 := load_rows kBlockM actual_seqlen_q
          (reverse_m_block kBlockM actual_seqlen_q m_block) g.scores_max regs.scores_max
        scores_sum_2 := load_rows kBlockM actual_seqlen_q
          (reverse_m_block kBlockM actual_seqlen_q m_block) g.scores_sum regs.scores_sum
        acc_o_1 := (epilogue logf false st scale_softmax (fin 1)).acc_o
        acc_o_2 := copy_o_from_gmem kBlockM actual_seqlen_q
          (reverse_m_block kBlockM actual_seqlen_q m_block) g.o regs.acc_o }
      softmax_scale_log2

/-- Bulk memory after the merge pass of a helper, dropout off: the new `lse` (lines
1785-1789) and the stores to `gLSE` and `gO` of the mirrored tile (1820-1845). -/
def compute_attn_1rowblock_causal_merge_gmem (exp2f logf : α → α) (inp : Operands κ α)
    (Is_even_N : Bool) (kBlockM kBlockN actual_seqlen_q actual_seqlen_k m_block : Int)
    (softmax_scale_log2 scale_softmax : Flt α) (regs : SoftmaxState Nat κ α) (g : Gmem κ α) :
    Gmem κ α :=
  match compute_attn_1rowblock_causal_merged exp2f logf inp Is_even_N kBlockM kBlockN
      actual_seqlen_q actual_seqlen_k m_block softmax_scale_log2 scale_softmax regs g with
  | none => g
  | some merged =>
    { g with
      softmax_lse := store_rows kBlockM actual_seqlen_q
        (reverse_m_block kBlockM actual_seqlen_q m_block)
        (merged_lse logf merged scale_softmax) g.softmax_lse
      o := copy_o_to_gmem kBlockM actual_seqlen_q
        (reverse_m_block kBlockM actual_seqlen_q m_block) merged.acc_o_2 g.o }

/-- Two running states hold the same values for row `mi`. -/
def RowAgree (mi : ρ) (a b : SoftmaxState ρ κ α) : Prop :=
  a.scores_max mi = b.scores_max mi ∧ a.scores_sum mi = b.scores_sum mi ∧
    ∀ ni, a.acc_o mi ni = b.acc_o mi ni

/-- Two memories hold the same values for the query rows below `n`. -/
def GmemAgree (n : Int) (a b : Gmem κ α) : Prop :=
  ∀ i, i < n → a.softmax_lse i = b.softmax_lse i ∧ a.scores_max i = b.scores_max i ∧
    a.scores_sum i = b.scores_sum i ∧ ∀ ni, a.o i ni = b.o i ni

/-! ## Flags, barriers and the arrays the units share

What a unit does to the flag grid `CompleteMask` and to the arrays in bulk memory through
which units exchange partial results, in program order: the flag reset on entry, and the
barriers, stores, flag operations and loads from the epilogue of the own pass on.  The loads
of Q, K and V, the key-tile loops with their barriers, and the staging through shared memory
are left out.  A store or a load of a tile stands for the row loop or the tile copy that
performs it. -/

/-- An access of a unit to the flag grid or to a shared array, or a barrier. -/
inductive Event where
  /-- The call `atomicAnd(&CompleteMask[bidh][bidb][idx], val)`. -/
  | atomicAnd (bidh bidb idx : Int) (val : Nat) : Event
  /-- The call `atomicOr(&CompleteMask[bidh][bidb][idx], val)`. -/
  | atomicOr (bidh bidb idx : Int) (val : Nat) : Event
  /-- The loop `while (atomicCAS(&CompleteMask[bidh][bidb][idx], 0, 0) != 1);`. -/
  | atomicCAS_spin (bidh bidb idx : Int) : Event
  /-- The barrier `__syncthreads()` of the threads of the unit. -/
  | syncthreads : Event
  /-- The fence `__threadfence()`. -/
  | threadfence : Event
  /-- The stores to `gLSE` for the rows of a query tile. -/
  | store_lse (tile : Int) : Event
  /-- The stores to `gscores_max` for the rows of a query tile. -/
  | store_scores_max (tile : Int) : Event
  /-- The stores to `gscores_sum` for the rows of a query tile. -/
  | store_scores_sum (tile : Int) : Event
  /-- The copy of an output tile to `gO`. -/
  | store_o (tile : Int) : Event
  /-- The copy of an output tile from `gO`. -/
  | load_o (tile : Int) : Event
  /-- The loads from `gscores_max` for the rows of a query tile. -/
  | load_scores_max (tile : Int) : Event
  /-- The loads from `gscores_sum` for the rows of a query tile. -/
  | load_scores_sum (tile : Int) : Event
  deriving DecidableEq

/-- The events of `compute_attn_1rowblock` (lines 191, 566-615). -/
def compute_attn_1rowblock_events (Share_Q_K_smem : Bool)
    (kBlockM actual_seqlen_q actual_seqlen_k m_block : Int) : List Event :=
  if m_block * kBlockM ≥ actual_seqlen_q ∨ actual_seqlen_k = 0 then []
  else
    (if Share_Q_K_smem then [Event.syncthreads] else [])
      ++ [Event.syncthreads, Event.store_lse m_block, Event.store_o m_block]

/-- The events of `compute_attn_1rowblock_causal`: the flag reset (lines 711-713), the
early return (716), the stores of the own pass (1151-1217), the barrier and the flag set
(1221-1223), and for a helper the spin loop (1615-1618), the loads of the published state
of the mirrored tile (1661-1742) and the stores of the merged result (1802-1845). -/
def compute_attn_1rowblock_causal_events (Share_Q_K_smem : Bool)
    (kBlockM actual_seqlen_q actual_seqlen_k bidb bidh m_block blockIdx_x : Int) :
    List Event :=
  (if is_publisher kBlockM actual_seqlen_q m_block then
      [Event.atomicAnd bidh bidb blockIdx_x 0]
    else [])
  ++
  if m_block * kBlockM ≥ actual_seqlen_q ∨ actual_seqlen_k = 0 then []
  else
    (if Share_Q_K_smem then [Event.syncthreads] else [])
    ++ [Event.syncthreads, Event.store_lse m_block]
    ++ (if is_publisher kBlockM actual_seqlen_q m_block then
        [Event.store_scores_max m_block, Event.store_scores_sum m_block]
      else [])
    ++ [Event.store_o m_block, Event.syncthreads]
    ++ (if is_publisher kBlockM actual_seqlen_q m_block then
        [Event.atomicOr bidh bidb blockIdx_x 1]
      else [])
    ++
    if is_helper kBlockM actual_seqlen_q m_block then
      [Event.atomicCAS_spin bidh bidb m_block, Event.syncthreads, Event.syncthreads,
        Event.load_o (reverse_m_block kBlockM actual_seqlen_q m_block),
        Event.syncthreads, Event.syncthreads]
      ++ (if Share_Q_K_smem then [Event.syncthreads] else [])
      ++ [Event.load_scores_max (reverse_m_block kBlockM actual_seqlen_q m_block),
        Event.load_scores_sum (reverse_m_block kBlockM actual_seqlen_q m_block)]
      ++ (if Share_Q_K_smem then [Event.syncthreads] else [])
      ++ [Event.syncthreads,
        Event.store_lse (reverse_m_block kBlockM actual_seqlen_q m_block),
        Event.store_o (reverse_m_block kBlockM actual_seqlen_q m_block)]
    else []

/-- The events of `compute_attn_casual` (lines 1899-1919) for the unit `blockIdx_x` of a
launch with `gridDim_x` units per batch entry and head: the query tile is
`gridDim.x - 1 - blockIdx.x`; with `Is_causal` off the unit runs `compute_attn_1rowblock`,
with it on `compute_attn_1rowblock_causal`. -/
def compute_attn_casual_events (Is_causal Share_Q_K_smem : Bool)
    (kBlockM actual_seqlen_q actual_seqlen_k bidb bidh gridDim_x blockIdx_x : Int) :
    List Event :=
  let m_block := gridDim_x - 1 - blockIdx_x
  if !Is_causal then
    compute_attn_1rowblock_events Share_Q_K_smem kBlockM actual_seqlen_q actual_seqlen_k m_block
  else
    compute_attn_1rowblock_causal_events Share_Q_K_smem kBlockM actual_seqlen_q
      actual_seqlen_k bidb bidh m_block blockIdx_x

/-- The effect of an event on the flag grid.  `atomicCAS(p, 0, 0)` stores zero where it
reads zero, so the spin loop leaves every flag as it is. -/
def Event.flag_step (f : Int → Int → Int → Nat) : Event → Int → Int → Int → Nat
  | Event.atomicAnd bidh bidb idx val => fun h b i =>
    if h = bidh ∧ b = bidb ∧ i = idx then f h b i &&& val else f h b i
  | Event.atomicOr bidh bidb idx val => fun h b i =>
    if h = bidh ∧ b = bidb ∧ i = idx then f h b i ||| val else f h b i
  | _ => f

/-- Whether an event is a read-modify-write that can change a flag. -/
def Event.is_flag_write : Event → Bool
  | Event.atomicAnd _ _ _ _ => true
  | Event.atomicOr _ _ _ _ => true
  | _ => false

/-- Whether an event reads the state a publisher leaves in bulk memory. -/
def Event.is_load : Event → Bool
  | Event.load_o _ => true
  | Event.load_scores_max _ => true
  | Event.load_scores_sum _ => true
  | _ => false

/-- Whether an event writes to one of the arrays in bulk memory. -/
def Event.is_store : Event → Bool
  | Event.store_lse _ => true
  | Event.store_scores_max _ => true
  | Event.store_scores_sum _ => true
  | Event.store_o _ => true
  | _ => false

/-- Whether an event sets a flag. -/
def Event.is_flag_set : Event → Bool
  | Event.atomicOr _ _ _ _ => true
  | _ => false

/-- The successive values of the flag `CompleteMask[h][b][i]` while the events run in
order, starting from the grid `f`. -/
def flag_values (evs : List Event) (f : Int → Int → Int → Nat) (h b i : Int) : List Nat :=
  (List.scanl Event.flag_step f evs).map fun g => g h b i

/-! ## The arguments of apply_dropout

Every call of `flash::apply_dropout` receives `seed`, `offset`, `block_row_idx` and
`block_col_idx`.  `seeds` is the pair `at::cuda::philox::unpack(params.philox_args)`
returns, `h` is `params.h`.  `offset` is an `unsigned long long`, the two block indices are
`uint32_t`; the `int` expressions they are initialised from are taken not to overflow. -/

/-- The four arguments a call of `apply_dropout` receives next to the tile. -/
structure DropoutArgs where
  seed : Int
  offset : Int
  block_row_idx : Int
  block_col_idx : Int
  deriving DecidableEq

/-- The arguments of the calls in `compute_attn_1rowblock`: `seed` and `offset` of lines
362-364, the block indices of lines 455-456 (masking loop) and 518-519 (non-masking
loop), which read the same. -/
def compute_attn_1rowblock_dropout_args (seeds : Int × Int)
    (h bidb bidh tidx kBlockM kBlockN m_block n_block : Int) : DropoutArgs :=
  { seed := seeds.1 % 2 ^ 64
    offset := (seeds.2 + ((bidb * h + bidh) * 32 + tidx % 32)) % 2 ^ 64
    block_row_idx := (m_block * (kBlockM / 16) + tidx / 32) % 2 ^ 32
    block_col_idx := (n_block * (kBlockN / 32)) % 2 ^ 32 }

/-- The arguments of the calls in the own pass of `compute_attn_1rowblock_causal`: `seed`
and `offset` of lines 904-906, the block indices of lines 974-975 (first loop) and
1060-1061 (second loop), which read the same. -/
def compute_attn_1rowblock_causal_own_dropout_args (seeds : Int × Int)
    (h bidb bidh tidx kBlockM kBlockN m_block n_block : Int) : DropoutArgs :=
  { seed := seeds.1 % 2 ^ 64
    offset := (seeds.2 + ((bidb * h + bidh) * 32 + tidx % 32)) % 2 ^ 64
    block_row_idx := (m_block * (kBlockM / 16) + tidx / 32) % 2 ^ 32
    block_col_idx := (n_block * (kBlockN / 32)) % 2 ^ 32 }

/-- The arguments of the calls in the fragment pass of `compute_attn_1rowblock_causal`:
`seed` of line 905, `offset` of line 1373, the block indices of lines 1469-1470 (masking
loop) and 1535-1536 (non-masking loop), which read the same; the row index is taken from
`reverse_m_block`. -/
def compute_attn_1rowblock_causal_frag_dropout_args (seeds : Int × Int)
    (h bidb bidh tidx kBlockM kBlockN actual_seqlen_q m_block n_block : Int) : DropoutArgs :=
  { seed := seeds.1 % 2 ^ 64
    offset := (seeds.2 + ((bidb * h + bidh) * 32 + tidx % 32)) % 2 ^ 64
    block_row_idx :=
      (reverse_m_block kBlockM actual_seqlen_q m_block * (kBlockM / 16) + tidx / 32) % 2 ^ 32
    block_col_idx := (n_block * (kBlockN / 32)) % 2 ^ 32 }

/-! ## The bounds of the key-tile loops -/

/-- The variable `n_block_max` of `compute_attn_1rowblock` (lines 193-199): the number of
key tiles, capped under `Is_causal` by the last tile the query tile reaches.
`compute_attn_1rowblock_causal` always applies the cap (lines 718-720). -/
def n_block_max (Is_causal : Bool) (kBlockM kBlockN actual_seqlen_k m_block : Int) : Int :=
  let n_block_max := ceil_div actual_seqlen_k kBlockN
  if Is_causal then min n_block_max (ceil_div ((m_block + 1) * kBlockM) kBlockN)
  else n_block_max

/-- The constant `n_masking_steps` of `compute_attn_1rowblock` (line 380). -/
def n_masking_steps (Is_causal : Bool) (kBlockM kBlockN : Int) : Int :=
  if Is_causal then ceil_div kBlockM kBlockN else 1

/-! ## The entry point compute_attn_casual -/

/-- The kernel body a unit runs, with the template argument `Is_causal` and the arguments
`bidb`, `bidh` and `m_block` it is called with. -/
inductive KernelCall where
  | compute_attn_1rowblock (Is_causal : Bool) (bidb bidh m_block : Int) : KernelCall
  | compute_attn_1rowblock_causal (Is_causal : Bool) (bidb bidh m_block : Int) : KernelCall
  deriving DecidableEq

/-- The function `compute_attn_casual` (lines 1899-1919): the query tile is
`gridDim.x - 1 - blockIdx.x`; with the switch `Is_causal` off the unit runs
`compute_attn_1rowblock` on `blockIdx.y`, `blockIdx.z`, with it on
`compute_attn_1rowblock_causal` on the arguments `bidb`, `bidh`; both are instantiated with
`Is_causal = true`. -/
def compute_attn_casual (Is_causal : Bool)
    (bidb bidh gridDim_x blockIdx_x blockIdx_y blockIdx_z : Int) : KernelCall :=
  let m_block := gridDim_x - 1 - blockIdx_x
  if !Is_causal then KernelCall.compute_attn_1rowblock true blockIdx_y blockIdx_z m_block
  else KernelCall.compute_attn_1rowblock_causal true bidb bidh m_block

/-- The iterations of the (own) pass of the kernel body a unit runs. -/
def KernelCall.steps (Is_even_N : Bool) (kBlockM kBlockN actual_seqlen_q actual_seqlen_k : Int) :
    KernelCall → Option (List Step)
  | KernelCall.compute_attn_1rowblock Is_causal _ _ m_block =>
    compute_attn_1rowblock_steps Is_causal Is_even_N kBlockM kBlockN actual_seqlen_q
      actual_seqlen_k m_block
  | KernelCall.compute_attn_1rowblock_causal _ _ _ m_block =>
    compute_attn_1rowblock_causal_own_steps kBlockM kBlockN actual_seqlen_q actual_seqlen_k
      m_block

/-! ## Counting the iterations of a unit -/

/-- The number of iterations a unit of `compute_attn_1rowblock_causal` runs, own pass and
fragment pass together. -/
def compute_attn_1rowblock_causal_tile_count
    (kBlockM kBlockN actual_seqlen_q actual_seqlen_k m_block : Int) : Nat :=
  ((compute_attn_1rowblock_causal_own_steps kBlockM kBlockN actual_seqlen_q actual_seqlen_k
      m_block).map List.length).getD 0
    + ((compute_attn_1rowblock_causal_frag_steps kBlockM kBlockN actual_seqlen_q
      actual_seqlen_k m_block).map List.length).getD 0

/-! ## Bounds of the flag grid -/

/-- The element of `CompleteMask` an event accesses, as its three indices. -/
def Event.flag_index : Event → Option (Int × Int × Int)
  | Event.atomicAnd bidh bidb idx _ => some (bidh, bidb, idx)
  | Event.atomicOr bidh bidb idx _ => some (bidh, bidb, idx)
  | Event.atomicCAS_spin bidh bidb idx => some (bidh, bidb, idx)
  | _ => none

/-- Whether an access to `CompleteMask[32][32][1024]` (line 654) stays inside the array;
true of the events that do not touch the grid. -/
def Event.flag_in_bounds (e : Event) : Bool :=
  match e.flag_index with
  | none => true
  | some (bidh, bidb, idx) =>
    decide (0 ≤ bidh ∧ bidh < 32 ∧ 0 ≤ bidb ∧ bidb < 32 ∧ 0 ≤ idx ∧ idx < 1024)

/-! ## Finite inputs -/

/-- A key with finite entries: its score against every query row of the tile and its
row of the value matrix. -/
structure Key (ρ κ α : Type) where
  score : ρ → α
  v : κ → α

/-- The key tile made of the given keys. -/
def KVTile.ofKeys (keys : List (Key ρ κ α)) : KVTile ρ κ α where
  scores := fun mi => keys.map fun k => fin (k.score mi)
  v := keys.map fun k ni => fin (k.v ni)

/-- The closed form of the running state of row `mi` once the keys `keys` have been
processed: `scores_max` is the largest of their scores, `scores_sum` and `acc_o` are the
sums of `exp2(c * (score - scores_max))` and of `exp2(c * (score - scores_max)) * V`. -/
def RowInv (c : ℝ) (mi : ρ) (keys : List (Key ρ κ ℝ)) (st : SoftmaxState ρ κ ℝ) : Prop :=
  ∃ M : ℝ, st.scores_max mi = fin M ∧ (∃ k ∈ keys, k.score mi = M) ∧
    (∀ k ∈ keys, k.score mi ≤ M) ∧
    st.scores_sum mi = fin ((keys.map fun k => (2 : ℝ) ^ (c * (k.score mi - M))).sum) ∧
    ∀ ni, st.acc_o mi ni
      = fin ((keys.map fun k => (2 : ℝ) ^ (c * (k.score mi - M)) * k.v ni).sum)

/-! ## Arithmetic on finite values -/

namespace Flt

@[simp] theorem fin_add_fin (a b : α) : (fin a + fin b : Flt α) = fin (a + b) := rfl

@[simp] theorem fin_mul_fin (a b : α) : (fin a * fin b : Flt α) = fin (a * b) := rfl

@[simp] theorem fin_sub_fin (a b : α) : (fin a - fin b : Flt α) = fin (a - b) := by
  show add (fin a) (neg (fin b)) = fin (a - b)
  simp [add, neg, sub_eq_add_neg]

theorem fin_div_fin (a : α) {b : α} (hb : b ≠ 0) : (fin a / fin b : Flt α) = fin (a / b) := by
  show div (fin a) (fin b) = fin (a / b)
  simp [div, hb]

@[simp] theorem gt_fin_fin (a b : α) : gt (fin a) (fin b) = decide (b < a) := rfl

@[simp] theorem feq_fin_fin (a b : α) : feq (fin a) (fin b) = decide (a = b) := rfl

@[simp] theorem feq_fin_ninf (a : α) : feq (fin a) ninf = false := rfl

@[simp] theorem exp2_fin (f : α → α) (a : α) : exp2 f (fin a) = fin (f a) := rfl

@[simp] theorem fmax_fin_fin (a b : α) : fmax (fin a) (fin b) = fin (max a b) := by
  by_cases h : a < b
  · simp [fmax, h, max_eq_right h.le]
  · simp [fmax, h, max_eq_left (not_lt.mp h)]

@[simp] theorem fmax_ninf_fin (a : α) : fmax ninf (fin a) = fin a := rfl

@[simp] theorem fmax_fin_ninf (a : α) : fmax (fin a) ninf = fin a := rfl

@[simp] theorem fmax_ninf_ninf : fmax (ninf : Flt α) ninf = ninf := rfl

@[simp] theorem fmax_nan_left (y : Flt α) : fmax nan y = y := by cases y <;> rfl

@[simp] theorem fmax_nan_right (x : Flt α) : fmax x nan = x := by cases x <;> rfl

@[simp] theorem fmax_pinf_left (y : Flt α) : fmax pinf y = pinf := by cases y <;> rfl

@[simp] theorem fmax_pinf_right (x : Flt α) : fmax x pinf = pinf := by cases x <;> rfl

theorem fmax_assoc (a b c : Flt α) : fmax (fmax a b) c = fmax a (fmax b c) := by
  cases a <;> cases b <;> cases c <;> simp [max_assoc]

theorem fmax_ninf_right (a : Flt α) (h : a ≠ nan) : fmax a ninf = a := by
  cases a <;> simp_all

theorem fmax_ne_nan (a b : Flt α) (h : a ≠ nan) : fmax a b ≠ nan := by
  cases a <;> cases b <;> simp_all

theorem foldl_fmax_eq (l : List (Flt α)) (a : Flt α) (h : a ≠ nan) :
    l.foldl fmax a = fmax a (l.foldl fmax ninf) := by
  induction l generalizing a with
  | nil => exact (fmax_ninf_right a h).symm
  | cons x l ih =>
    rw [List.foldl_cons, List.foldl_cons, ih _ (fmax_ne_nan a x h)]
    cases x with
    | nan => simp
    | ninf => rw [fmax_ninf_right a h]; rfl
    | pinf => rw [fmax_assoc, fmax_pinf_right, ih pinf (by simp)]
    | fin y => rw [fmax_ninf_fin, ih (fin y) (by simp), fmax_assoc]

theorem le_fmax_left (a b : Flt α) (h : a ≠ nan) : le a (fmax a b) = true := by
  cases a <;> cases b <;> simp_all [le, gt, feq]
  rename_i x y
  exact lt_or_le x y

theorem fmax_eq_left_of_le (b : Flt α) (m : α) (h : le b (fin m) = true) :
    fmax (fin m) b = fin m := by
  cases b <;> simp_all [le, gt, feq]
  rcases h with h | h
  · exact h.le
  · exact h.le

@[simp] theorem mul_fin_one (x : Flt α) : x * fin 1 = x := by
  have h1 : ¬ ((1 : α) < 0) := not_lt.mpr zero_le_one
  cases x <;> first | rfl | (show mul _ _ = _; simp [mul, sign, ofSign, h1])

theorem sum_map_fin {β : Type} (f : β → α) (l : List β) :
    Flt.sum (l.map fun x => fin (f x)) = fin (l.map f).sum := by
  induction l with
  | nil => rfl
  | cons a l ih => simp [Flt.sum, ih]

theorem foldl_fmax_fin (l : List α) (a : α) :
    (l.map fin).foldl fmax (fin a) = fin (l.foldl max a) := by
  induction l generalizing a with
  | nil => rfl
  | cons b l ih => simp [ih]

end Flt

/-! ## Lists of reals -/

theorem le_foldl_max (l : List ℝ) (a : ℝ) : a ≤ l.foldl max a := by
  induction l generalizing a with
  | nil => exact le_refl a
  | cons b l ih => exact le_trans (le_max_left a b) (ih (max a b))

theorem mem_le_foldl_max (l : List ℝ) (a x : ℝ) (hx : x ∈ l) : x ≤ l.foldl max a := by
  induction l generalizing a with
  | nil => cases hx
  | cons b l ih =>
    rcases List.mem_cons.mp hx with h | h
    · subst h
      exact le_trans (le_max_right a x) (le_foldl_max l (max a x))
    · exact ih (max a b) h

theorem foldl_max_eq_or_mem (l : List ℝ) (a : ℝ) : l.foldl max a = a ∨ l.foldl max a ∈ l := by
  induction l generalizing a with
  | nil => exact Or.inl rfl
  | cons b l ih =>
    rcases ih (max a b) with h | h
    · show List.foldl max (max a b) l = a ∨ List.foldl max (max a b) l ∈ b :: l
      rw [h]
      rcases max_choice a b with h2 | h2 <;> rw [h2]
      · exact Or.inl rfl
      · exact Or.inr (List.mem_cons_self b l)
    · exact Or.inr (List.mem_cons_of_mem b h)

theorem zipWith_map_map {β γ δ ε : Type} (f : γ → δ → ε) (g : β → γ) (h : β → δ) (l : List β) :
    List.zipWith f (l.map g) (l.map h) = l.map fun x => f (g x) (h x) := by
  induction l with
  | nil => rfl
  | cons a l ih => simp [ih]

theorem rpow_shift (c s M N : ℝ) :
    (2 : ℝ) ^ (c * (s - M)) * (2 : ℝ) ^ ((M - N) * c) = (2 : ℝ) ^ (c * (s - N)) := by
  rw [← Real.rpow_add (by norm_num : (0 : ℝ) < 2)]
  congr 1
  ring

/-! ## The closed form of the running state -/

theorem rowInv_first (b : Bool) (c : ℝ) (mi : ρ) (k : Key ρ κ ℝ) (t : List (Key ρ κ ℝ))
    (st : SoftmaxState ρ κ ℝ) (h0 : ∀ ni, st.acc_o mi ni = fin 0) :
    RowInv c mi (k :: t)
      (attn_tile (fun x : ℝ => 2 ^ x) true b (fin c) st (KVTile.ofKeys (k :: t))) := by
  have hmax : (List.map (fun k : Key ρ κ ℝ => fin (k.score mi)) t).foldl fmax (fin (k.score mi))
      = fin ((t.map fun k => k.score mi).foldl max (k.score mi)) := by
    rw [← foldl_fmax_fin, List.map_map]; rfl
  refine ⟨(t.map fun k => k.score mi).foldl max (k.score mi), ?_, ?_, ?_, ?_, ?_⟩
  · simp [attn_tile, softmax_rescale_o, reduce_max, KVTile.ofKeys, hmax]
  · rcases foldl_max_eq_or_mem (t.map fun k => k.score mi) (k.score mi) with h | h
    · exact ⟨k, List.mem_cons_self _ _, h.symm⟩
    · obtain ⟨k1, hk1, hk1e⟩ := List.mem_map.mp h
      exact ⟨k1, List.mem_cons_of_mem _ hk1, hk1e⟩
  · intro k1 hk1
    rcases List.mem_cons.mp hk1 with h | h
    · subst h
      exact le_foldl_max _ _
    · exact mem_le_foldl_max _ _ _ (List.mem_map.mpr ⟨k1, h, rfl⟩)
  · simp only [attn_tile, softmax_rescale_o, reduce_max, reduce_sum, scale_apply_exp2,
      KVTile.ofKeys, if_true, List.map_cons, List.foldl_cons, fmax_ninf_fin, hmax,
      feq_fin_ninf, Bool.false_eq_true, if_false, fin_sub_fin, fin_mul_fin, exp2_fin,
      List.map_map, Flt.sum, Function.comp_def, sum_map_fin, fin_add_fin, List.sum_cons]
  · intro ni
    simp only [attn_tile, softmax_rescale_o, reduce_max, reduce_sum, scale_apply_exp2,
      KVTile.ofKeys, gemm_A_in_regs, if_true, List.map_cons, List.foldl_cons, fmax_ninf_fin,
      hmax, feq_fin_ninf, Bool.false_eq_true, if_false, fin_sub_fin, fin_mul_fin, exp2_fin,
      List.zipWith_cons_cons, List.map_map, Function.comp_def, zipWith_map_map, h0, Flt.sum,
      sum_map_fin, fin_add_fin, List.sum_cons, zero_add]

theorem rowInv_step (b : Bool) (c : ℝ) (mi : ρ) (keys t : List (Key ρ κ ℝ))
    (st : SoftmaxState ρ κ ℝ) (h : RowInv c mi keys st) :
    RowInv c mi (keys ++ t)
      (attn_tile (fun x : ℝ => 2 ^ x) false b (fin c) st (KVTile.ofKeys t)) := by
  obtain ⟨M, hM, ⟨k0, hk0, hk0M⟩, hub, hsum, hacc⟩ := h
  have hmax : (List.map (fun k : Key ρ κ ℝ => fin (k.score mi)) t).foldl fmax (fin M)
      = fin ((t.map fun k => k.score mi).foldl max M) := by
    rw [← foldl_fmax_fin, List.map_map]; rfl
  have hscale : scores_scale (fun x : ℝ => 2 ^ x) b (fin M)
      (fin ((t.map fun k => k.score mi).foldl max M)) (fin c)
      = fin ((2 : ℝ) ^ ((M - (t.map fun k => k.score mi).foldl max M) * c)) := by
    cases b <;> simp [scores_scale]
  refine ⟨(t.map fun k => k.score mi).foldl max M, ?_, ?_, ?_, ?_, ?_⟩
  · simp [attn_tile, softmax_rescale_o, reduce_max, KVTile.ofKeys, hM, hmax]
  · rcases foldl_max_eq_or_mem (t.map fun k => k.score mi) M with h | h
    · exact ⟨k0, List.mem_append_left _ hk0, by rw [h, hk0M]⟩
    · obtain ⟨k1, hk1, hk1e⟩ := List.mem_map.mp h
      exact ⟨k1, List.mem_append_right _ hk1, hk1e⟩
  · intro k1 hk1
    rcases List.mem_append.mp hk1 with h | h
    · exact le_trans (hub k1 h) (le_foldl_max _ _)
    · exact mem_le_foldl_max _ _ _ (List.mem_map.mpr ⟨k1, h, rfl⟩)
  · simp only [attn_tile, softmax_rescale_o, reduce_max, reduce_sum, scale_apply_exp2,
      KVTile.ofKeys, Bool.false_eq_true, if_false, hM, hmax, hscale, hsum, feq_fin_ninf,
      fin_sub_fin, fin_mul_fin, exp2_fin, List.map_map, Function.comp_def, sum_map_fin,
      fin_add_fin, List.map_append, List.sum_append]
    rw [← List.sum_map_mul_right]
    simp only [rpow_shift]
  · intro ni
    simp only [attn_tile, softmax_rescale_o, reduce_max, reduce_sum, scale_apply_exp2,
      KVTile.ofKeys, gemm_A_in_regs, Bool.false_eq_true, if_false, hM, hmax, hscale, hacc,
      feq_fin_ninf, fin_sub_fin, fin_mul_fin, exp2_fin, List.map_map, Function.comp_def,
      zipWith_map_map, sum_map_fin, fin_add_fin, List.map_append, List.sum_append]
    rw [← List.sum_map_mul_right]
    congr 3
    apply List.map_congr_left
    intro k _
    rw [mul_right_comm, rpow_shift]

theorem rowInv_foldl (b : Bool) (c : ℝ) (mi : ρ) (ts : List (List (Key ρ κ ℝ)))
    (keys : List (Key ρ κ ℝ)) (st : SoftmaxState ρ κ ℝ) (h : RowInv c mi keys st) :
    RowInv c mi (keys ++ ts.flatten)
      ((ts.map KVTile.ofKeys).foldl (attn_tile (fun x : ℝ => 2 ^ x) false b (fin c)) st) := by
  induction ts generalizing keys st with
  | nil => simpa using h
  | cons t ts ih =>
    have := ih (keys ++ t) _ (rowInv_step b c mi keys t st h)
    simpa [List.append_assoc] using this

theorem rowInv_attn_tiles (b : Bool) (c : ℝ) (mi : ρ) (t : List (Key ρ κ ℝ))
    (ts : List (List (Key ρ κ ℝ))) (ht : t ≠ []) (st0 : SoftmaxState ρ κ ℝ) :
    RowInv c mi (t :: ts).flatten
      (attn_tiles (fun x : ℝ => 2 ^ x) b (fin c) st0 ((t :: ts).map KVTile.ofKeys)) := by
  obtain ⟨k, t1, rfl⟩ := List.exists_cons_of_ne_nil ht
  exact rowInv_foldl b c mi ts (k :: t1) _
    (rowInv_first b c mi k t1 { st0 with acc_o := fun _ _ => fin 0 } (fun _ => rfl))

theorem rowInv_sum_pos (c : ℝ) (mi : ρ) (M : ℝ) (keys : List (Key ρ κ ℝ)) (h : keys ≠ []) :
    0 < (keys.map fun k => (2 : ℝ) ^ (c * (k.score mi - M))).sum := by
  obtain ⟨k, t, rfl⟩ := List.exists_cons_of_ne_nil h
  have h2 : ∀ x : ℝ, 0 < (2 : ℝ) ^ x := fun x => Real.rpow_pos_of_pos (by norm_num) x
  have h3 : 0 ≤ (t.map fun k => (2 : ℝ) ^ (c * (k.score mi - M))).sum :=
    List.sum_nonneg (by
      intro x hx
      obtain ⟨k1, _, rfl⟩ := List.mem_map.mp hx
      exact (h2 _).le)
  simpa using add_pos_of_pos_of_nonneg (h2 (c * (k.score mi - M))) h3

theorem softmax_normalise (c M : ℝ) (mi : ρ) (ni : κ) (keys : List (Key ρ κ ℝ))
    (h : keys ≠ []) :
    (keys.map fun k => (2 : ℝ) ^ (c * (k.score mi - M)) * k.v ni).sum
        * (1 / (keys.map fun k => (2 : ℝ) ^ (c * (k.score mi - M))).sum)
      = (keys.map fun k => (2 : ℝ) ^ (c * k.score mi)
          / (keys.map fun k1 => (2 : ℝ) ^ (c * k1.score mi)).sum * k.v ni).sum := by
  have hE : ∀ s : ℝ, (2 : ℝ) ^ (c * (s - M)) = (2 : ℝ) ^ (-(c * M)) * (2 : ℝ) ^ (c * s) := by
    intro s
    rw [← Real.rpow_add (by norm_num : (0 : ℝ) < 2)]
    congr 1
    ring
  have hEpos : (0 : ℝ) < (2 : ℝ) ^ (-(c * M)) := Real.rpow_pos_of_pos (by norm_num) _
  have hZ : 0 < (keys.map fun k => (2 : ℝ) ^ (c * k.score mi)).sum := by
    simpa using rowInv_sum_pos c mi 0 keys h
  have h1 : (keys.map fun k => (2 : ℝ) ^ (c * (k.score mi - M)) * k.v ni).sum
      = (2 : ℝ) ^ (-(c * M)) * (keys.map fun k => (2 : ℝ) ^ (c * k.score mi) * k.v ni).sum := by
    rw [← List.sum_map_mul_left]
    congr 1
    apply List.map_congr_left
    intro k _
    rw [hE, mul_assoc]
  have h2 : (keys.map fun k => (2 : ℝ) ^ (c * (k.score mi - M))).sum
      = (2 : ℝ) ^ (-(c * M)) * (keys.map fun k => (2 : ℝ) ^ (c * k.score mi)).sum := by
    rw [← List.sum_map_mul_left]
    congr 1
    apply List.map_congr_left
    intro k _
    rw [hE]
  have h3 : (keys.map fun k => (2 : ℝ) ^ (c * k.score mi)
          / (keys.map fun k1 => (2 : ℝ) ^ (c * k1.score mi)).sum * k.v ni).sum
      = (keys.map fun k => (2 : ℝ) ^ (c * k.score mi) * k.v ni).sum
          * ((keys.map fun k1 => (2 : ℝ) ^ (c * k1.score mi)).sum)⁻¹ := by
    rw [← List.sum_map_mul_right]
    congr 1
    apply List.map_congr_left
    intro k _
    rw [div_eq_mul_inv]
    ring
  rw [h1, h2, h3]
  field_simp
  ring

theorem softmaxState_ext (a b : SoftmaxState ρ κ ℝ)
    (h1 : ∀ mi, a.scores_max mi = b.scores_max mi)
    (h2 : ∀ mi, a.scores_sum mi = b.scores_sum mi)
    (h3 : ∀ mi ni, a.acc_o mi ni = b.acc_o mi ni) : a = b := by
  cases a
  cases b
  simp only [SoftmaxState.mk.injEq]
  exact ⟨funext h1, funext h2, funext fun mi => funext (h3 mi)⟩

theorem rowInv_perm (c : ℝ) (mi : ρ) (keys keys1 : List (Key ρ κ ℝ))
    (st st1 : SoftmaxState ρ κ ℝ) (hp : keys.Perm keys1) (h : RowInv c mi keys st)
    (h1 : RowInv c mi keys1 st1) :
    st.scores_max mi = st1.scores_max mi ∧ st.scores_sum mi = st1.scores_sum mi ∧
      ∀ ni, st.acc_o mi ni = st1.acc_o mi ni := by
  obtain ⟨M, hM, ⟨k, hk, hkM⟩, hub, hsum, hacc⟩ := h
  obtain ⟨N, hN, ⟨k1, hk1, hk1N⟩, hub1, hsum1, hacc1⟩ := h1
  have hMN : M = N := by
    apply le_antisymm
    · rw [← hkM]
      exact hub1 k (hp.subset hk)
    · rw [← hk1N]
      exact hub k1 (hp.symm.subset hk1)
  subst hMN
  refine ⟨by rw [hM, hN], ?_, ?_⟩
  · rw [hsum, hsum1, (hp.map _).sum_eq]
  · intro ni
    rw [hacc, hacc1, (hp.map _).sum_eq]

/-! ## The claims on the streaming softmax -/

/-- Claim C2: running-state invariant of `softmax_rescale_o`.  Whatever the state before
the loop, after the first-block transition on a tile `t` and the subsequent-block
transitions on any further tiles `ts`, with finite scores, the running maximum of every
row is the largest score of the row processed so far and the running sum is the sum of
`exp2(c * (score - running_max))` over the scores processed so far. -/
theorem running_state_invariant (Check_inf : Bool) (c : ℝ) (st0 : SoftmaxState ρ κ ℝ)
    (t : List (Key ρ κ ℝ)) (ts : List (List (Key ρ κ ℝ))) (ht : t ≠ []) (mi : ρ) :
    ∃ M : ℝ,
      (attn_tiles (fun x : ℝ => 2 ^ x) Check_inf (fin c) st0
          ((t :: ts).map KVTile.ofKeys)).scores_max mi = fin M ∧
      (∃ k ∈ (t :: ts).flatten, k.score mi = M) ∧
      (∀ k ∈ (t :: ts).flatten, k.score mi ≤ M) ∧
      (attn_tiles (fun x : ℝ => 2 ^ x) Check_inf (fin c) st0
          ((t :: ts).map KVTile.ofKeys)).scores_sum mi
        = fin (((t :: ts).flatten.map fun k => (2 : ℝ) ^ (c * (k.score mi - M))).sum) := by
  obtain ⟨M, h1, h2, h3, h4, _⟩ := rowInv_attn_tiles Check_inf c mi t ts ht st0
  exact ⟨M, h1, h2, h3, h4⟩

/-- Claim C1: the non-causal path without dropout computes the softmax-weighted average.
For every query row `mi`, every output column `ni` and every non-empty sequence of key
tiles with finite scores, folding the tiles through `softmax_rescale_o` (first-block on
the first tile, subsequent-block on the rest, each followed by `acc_o += P V`) and applying
the epilogue leaves `sum_j w_j * V_j` with `w_j = exp2(c * s_j) / sum_k exp2(c * s_k)`, the
sums ranging over all keys of all tiles. -/
theorem output_is_softmax_average (Check_inf : Bool) (logf : ℝ → ℝ) (c : ℝ)
    (scale_softmax rp_dropout : Flt ℝ) (st0 : SoftmaxState ρ κ ℝ)
    (t : List (Key ρ κ ℝ)) (ts : List (List (Key ρ κ ℝ))) (ht : t ≠ []) (mi : ρ) (ni : κ) :
    (epilogue logf false
        (attn_tiles (fun x : ℝ => 2 ^ x) Check_inf (fin c) st0 ((t :: ts).map KVTile.ofKeys))
        scale_softmax rp_dropout).acc_o mi ni
      = fin (((t :: ts).flatten.map fun k =>
          (2 : ℝ) ^ (c * k.score mi)
            / ((t :: ts).flatten.map fun k1 => (2 : ℝ) ^ (c * k1.score mi)).sum * k.v ni).sum) := by
  obtain ⟨M, _, _, _, hsum, hacc⟩ := rowInv_attn_tiles Check_inf c mi t ts ht st0
  have hne : (t :: ts).flatten ≠ [] := by
    obtain ⟨k, t1, rfl⟩ := List.exists_cons_of_ne_nil ht
    simp
  have hpos := rowInv_sum_pos c mi M (t :: ts).flatten hne
  rw [← softmax_normalise c M mi ni _ hne]
  simp only [epilogue, hsum, hacc ni, feq_fin_fin, hpos.ne', decide_False, decide_True,
    Bool.not_true, Bool.or_false, Bool.false_eq_true, if_false, Bool.not_false, if_true,
    fin_div_fin 1 hpos.ne', fin_mul_fin]

/-- Claim C7: order-independence of the online-softmax recurrence.  For every list of key
tiles with finite scores (each with at least one key) and every permutation of it, folding
the tiles through `softmax_rescale_o` (first-block on whichever tile comes first,
subsequent-block afterwards, each followed by `acc_o += P V`) leaves the same running
maximum, running sum and `acc_o`, hence the same normalised output and LSE. -/
theorem online_softmax_order_independent (Check_inf : Bool) (c : ℝ)
    (st0 : SoftmaxState ρ κ ℝ) (ts ts1 : List (List (Key ρ κ ℝ))) (hp : ts.Perm ts1)
    (hne : ∀ t ∈ ts, t ≠ []) :
    attn_tiles (fun x : ℝ => 2 ^ x) Check_inf (fin c) st0 (ts.map KVTile.ofKeys)
        = attn_tiles (fun x : ℝ => 2 ^ x) Check_inf (fin c) st0 (ts1.map KVTile.ofKeys) ∧
      ∀ (logf : ℝ → ℝ) (Is_dropout : Bool) (scale_softmax rp_dropout : Flt ℝ),
        epilogue logf Is_dropout
            (attn_tiles (fun x : ℝ => 2 ^ x) Check_inf (fin c) st0 (ts.map KVTile.ofKeys))
            scale_softmax rp_dropout
          = epilogue logf Is_dropout
            (attn_tiles (fun x : ℝ => 2 ^ x) Check_inf (fin c) st0 (ts1.map KVTile.ofKeys))
            scale_softmax rp_dropout := by
  have key : attn_tiles (fun x : ℝ => 2 ^ x) Check_inf (fin c) st0 (ts.map KVTile.ofKeys)
      = attn_tiles (fun x : ℝ => 2 ^ x) Check_inf (fin c) st0 (ts1.map KVTile.ofKeys) := by
    cases ts with
    | nil =>
      rw [List.nil_perm.mp hp]
    | cons t ts =>
      cases ts1 with
      | nil => exact absurd (List.perm_nil.mp hp) (List.cons_ne_nil t ts)
      | cons t1 ts1 =>
        have ht : t ≠ [] := hne t (List.mem_cons_self t ts)
        have ht1 : t1 ≠ [] := hne t1 (hp.symm.subset (List.mem_cons_self t1 ts1))
        have hflat : (t :: ts).flatten.Perm (t1 :: ts1).flatten := hp.flatten
        have hall := fun mi => rowInv_perm c mi _ _ _ _ hflat
          (rowInv_attn_tiles Check_inf c mi t ts ht st0)
          (rowInv_attn_tiles Check_inf c mi t1 ts1 ht1 st0)
        exact softmaxState_ext _ _ (fun mi => (hall mi).1) (fun mi => (hall mi).2.1)
          (fun mi ni => (hall mi).2.2 ni)
  exact ⟨key, fun logf d ss rp => by rw [key]⟩

/-- Claim C8, amended.  The subsequent-block transition of `softmax_rescale_o` sets the
running maximum of a row to the larger of the old running maximum and the row maximum of
the new tile, so the running maximum (NaN aside) never decreases.  When the old running
maximum is finite and the row maximum of the new tile does not exceed it, the running
maximum is unchanged, the local `scores_scale` is exactly 1, the accumulator row is
unchanged and the running sum only gains the row sum of the new tile. -/
theorem rescale_max_monotone (Check_inf : Bool) (scores : ρ → List (Flt ℝ))
    (st : SoftmaxState ρ κ ℝ) (c : ℝ) (mi : ρ) (hnan : st.scores_max mi ≠ nan) :
    (softmax_rescale_o (fun x : ℝ => 2 ^ x) false Check_inf scores st (fin c)).2.scores_max mi
        = fmax (st.scores_max mi) (reduce_max true scores st.scores_max mi) ∧
      le (st.scores_max mi)
        ((softmax_rescale_o (fun x : ℝ => 2 ^ x) false Check_inf scores st (fin c)).2.scores_max
          mi) = true ∧
      ∀ m : ℝ, st.scores_max mi = fin m →
        le (reduce_max true scores st.scores_max mi) (st.scores_max mi) = true →
        (softmax_rescale_o (fun x : ℝ => 2 ^ x) false Check_inf scores st (fin c)).2.scores_max
            mi = st.scores_max mi ∧
          scores_scale (fun x : ℝ => 2 ^ x) Check_inf (st.scores_max mi)
            ((softmax_rescale_o (fun x : ℝ => 2 ^ x) false Check_inf scores st
              (fin c)).2.scores_max mi) (fin c) = fin 1 ∧
          (softmax_rescale_o (fun x : ℝ => 2 ^ x) false Check_inf scores st (fin c)).2.scores_sum
              mi
            = st.scores_sum mi
              + reduce_sum
                (softmax_rescale_o (fun x : ℝ => 2 ^ x) false Check_inf scores st (fin c)).1 mi ∧
          ∀ ni,
            (softmax_rescale_o (fun x : ℝ => 2 ^ x) false Check_inf scores st (fin c)).2.acc_o
              mi ni = st.acc_o mi ni := by
  have hnew : (softmax_rescale_o (fun x : ℝ => 2 ^ x) false Check_inf scores st
      (fin c)).2.scores_max mi
      = fmax (st.scores_max mi) (reduce_max true scores st.scores_max mi) := by
    simp only [softmax_rescale_o, reduce_max, Bool.false_eq_true, if_false, if_true]
    exact foldl_fmax_eq _ _ hnan
  refine ⟨hnew, ?_, ?_⟩
  · rw [hnew]
    exact le_fmax_left _ _ hnan
  · intro m hm hle
    have hsame : (softmax_rescale_o (fun x : ℝ => 2 ^ x) false Check_inf scores st
        (fin c)).2.scores_max mi = st.scores_max mi := by
      rw [hnew, hm]
      rw [hm] at hle
      exact fmax_eq_left_of_le _ m hle
    have hscale : scores_scale (fun x : ℝ => 2 ^ x) Check_inf (st.scores_max mi)
        ((softmax_rescale_o (fun x : ℝ => 2 ^ x) false Check_inf scores st
          (fin c)).2.scores_max mi) (fin c) = fin 1 := by
      rw [hsame, hm]
      cases Check_inf <;> simp [scores_scale]
    have hscale1 : scores_scale (fun x : ℝ => 2 ^ x) Check_inf (st.scores_max mi)
        (reduce_max false scores st.scores_max mi) (fin c) = fin 1 := hscale
    refine ⟨hsame, hscale, ?_, ?_⟩
    · simp only [softmax_rescale_o, Bool.false_eq_true, if_false, hscale1, mul_fin_one]
    · intro ni
      simp only [softmax_rescale_o, Bool.false_eq_true, if_false, hscale1, mul_fin_one]

/-- Claim C8 as stated fails on a row whose keys so far were all masked: after the
first-block transition on a fully masked row the running maximum is minus infinity; a
second fully masked tile has a row maximum that does not exceed it and leaves it unchanged,
but with `Check_inf` the local `scores_scale` is 0, not 1. -/
theorem rescale_factor_zero_on_masked_row :
    le (reduce_max true (fun _ : Unit => [(ninf : Flt ℝ)])
          (softmax_rescale_o (fun x : ℝ => 2 ^ x) true true (fun _ : Unit => [ninf])
            (SoftmaxState.mk (fun _ => fin 0) (fun _ => fin 0) (fun _ (_ : Unit) => fin 0))
            (fin 1)).2.scores_max ())
        ((softmax_rescale_o (fun x : ℝ => 2 ^ x) true true (fun _ : Unit => [ninf])
            (SoftmaxState.mk (fun _ => fin 0) (fun _ => fin 0) (fun _ (_ : Unit) => fin 0))
            (fin 1)).2.scores_max ()) = true ∧
      (softmax_rescale_o (fun x : ℝ => 2 ^ x) false true (fun _ : Unit => [ninf])
          (softmax_rescale_o (fun x : ℝ => 2 ^ x) true true (fun _ : Unit => [ninf])
            (SoftmaxState.mk (fun _ => fin 0) (fun _ => fin 0) (fun _ (_ : Unit) => fin 0))
            (fin 1)).2 (fin 1)).2.scores_max ()
        = (softmax_rescale_o (fun x : ℝ => 2 ^ x) true true (fun _ : Unit => [ninf])
            (SoftmaxState.mk (fun _ => fin 0) (fun _ => fin 0) (fun _ (_ : Unit) => fin 0))
            (fin 1)).2.scores_max () ∧
      scores_scale (fun x : ℝ => 2 ^ x) true
          ((softmax_rescale_o (fun x : ℝ => 2 ^ x) true true (fun _ : Unit => [ninf])
            (SoftmaxState.mk (fun _ => fin 0) (fun _ => fin 0) (fun _ (_ : Unit) => fin 0))
            (fin 1)).2.scores_max ())
          ((softmax_rescale_o (fun x : ℝ => 2 ^ x) false true (fun _ : Unit => [ninf])
            (softmax_rescale_o (fun x : ℝ => 2 ^ x) true true (fun _ : Unit => [ninf])
              (SoftmaxState.mk (fun _ => fin 0) (fun _ => fin 0) (fun _ (_ : Unit) => fin 0))
              (fin 1)).2 (fin 1)).2.scores_max ()) (fin 1)
        ≠ fin 1 := by
  have h1 : ¬ ((1 : ℝ) < 0) := by norm_num
  have hsub : (ninf - fin 0 : Flt ℝ) = ninf := rfl
  have hmul : (ninf * fin 1 : Flt ℝ) = ninf := by
    show Flt.mul ninf (fin 1) = ninf
    simp [Flt.mul, sign, ofSign, h1]
  refine ⟨?_, ?_, ?_⟩
  · simp [softmax_rescale_o, reduce_max, le, feq]
  · simp [softmax_rescale_o, reduce_max]
  · simp [softmax_rescale_o, reduce_max, scores_scale, feq, hsub, hmul, Flt.exp2]

/-! ## The claims on the merge -/

theorem merge_row_finite (s : MergeState ρ κ ℝ) (c : ℝ) (mi : ρ) (ni : κ)
    (m1 s1 m2 s2 o1 o2 : ℝ)
    (hm1 : s.scores_max_1 mi = fin m1) (hs1 : s.scores_sum_1 mi = fin s1)
    (hm2 : s.scores_max_2 mi = fin m2) (hs2 : s.scores_sum_2 mi = fin s2)
    (ho1 : s.acc_o_1 mi ni = fin o1) (ho2 : s.acc_o_2 mi ni = fin o2)
    (h1 : s1 ≠ 0) (hk : 1 + s2 / s1 * (2 : ℝ) ^ ((m2 - m1) * c) ≠ 0) :
    (softmax_merge_o (fun x : ℝ => 2 ^ x) s (fin c)).scores_max_1 mi = fin (max m1 m2) ∧
      (softmax_merge_o (fun x : ℝ => 2 ^ x) s (fin c)).scores_sum_1 mi
        = fin (s1 * (2 : ℝ) ^ ((m1 - max m1 m2) * c) + s2 * (2 : ℝ) ^ ((m2 - max m1 m2) * c)) ∧
      (softmax_merge_o (fun x : ℝ => 2 ^ x) s (fin c)).acc_o_2 mi ni
        = fin (o1 * (1 / (1 + s2 / s1 * (2 : ℝ) ^ ((m2 - m1) * c)))
            + o2 * (1 - 1 / (1 + s2 / s1 * (2 : ℝ) ^ ((m2 - m1) * c)))) := by
  have hmax : (if gt (fin m2) (fin m1) = true then (fin m2 : Flt ℝ) else fin m1)
      = fin (max m1 m2) := by
    by_cases h : m1 < m2
    · simp [h, max_eq_right h.le]
    · simp [h, max_eq_left (not_lt.mp h)]
  refine ⟨?_, ?_, ?_⟩
  · simp only [softmax_merge_o, hm1, hm2, hmax]
  · simp only [softmax_merge_o, hm1, hm2, hs1, hs2, hmax, fin_sub_fin, fin_mul_fin, exp2_fin,
      fin_add_fin]
  · simp only [softmax_merge_o, hm1, hm2, hs1, hs2, ho1, ho2, fin_sub_fin, fin_mul_fin,
      exp2_fin, fin_add_fin, fin_div_fin s2 h1, fin_div_fin 1 hk]

/-- Claim C6: `softmax_merge_o` implements the merge formulas of the specification, row
by row, on finite partial states whose divisions are defined: `new_max = max(max1, max2)`,
`k = (sum2 / sum1) * exp2(c * (max2 - max1))`, `blend_weight = 1 / (1 + k)`, every element
of the merged output is `output1 * blend_weight + output2 * (1 - blend_weight)`, and
`merged_sum = sum1 * exp2(c * (max1 - new_max)) + sum2 * exp2(c * (max2 - new_max))`.  The
merged output is stored in `acc_o_2`, the merged sum and maximum in `scores_sum_1` and
`scores_max_1`; `acc_o_1`, `scores_max_2` and `scores_sum_2` are unchanged. -/
theorem merge_implements_formulas (s : MergeState ρ κ ℝ) (c : ℝ) (mi : ρ) (ni : κ)
    (m1 s1 m2 s2 o1 o2 : ℝ)
    (hm1 : s.scores_max_1 mi = fin m1) (hs1 : s.scores_sum_1 mi = fin s1)
    (hm2 : s.scores_max_2 mi = fin m2) (hs2 : s.scores_sum_2 mi = fin s2)
    (ho1 : s.acc_o_1 mi ni = fin o1) (ho2 : s.acc_o_2 mi ni = fin o2)
    (h1 : s1 ≠ 0) (hk : 1 + s2 / s1 * (2 : ℝ) ^ (c * (m2 - m1)) ≠ 0) :
    (softmax_merge_o (fun x : ℝ => 2 ^ x) s (fin c)).scores_max_1 mi = fin (max m1 m2) ∧
      (softmax_merge_o (fun x : ℝ => 2 ^ x) s (fin c)).scores_sum_1 mi
        = fin (s1 * (2 : ℝ) ^ (c * (m1 - max m1 m2)) + s2 * (2 : ℝ) ^ (c * (m2 - max m1 m2))) ∧
      (softmax_merge_o (fun x : ℝ => 2 ^ x) s (fin c)).acc_o_2 mi ni
        = fin (o1 * (1 / (1 + s2 / s1 * (2 : ℝ) ^ (c * (m2 - m1))))
            + o2 * (1 - 1 / (1 + s2 / s1 * (2 : ℝ) ^ (c * (m2 - m1))))) ∧
      (softmax_merge_o (fun x : ℝ => 2 ^ x) s (fin c)).acc_o_1 = s.acc_o_1 ∧
      (softmax_merge_o (fun x : ℝ => 2 ^ x) s (fin c)).scores_max_2 = s.scores_max_2 ∧
      (softmax_merge_o (fun x : ℝ => 2 ^ x) s (fin c)).scores_sum_2 = s.scores_sum_2 := by
  rw [mul_comm c (m2 - m1)] at hk
  obtain ⟨h2, h3, h4⟩ := merge_row_finite s c mi ni m1 s1 m2 s2 o1 o2 hm1 hs1 hm2 hs2 ho1 ho2
    h1 hk
  rw [mul_comm c (m2 - m1), mul_comm c (m1 - max m1 m2), mul_comm c (m2 - max m1 m2)]
  exact ⟨h2, h3, h4, rfl, rfl, rfl⟩

theorem merge_blend_symm (o1 o2 s1 s2 a : ℝ) (h1 : 0 < s1) (h2 : 0 < s2) (ha : 0 < a) :
    o1 * (1 / (1 + s2 / s1 * a)) + o2 * (1 - 1 / (1 + s2 / s1 * a))
      = o2 * (1 / (1 + s1 / s2 * a⁻¹)) + o1 * (1 - 1 / (1 + s1 / s2 * a⁻¹)) := by
  have e1 : 1 + s2 / s1 * a = (s1 + s2 * a) / s1 := by field_simp
  have e2 : 1 + s1 / s2 * a⁻¹ = (s1 + s2 * a) / (s2 * a) := by field_simp; ring
  have hpos : 0 < s1 + s2 * a := by positivity
  rw [e1, e2]
  field_simp
  ring

/-- Claim C5: merge order-independence.  For two partial states with finite entries and
positive sums, the merged output, the merged sum and the merged maximum obtained by calling
`softmax_merge_o` with the states in one order equal those obtained with the states
exchanged. -/
theorem merge_order_independent (s : MergeState ρ κ ℝ) (c : ℝ) (mi : ρ) (ni : κ)
    (m1 s1 m2 s2 o1 o2 : ℝ)
    (hm1 : s.scores_max_1 mi = fin m1) (hs1 : s.scores_sum_1 mi = fin s1)
    (hm2 : s.scores_max_2 mi = fin m2) (hs2 : s.scores_sum_2 mi = fin s2)
    (ho1 : s.acc_o_1 mi ni = fin o1) (ho2 : s.acc_o_2 mi ni = fin o2)
    (h1 : 0 < s1) (h2 : 0 < s2) :
    (softmax_merge_o (fun x : ℝ => 2 ^ x) s (fin c)).acc_o_2 mi ni
        = (softmax_merge_o (fun x : ℝ => 2 ^ x) s.swap (fin c)).acc_o_2 mi ni ∧
      (softmax_merge_o (fun x : ℝ => 2 ^ x) s (fin c)).scores_sum_1 mi
        = (softmax_merge_o (fun x : ℝ => 2 ^ x) s.swap (fin c)).scores_sum_1 mi ∧
      (softmax_merge_o (fun x : ℝ => 2 ^ x) s (fin c)).scores_max_1 mi
        = (softmax_merge_o (fun x : ℝ => 2 ^ x) s.swap (fin c)).scores_max_1 mi := by
  have hpow : ∀ x : ℝ, 0 < (2 : ℝ) ^ x := fun x => Real.rpow_pos_of_pos (by norm_num) x
  have hk : 1 + s2 / s1 * (2 : ℝ) ^ ((m2 - m1) * c) ≠ 0 :=
    (add_pos_of_pos_of_nonneg one_pos (mul_pos (div_pos h2 h1) (hpow _)).le).ne'
  have hk1 : 1 + s1 / s2 * (2 : ℝ) ^ ((m1 - m2) * c) ≠ 0 :=
    (add_pos_of_pos_of_nonneg one_pos (mul_pos (div_pos h1 h2) (hpow _)).le).ne'
  obtain ⟨a1, a2, a3⟩ := merge_row_finite s c mi ni m1 s1 m2 s2 o1 o2 hm1 hs1 hm2 hs2 ho1 ho2
    h1.ne' hk
  obtain ⟨b1, b2, b3⟩ := merge_row_finite s.swap c mi ni m2 s2 m1 s1 o2 o1 hm2 hs2 hm1 hs1
    ho2 ho1 h2.ne' hk1
  have hinv : (2 : ℝ) ^ ((m1 - m2) * c) = ((2 : ℝ) ^ ((m2 - m1) * c))⁻¹ := by
    rw [← Real.rpow_neg (by norm_num : (0 : ℝ) ≤ 2)]
    congr 1
    ring
  refine ⟨?_, ?_, ?_⟩
  · rw [a3, b3, hinv, merge_blend_symm o1 o2 s1 s2 _ h1 h2 (hpow _)]
  · rw [a2, b2, max_comm m2 m1, add_comm]
  · rw [a1, b1, max_comm]

theorem merge_blend_exact (A1 L1 A2 L2 e1 e2 a : ℝ) (hL1 : 0 < L1) (hL2 : 0 < L2)
    (he1 : 0 < e1) (he2 : 0 < e2) (ha : a * e1 = e2) :
    A1 / L1 * (1 / (1 + L2 / L1 * a)) + A2 / L2 * (1 - 1 / (1 + L2 / L1 * a))
      = (A1 * e1 + A2 * e2) / (L1 * e1 + L2 * e2) := by
  subst ha
  have hapos : 0 < a := by
    by_contra h
    exact absurd he2 (not_lt.mpr (mul_nonpos_of_nonpos_of_nonneg (not_lt.mp h) he1.le))
  have e3 : 1 + L2 / L1 * a = (L1 + L2 * a) / L1 := by field_simp
  have hpos : 0 < L1 + L2 * a := by positivity
  have hpos2 : 0 < L1 * e1 + L2 * (a * e1) := by positivity
  rw [e3]
  field_simp
  ring

/-- Claim C4: `softmax_merge_o` is exact.  Let the two partial states of a query row
cover the non-empty key lists `K1` and `K2`: state `i` holds the running maximum `m_i` of
its keys, the running sum `l_i = sum exp2(c * (s - m_i))` and the normalised output
`(sum exp2(c * (s - m_i)) * V) / l_i`.  After the merge `scores_max_1` and `scores_sum_1`
are the running maximum and running sum of all keys of `K1` and `K2`, and `acc_o_2` is the
normalised softmax-weighted average of `V` over all of them. -/
theorem merge_exact (s : MergeState ρ κ ℝ) (c : ℝ) (mi : ρ) (ni : κ)
    (K1 K2 : List (Key ρ κ ℝ)) (m1 m2 : ℝ) (hK1 : K1 ≠ []) (hK2 : K2 ≠ [])
    (hmax1 : (∃ k ∈ K1, k.score mi = m1) ∧ ∀ k ∈ K1, k.score mi ≤ m1)
    (hmax2 : (∃ k ∈ K2, k.score mi = m2) ∧ ∀ k ∈ K2, k.score mi ≤ m2)
    (hm1 : s.scores_max_1 mi = fin m1)
    (hs1 : s.scores_sum_1 mi = fin (K1.map fun k => (2 : ℝ) ^ (c * (k.score mi - m1))).sum)
    (ho1 : s.acc_o_1 mi ni
      = fin ((K1.map fun k => (2 : ℝ) ^ (c * (k.score mi - m1)) * k.v ni).sum
          / (K1.map fun k => (2 : ℝ) ^ (c * (k.score mi - m1))).sum))
    (hm2 : s.scores_max_2 mi = fin m2)
    (hs2 : s.scores_sum_2 mi = fin (K2.map fun k => (2 : ℝ) ^ (c * (k.score mi - m2))).sum)
    (ho2 : s.acc_o_2 mi ni
      = fin ((K2.map fun k => (2 : ℝ) ^ (c * (k.score mi - m2)) * k.v ni).sum
          / (K2.map fun k => (2 : ℝ) ^ (c * (k.score mi - m2))).sum)) :
    (softmax_merge_o (fun x : ℝ => 2 ^ x) s (fin c)).scores_max_1 mi = fin (max m1 m2) ∧
      (∃ k ∈ K1 ++ K2, k.score mi = max m1 m2) ∧
      (∀ k ∈ K1 ++ K2, k.score mi ≤ max m1 m2) ∧
      (softmax_merge_o (fun x : ℝ => 2 ^ x) s (fin c)).scores_sum_1 mi
        = fin ((K1 ++ K2).map fun k => (2 : ℝ) ^ (c * (k.score mi - max m1 m2))).sum ∧
      (softmax_merge_o (fun x : ℝ => 2 ^ x) s (fin c)).acc_o_2 mi ni
        = fin (((K1 ++ K2).map fun k => (2 : ℝ) ^ (c * (k.score mi - max m1 m2)) * k.v ni).sum
            / ((K1 ++ K2).map fun k => (2 : ℝ) ^ (c * (k.score mi - max m1 m2))).sum) := by
  have hpow : ∀ x : ℝ, 0 < (2 : ℝ) ^ x := fun x => Real.rpow_pos_of_pos (by norm_num) x
  have hL1 := rowInv_sum_pos c mi m1 K1 hK1
  have hL2 := rowInv_sum_pos c mi m2 K2 hK2
  have hk : 1 + (K2.map fun k => (2 : ℝ) ^ (c * (k.score mi - m2))).sum
      / (K1.map fun k => (2 : ℝ) ^ (c * (k.score mi - m1))).sum
      * (2 : ℝ) ^ ((m2 - m1) * c) ≠ 0 :=
    (add_pos_of_pos_of_nonneg one_pos (mul_pos (div_pos hL2 hL1) (hpow _)).le).ne'
  obtain ⟨a1, a2, a3⟩ := merge_row_finite s c mi ni m1 _ m2 _ _ _ hm1 hs1 hm2 hs2 ho1 ho2
    hL1.ne' hk
  have hsum : ∀ (K : List (Key ρ κ ℝ)) (m : ℝ),
      (K.map fun k => (2 : ℝ) ^ (c * (k.score mi - m))).sum * (2 : ℝ) ^ ((m - max m1 m2) * c)
        = (K.map fun k => (2 : ℝ) ^ (c * (k.score mi - max m1 m2))).sum := by
    intro K m
    rw [← List.sum_map_mul_right]
    simp only [rpow_shift]
  have hacc : ∀ (K : List (Key ρ κ ℝ)) (m : ℝ),
      (K.map fun k => (2 : ℝ) ^ (c * (k.score mi - m)) * k.v ni).sum
          * (2 : ℝ) ^ ((m - max m1 m2) * c)
        = (K.map fun k => (2 : ℝ) ^ (c * (k.score mi - max m1 m2)) * k.v ni).sum := by
    intro K m
    rw [← List.sum_map_mul_right]
    congr 1
    apply List.map_congr_left
    intro k _
    rw [mul_right_comm, rpow_shift]
  have hmul : (2 : ℝ) ^ ((m2 - m1) * c) * (2 : ℝ) ^ ((m1 - max m1 m2) * c)
      = (2 : ℝ) ^ ((m2 - max m1 m2) * c) := by
    rw [← Real.rpow_add (by norm_num : (0 : ℝ) < 2)]
    congr 1
    ring
  refine ⟨a1, ?_, ?_, ?_, ?_⟩
  · rcases max_choice m1 m2 with h | h
    · obtain ⟨k, hk1, hk2⟩ := hmax1.1
      exact ⟨k, List.mem_append_left _ hk1, by rw [h, hk2]⟩
    · obtain ⟨k, hk1, hk2⟩ := hmax2.1
      exact ⟨k, List.mem_append_right _ hk1, by rw [h, hk2]⟩
  · intro k hk1
    rcases List.mem_append.mp hk1 with h | h
    · exact le_trans (hmax1.2 k h) (le_max_left _ _)
    · exact le_trans (hmax2.2 k h) (le_max_right _ _)
  · rw [a2, hsum K1 m1, hsum K2 m2, List.map_append, List.sum_append]
  · rw [a3, merge_blend_exact _ _ _ _ _ _ _ hL1 hL2 (hpow ((m1 - max m1 m2) * c))
      (hpow ((m2 - max m1 m2) * c)) hmul, hsum K1 m1, hsum K2 m2, hacc K1 m1, hacc K2 m2,
      List.map_append, List.sum_append, List.map_append, List.sum_append]

/-! ## The claims on the epilogue -/

theorem rpow_two_eq_exp (σ x : ℝ) :
    (2 : ℝ) ^ (σ * Real.logb 2 (Real.exp 1) * x) = Real.exp (σ * x) := by
  have hlog : Real.log 2 ≠ 0 := (Real.log_pos (by norm_num)).ne'
  rw [Real.rpow_def_of_pos (by norm_num : (0 : ℝ) < 2), Real.logb, Real.log_exp]
  congr 1
  field_simp

theorem lse_identity (σ M : ℝ) (mi : ρ) (keys : List (Key ρ κ ℝ)) (h : keys ≠ []) :
    M * σ + Real.log
        (keys.map fun k => (2 : ℝ) ^ (σ * Real.logb 2 (Real.exp 1) * (k.score mi - M))).sum
      = Real.log (keys.map fun k => Real.exp (σ * k.score mi)).sum := by
  have hpos : 0 < (keys.map fun k => Real.exp (σ * k.score mi)).sum := by
    obtain ⟨k, t, rfl⟩ := List.exists_cons_of_ne_nil h
    have h3 : 0 ≤ (t.map fun k => Real.exp (σ * k.score mi)).sum :=
      List.sum_nonneg (by
        intro x hx
        obtain ⟨k1, _, rfl⟩ := List.mem_map.mp hx
        exact (Real.exp_pos _).le)
    simpa using add_pos_of_pos_of_nonneg (Real.exp_pos (σ * k.score mi)) h3
  have hsum : (keys.map fun k =>
        (2 : ℝ) ^ (σ * Real.logb 2 (Real.exp 1) * (k.score mi - M))).sum
      = Real.exp (-(M * σ)) * (keys.map fun k => Real.exp (σ * k.score mi)).sum := by
    rw [← List.sum_map_mul_left]
    congr 1
    apply List.map_congr_left
    intro k _
    rw [rpow_two_eq_exp, ← Real.exp_add]
    congr 1
    ring
  rw [hsum, Real.log_mul (Real.exp_pos _).ne' hpos.ne', Real.log_exp]
  ring

theorem feq_self (x : Flt ℝ) (h : x ≠ nan) : feq x x = true := by
  cases x <;> simp_all [feq]

theorem feq_zero_false (x : Flt ℝ) (h : x ≠ fin 0) : feq x (fin 0) = false := by
  cases x <;> simp_all [feq]

/-- Claim C9: the epilogue on a non-degenerate row.  When the running sum of a row is
neither zero nor NaN, every element of the row of `acc_o` is multiplied by
`1 / running_sum` (by `rp_dropout / running_sum` under `Is_dropout`) and the LSE of the row
is `running_max * scale_softmax + log(running_sum)`.  When moreover the running sum is
positive, `scale_softmax_log2 = scale_softmax * log2(e)` and the running sum is the sum of
`exp2(scale_softmax_log2 * (score - running_max))` over the keys processed, the LSE is the
logarithm of the sum of `exp(scale_softmax * score)` over these keys. -/
theorem epilogue_nondegenerate (Is_dropout : Bool) (st : SoftmaxState ρ κ ℝ)
    (scale_softmax rp_dropout : Flt ℝ) (mi : ρ)
    (h0 : st.scores_sum mi ≠ fin 0) (hn : st.scores_sum mi ≠ nan) :
    (∀ ni, (epilogue Real.log Is_dropout st scale_softmax rp_dropout).acc_o mi ni
        = st.acc_o mi ni
          * (if Is_dropout then fin 1 / st.scores_sum mi * rp_dropout
              else fin 1 / st.scores_sum mi)) ∧
      (epilogue Real.log Is_dropout st scale_softmax rp_dropout).lse mi
        = st.scores_max mi * scale_softmax + Flt.log Real.log (st.scores_sum mi) ∧
      ∀ (S M σ rp : ℝ), st.scores_sum mi = fin S → st.scores_max mi = fin M →
        scale_softmax = fin σ → rp_dropout = fin rp →
        (∀ (ni : κ) (a : ℝ), st.acc_o mi ni = fin a →
          (epilogue Real.log Is_dropout st scale_softmax rp_dropout).acc_o mi ni
            = fin (a * ((if Is_dropout then rp else 1) / S))) ∧
        (0 < S →
          (epilogue Real.log Is_dropout st scale_softmax rp_dropout).lse mi
            = fin (M * σ + Real.log S)) ∧
        ∀ keys : List (Key ρ κ ℝ), keys ≠ [] →
          S = (keys.map fun k =>
                (2 : ℝ) ^ (σ * Real.logb 2 (Real.exp 1) * (k.score mi - M))).sum →
          (epilogue Real.log Is_dropout st scale_softmax rp_dropout).lse mi
            = fin (Real.log (keys.map fun k => Real.exp (σ * k.score mi)).sum) := by
  have hacc : ∀ ni, (epilogue Real.log Is_dropout st scale_softmax rp_dropout).acc_o mi ni
      = st.acc_o mi ni
        * (if Is_dropout then fin 1 / st.scores_sum mi * rp_dropout
            else fin 1 / st.scores_sum mi) := by
    intro ni
    cases Is_dropout <;> simp [epilogue, feq_self _ hn, feq_zero_false _ h0]
  have hlse : (epilogue Real.log Is_dropout st scale_softmax rp_dropout).lse mi
      = st.scores_max mi * scale_softmax + Flt.log Real.log (st.scores_sum mi) := by
    simp [epilogue, feq_self _ hn, feq_zero_false _ h0]
  refine ⟨hacc, hlse, ?_⟩
  intro S M σ rp hS hM hσ hrp
  have hS0 : S ≠ 0 := by
    intro h
    exact h0 (by rw [hS, h])
  have hpos : 0 < S → (epilogue Real.log Is_dropout st scale_softmax rp_dropout).lse mi
      = fin (M * σ + Real.log S) := by
    intro h
    rw [hlse, hS, hM, hσ]
    simp [Flt.log, not_lt.mpr h.le, h.ne']
  refine ⟨?_, hpos, ?_⟩
  · intro ni a ha
    rw [hacc ni, hS, ha, hrp]
    cases Is_dropout
    · simp [fin_div_fin 1 hS0]
    · simp [fin_div_fin 1 hS0, div_eq_mul_inv, mul_comm]
  · intro keys hne hsum
    have h1 : 0 < S := by
      rw [hsum]
      exact rowInv_sum_pos (σ * Real.logb 2 (Real.exp 1)) mi M keys hne
    rw [hpos h1, hsum, lse_identity σ M mi keys hne]

/-- Claim C10, amended: the epilogue on a degenerate row.  When the running sum of a
row is zero or NaN, the LSE of the row is plus infinity, and every element of the row of
`acc_o` is multiplied by exactly 1 when `Is_dropout` is off and by `rp_dropout` when it is
on. -/
theorem epilogue_degenerate (logf : ℝ → ℝ) (Is_dropout : Bool) (st : SoftmaxState ρ κ ℝ)
    (scale_softmax rp_dropout : Flt ℝ) (mi : ρ)
    (h : st.scores_sum mi = fin 0 ∨ st.scores_sum mi = nan) :
    (epilogue logf Is_dropout st scale_softmax rp_dropout).lse mi = pinf ∧
      ∀ ni, (epilogue logf Is_dropout st scale_softmax rp_dropout).acc_o mi ni
        = st.acc_o mi ni * (if Is_dropout then fin 1 * rp_dropout else fin 1) := by
  have hdeg : (feq (st.scores_sum mi) (fin 0) || !feq (st.scores_sum mi) (st.scores_sum mi))
      = true := by
    rcases h with h | h <;> rw [h] <;> simp [feq]
  refine ⟨?_, ?_⟩
  · simp only [epilogue, hdeg, if_true]
  · intro ni
    cases Is_dropout <;>
      simp only [epilogue, hdeg, if_true, Bool.not_false, Bool.not_true, Bool.false_eq_true,
        if_false]

/-- Claim C10 as stated fails under dropout: with `Is_dropout` on, `rp_dropout = 2` and an
accumulator element 1, a row whose running sum is zero, or NaN, comes out of the epilogue
as 2, so the row is multiplied by `rp_dropout` and not by 1. -/
theorem epilogue_degenerate_scaled_under_dropout :
    (epilogue Real.log true
        (SoftmaxState.mk (fun _ : Unit => fin 0) (fun _ => fin 0) (fun _ (_ : Unit) => fin 1))
        (fin 1) (fin 2)).acc_o () () = (fin 2 : Flt ℝ) ∧
      (epilogue Real.log true
        (SoftmaxState.mk (fun _ : Unit => fin 0) (fun _ => nan) (fun _ (_ : Unit) => fin 1))
        (fin 1) (fin 2)).acc_o () () = (fin 2 : Flt ℝ) ∧
      (fin 2 : Flt ℝ) ≠ fin 1 * fin 1 := by
  refine ⟨?_, ?_, ?_⟩
  · simp [epilogue, feq]
  · simp [epilogue, feq]
  · simp

/-! ## The wave-balanced kernel on the first query tile -/

theorem mapIdx_map_range {β γ : Type} (f : Nat → β → γ) (g : Nat → β) (n : Nat) :
    ((List.range n).map g).mapIdx f = (List.range n).map fun j => f j (g j) := by
  apply List.ext_getElem
  · simp
  · intro i h1 h2
    simp

theorem masked_row {κ α : Type} [LinearOrderedField α] (inp : Operands κ α)
    (kBlockM kBlockN q_tile k_tile col_idx_offset max_seqlen_k row_idx_offset : Int) (mi : Nat) :
    apply_mask_causal (acc_s inp kBlockM kBlockN q_tile k_tile) col_idx_offset max_seqlen_k
        row_idx_offset mi
      = (List.range kBlockN.toNat).map fun (j : Nat) =>
          if col_idx_offset + (j : Int) ≥ min max_seqlen_k (row_idx_offset + (mi : Int) + 1)
          then ninf
          else inp.S (q_tile * kBlockM + (mi : Int)) (k_tile * kBlockN + (j : Int)) := by
  simp only [apply_mask_causal, acc_s, mapIdx_map_range]

theorem map_range_succ {β : Type} (h : Nat → β) (n : Nat) :
    (List.range (n + 1)).map h = h 0 :: (List.range n).map fun j => h (j + 1) := by
  rw [List.range_succ_eq_map, List.map_cons, List.map_map]
  rfl

theorem map_range_const {β : Type} (h : Nat → β) (b : β) (n : Nat) (hb : ∀ j, h j = b) :
    (List.range n).map h = List.replicate n b := by
  rw [show h = fun _ => b from funext hb, List.map_const', List.length_range]

theorem foldl_fmax_replicate_ninf {α : Type} [LinearOrderedField α] (x : Flt α) (hx : x ≠ nan)
    (n : Nat) : (List.replicate n (ninf : Flt α)).foldl fmax x = x := by
  induction n with
  | zero => rfl
  | succ n ih => rw [List.replicate_succ, List.foldl_cons, fmax_ninf_right x hx, ih]

theorem sum_replicate_zero {α : Type} [LinearOrderedField α] (n : Nat) :
    Flt.sum (List.replicate n (fin 0 : Flt α)) = fin 0 := by
  induction n with
  | zero => rfl
  | succ n ih => rw [List.replicate_succ, Flt.sum, ih]; simp

theorem fin_one_mul_ninf : (fin 1 * ninf : Flt ℝ) = ninf := by
  have h1 : ¬ ((1 : ℝ) < 0) := by norm_num
  show Flt.mul (fin 1) ninf = ninf
  simp [Flt.mul, sign, ofSign, h1]

theorem ninf_mul_fin_one : (ninf * fin 1 : Flt ℝ) = ninf := by
  have h1 : ¬ ((1 : ℝ) < 0) := by norm_num
  show Flt.mul ninf (fin 1) = ninf
  simp [Flt.mul, sign, ofSign, h1]

theorem ninf_sub_fin (a : ℝ) : (ninf - fin a : Flt ℝ) = ninf := rfl

theorem sum_zipWith_replicate_zero (p : Flt ℝ) (n : Nat) (hp : p * fin 0 = fin 0) :
    Flt.sum (List.zipWith (fun pj (vj : Unit → Flt ℝ) => pj * vj ())
      (List.replicate n p) (List.replicate n fun _ => fin 0)) = fin 0 := by
  rw [List.zipWith_replicate, min_self, hp, sum_replicate_zero]

theorem row_first_tile :
    apply_mask_causal
        (acc_s (Operands.mk (fun _ _ => (fin 0 : Flt ℝ))
          (fun k (_ : Unit) => if k = 0 then fin 1 else fin 0)) 128 64 0 0)
        (0 * 64) 256 (0 * 128) 0
      = fin 0 :: List.replicate 63 ninf := by
  rw [masked_row]
  rfl

theorem row_second_tile :
    apply_mask_causal
        (acc_s (Operands.mk (fun _ _ => (fin 0 : Flt ℝ))
          (fun k (_ : Unit) => if k = 0 then fin 1 else fin 0)) 128 64 0 1)
        (1 * 64) 256 (0 * 128) 0
      = List.replicate 64 ninf := by
  rw [masked_row]
  rfl

theorem load_v_one :
    load_v (Operands.mk (fun _ _ => (fin 0 : Flt ℝ))
        (fun k (_ : Unit) => if k = 0 then fin 1 else fin 0)) true 64 256
        { n_block := 0, k_tile := 0, v_tile := 1, Is_first := false, Check_inf := true,
          mask := Mask.causal, v_checked := false }
      = List.replicate 64 fun _ => fin 0 := by
  rfl

theorem load_v_two :
    load_v (Operands.mk (fun _ _ => (fin 0 : Flt ℝ))
        (fun k (_ : Unit) => if k = 0 then fin 1 else fin 0)) true 64 256
        { n_block := 1, k_tile := 1, v_tile := 2, Is_first := false, Check_inf := true,
          mask := Mask.causal, v_checked := false }
      = List.replicate 64 fun _ => fin 0 := by
  rfl

theorem attn_tile_subsequent_row {ρ κ α : Type} [LinearOrderedField α] (exp2f : α → α)
    (Check_inf : Bool) (c : Flt α) (st : SoftmaxState ρ κ α) (S : ρ → List (Flt α))
    (W : List (κ → Flt α)) (mi : ρ) (L : List (Flt α)) (hs : S mi = L) :
    (attn_tile exp2f false Check_inf c st (KVTile.mk S W)).scores_max mi
        = L.foldl fmax (st.scores_max mi) ∧
      (attn_tile exp2f false Check_inf c st (KVTile.mk S W)).scores_sum mi
        = st.scores_sum mi
            * scores_scale exp2f Check_inf (st.scores_max mi) (L.foldl fmax (st.scores_max mi)) c
          + Flt.sum (L.map fun s => Flt.exp2 exp2f (c * (s
              - (if feq (L.foldl fmax (st.scores_max mi)) ninf then fin 0
                else L.foldl fmax (st.scores_max mi))))) ∧
      ∀ ni, (attn_tile exp2f false Check_inf c st (KVTile.mk S W)).acc_o mi ni
        = st.acc_o mi ni
            * scores_scale exp2f Check_inf (st.scores_max mi) (L.foldl fmax (st.scores_max mi)) c
          + Flt.sum (List.zipWith (fun pj vj => pj * vj ni)
              (L.map fun s => Flt.exp2 exp2f (c * (s
                - (if feq (L.foldl fmax (st.scores_max mi)) ninf then fin 0
                  else L.foldl fmax (st.scores_max mi))))) W) := by
  subst hs
  exact ⟨rfl, rfl, fun _ => rfl⟩

theorem attn_tile_first_row {ρ κ α : Type} [LinearOrderedField α] (exp2f : α → α)
    (Check_inf : Bool) (c : Flt α) (st : SoftmaxState ρ κ α) (S : ρ → List (Flt α))
    (W : List (κ → Flt α)) (mi : ρ) (L : List (Flt α)) (hs : S mi = L) :
    (attn_tile exp2f true Check_inf c st (KVTile.mk S W)).scores_max mi = L.foldl fmax ninf ∧
      (attn_tile exp2f true Check_inf c st (KVTile.mk S W)).scores_sum mi
        = Flt.sum (L.map fun s => Flt.exp2 exp2f (c * (s
              - (if feq (L.foldl fmax ninf) ninf then fin 0 else L.foldl fmax ninf)))) ∧
      ∀ ni, (attn_tile exp2f true Check_inf c st (KVTile.mk S W)).acc_o mi ni
        = st.acc_o mi ni
          + Flt.sum (List.zipWith (fun pj vj => pj * vj ni)
              (L.map fun s => Flt.exp2 exp2f (c * (s
                - (if feq (L.foldl fmax ninf) ninf then fin 0 else L.foldl fmax ninf)))) W) := by
  subst hs
  exact ⟨rfl, rfl, fun _ => rfl⟩

theorem run_step_causal {κ α : Type} [LinearOrderedField α] (exp2f : α → α)
    (inp : Operands κ α) (Is_even_N : Bool) (kBlockM kBlockN actual_seqlen_k q_tile : Int)
    (c : Flt α) (st : SoftmaxState Nat κ α) (n k v : Int) (f ci vc : Bool) :
    run_step exp2f inp Is_even_N kBlockM kBlockN actual_seqlen_k q_tile c st
        { n_block := n, k_tile := k, v_tile := v, Is_first := f, Check_inf := ci,
          mask := Mask.causal, v_checked := vc }
      = attn_tile exp2f f ci c st
        (KVTile.mk
          (apply_mask_causal (acc_s inp kBlockM kBlockN q_tile k) (n * kBlockN) actual_seqlen_k
            (q_tile * kBlockM))
          (load_v inp Is_even_N kBlockN actual_seqlen_k
            { n_block := n, k_tile := k, v_tile := v, Is_first := f, Check_inf := ci,
              mask := Mask.causal, v_checked := vc })) :=
  rfl

theorem own_step_one (st : SoftmaxState Nat Unit ℝ) (g h : ℝ) (h1 : st.scores_max 0 = fin g)
    (h2 : st.scores_sum 0 = fin h) (h3 : st.acc_o 0 () = fin 0) :
    (∃ g1 : ℝ, (run_step (fun x : ℝ => 2 ^ x)
        (Operands.mk (fun _ _ => (fin 0 : Flt ℝ))
          (fun k (_ : Unit) => if k = 0 then fin 1 else fin 0)) true 128 64 256 0 (fin 1) st
        { n_block := 0, k_tile := 0, v_tile := 1, Is_first := false, Check_inf := true,
          mask := Mask.causal, v_checked := false }).scores_max 0 = fin g1) ∧
      (∃ h1 : ℝ, (run_step (fun x : ℝ => 2 ^ x)
        (Operands.mk (fun _ _ => (fin 0 : Flt ℝ))
          (fun k (_ : Unit) => if k = 0 then fin 1 else fin 0)) true 128 64 256 0 (fin 1) st
        { n_block := 0, k_tile := 0, v_tile := 1, Is_first := false, Check_inf := true,
          mask := Mask.causal, v_checked := false }).scores_sum 0 = fin h1) ∧
      (run_step (fun x : ℝ => 2 ^ x)
        (Operands.mk (fun _ _ => (fin 0 : Flt ℝ))
          (fun k (_ : Unit) => if k = 0 then fin 1 else fin 0)) true 128 64 256 0 (fin 1) st
        { n_block := 0, k_tile := 0, v_tile := 1, Is_first := false, Check_inf := true,
          mask := Mask.causal, v_checked := false }).acc_o 0 () = fin 0 := by
  have hmax : (fin 0 :: List.replicate 63 (ninf : Flt ℝ)).foldl fmax (fin g) = fin (max g 0) := by
    rw [List.foldl_cons, fmax_fin_fin, foldl_fmax_replicate_ninf _ (by simp)]
  rw [run_step_causal, load_v_one]
  obtain ⟨e1, e2, e3⟩ := attn_tile_subsequent_row (fun x : ℝ => 2 ^ x) true (fin 1) st _
    (List.replicate 64 fun _ : Unit => (fin 0 : Flt ℝ)) 0 _ row_first_tile
  rw [e1, e2, e3 (), h1, h2, h3, hmax]
  refine ⟨⟨_, rfl⟩, ?_, ?_⟩
  · refine ⟨h * (2 : ℝ) ^ ((g - max g 0) * 1) + (2 : ℝ) ^ ((1 : ℝ) * (0 - max g 0)), ?_⟩
    simp [scores_scale, ninf_sub_fin, fin_one_mul_ninf, Flt.exp2, Flt.sum, sum_replicate_zero]
  · rw [show List.replicate 64 (fun _ : Unit => (fin 0 : Flt ℝ))
        = (fun _ => fin 0) :: List.replicate 63 (fun _ => fin 0) from rfl]
    simp [scores_scale, ninf_sub_fin, fin_one_mul_ninf, Flt.exp2, Flt.sum, sum_replicate_zero]

theorem own_step_two (st : SoftmaxState Nat Unit ℝ) (g h : ℝ) (h1 : st.scores_max 0 = fin g)
    (h2 : st.scores_sum 0 = fin h) (h3 : st.acc_o 0 () = fin 0) :
    (∃ h1 : ℝ, (run_step (fun x : ℝ => 2 ^ x)
        (Operands.mk (fun _ _ => (fin 0 : Flt ℝ))
          (fun k (_ : Unit) => if k = 0 then fin 1 else fin 0)) true 128 64 256 0 (fin 1) st
        { n_block := 1, k_tile := 1, v_tile := 2, Is_first := false, Check_inf := true,
          mask := Mask.causal, v_checked := false }).scores_sum 0 = fin h1) ∧
      (run_step (fun x : ℝ => 2 ^ x)
        (Operands.mk (fun _ _ => (fin 0 : Flt ℝ))
          (fun k (_ : Unit) => if k = 0 then fin 1 else fin 0)) true 128 64 256 0 (fin 1) st
        { n_block := 1, k_tile := 1, v_tile := 2, Is_first := false, Check_inf := true,
          mask := Mask.causal, v_checked := false }).acc_o 0 () = fin 0 := by
  have hmax : (List.replicate 64 (ninf : Flt ℝ)).foldl fmax (fin g) = fin g :=
    foldl_fmax_replicate_ninf _ (by simp) 64
  rw [run_step_causal, load_v_two]
  obtain ⟨e1, e2, e3⟩ := attn_tile_subsequent_row (fun x : ℝ => 2 ^ x) true (fin 1) st _
    (List.replicate 64 fun _ : Unit => (fin 0 : Flt ℝ)) 0 _ row_second_tile
  rw [e2, e3 (), h1, h2, h3, hmax]
  refine ⟨?_, ?_⟩
  · refine ⟨h, ?_⟩
    simp [scores_scale, ninf_sub_fin, fin_one_mul_ninf, Flt.exp2, Flt.sum, sum_replicate_zero]
  · simp [scores_scale, ninf_sub_fin, fin_one_mul_ninf, Flt.exp2, Flt.sum, sum_replicate_zero]

theorem epilogue_row_zero (logf : ℝ → ℝ) (st : SoftmaxState Nat Unit ℝ) (σ rp : Flt ℝ)
    (h : ℝ) (h2 : st.scores_sum 0 = fin h) (h3 : st.acc_o 0 () = fin 0) :
    (epilogue logf false st σ rp).acc_o 0 () = fin 0 := by
  by_cases h0 : h = 0
  · simp [epilogue, h2, h3, h0]
  · simp [epilogue, h2, h3, h0, fin_div_fin 1 h0]

theorem load_v_plain_one :
    load_v (Operands.mk (fun _ _ => (fin 0 : Flt ℝ))
          (fun k (_ : Unit) => if k = 0 then fin 1 else fin 0)) true 64 256
        { n_block := 1, k_tile := 1, v_tile := 1, Is_first := true, Check_inf := true,
          mask := Mask.causal, v_checked := true }
      = List.replicate 64 fun _ => fin 0 := by
  rfl

theorem load_v_plain_two :
    load_v (Operands.mk (fun _ _ => (fin 0 : Flt ℝ))
          (fun k (_ : Unit) => if k = 0 then fin 1 else fin 0)) true 64 256
        { n_block := 0, k_tile := 0, v_tile := 0, Is_first := false, Check_inf := true,
          mask := Mask.causal, v_checked := false }
      = (fun _ => fin 1) :: List.replicate 63 fun _ => fin 0 := by
  rfl

theorem plain_step_one (st : SoftmaxState Nat Unit ℝ) (h3 : st.acc_o 0 () = fin 0) :
    (run_step (fun x : ℝ => 2 ^ x)
        (Operands.mk (fun _ _ => (fin 0 : Flt ℝ))
          (fun k (_ : Unit) => if k = 0 then fin 1 else fin 0)) true 128 64 256 0 (fin 1) st
        { n_block := 1, k_tile := 1, v_tile := 1, Is_first := true, Check_inf := true,
          mask := Mask.causal, v_checked := true }).scores_max 0 = ninf ∧
      (run_step (fun x : ℝ => 2 ^ x)
        (Operands.mk (fun _ _ => (fin 0 : Flt ℝ))
          (fun k (_ : Unit) => if k = 0 then fin 1 else fin 0)) true 128 64 256 0 (fin 1) st
        { n_block := 1, k_tile := 1, v_tile := 1, Is_first := true, Check_inf := true,
          mask := Mask.causal, v_checked := true }).scores_sum 0 = fin 0 ∧
      (run_step (fun x : ℝ => 2 ^ x)
        (Operands.mk (fun _ _ => (fin 0 : Flt ℝ))
          (fun k (_ : Unit) => if k = 0 then fin 1 else fin 0)) true 128 64 256 0 (fin 1) st
        { n_block := 1, k_tile := 1, v_tile := 1, Is_first := true, Check_inf := true,
          mask := Mask.causal, v_checked := true }).acc_o 0 () = fin 0 := by
  have hmax : (List.replicate 64 (ninf : Flt ℝ)).foldl fmax ninf = ninf :=
    foldl_fmax_replicate_ninf _ (by simp) 64
  rw [run_step_causal, load_v_plain_one]
  obtain ⟨e1, e2, e3⟩ := attn_tile_first_row (fun x : ℝ => 2 ^ x) true (fin 1) st _
    (List.replicate 64 fun _ : Unit => (fin 0 : Flt ℝ)) 0 _ row_second_tile
  rw [e1, e2, e3 (), h3, hmax]
  refine ⟨rfl, ?_, ?_⟩
  · simp [feq, ninf_sub_fin, fin_one_mul_ninf, Flt.exp2, Flt.sum, sum_replicate_zero]
  · simp [feq, ninf_sub_fin, fin_one_mul_ninf, Flt.exp2, Flt.sum, sum_replicate_zero]

theorem plain_step_two (st : SoftmaxState Nat Unit ℝ) (h1 : st.scores_max 0 = ninf)
    (h2 : st.scores_sum 0 = fin 0) (h3 : st.acc_o 0 () = fin 0) :
    (run_step (fun x : ℝ => 2 ^ x)
        (Operands.mk (fun _ _ => (fin 0 : Flt ℝ))
          (fun k (_ : Unit) => if k = 0 then fin 1 else fin 0)) true 128 64 256 0 (fin 1) st
        { n_block := 0, k_tile := 0, v_tile := 0, Is_first := false, Check_inf := true,
          mask := Mask.causal, v_checked := false }).scores_max 0 = fin 0 ∧
      (run_step (fun x : ℝ => 2 ^ x)
        (Operands.mk (fun _ _ => (fin 0 : Flt ℝ))
          (fun k (_ : Unit) => if k = 0 then fin 1 else fin 0)) true 128 64 256 0 (fin 1) st
        { n_block := 0, k_tile := 0, v_tile := 0, Is_first := false, Check_inf := true,
          mask := Mask.causal, v_checked := false }).scores_sum 0 = fin 1 ∧
      (run_step (fun x : ℝ => 2 ^ x)
        (Operands.mk (fun _ _ => (fin 0 : Flt ℝ))
          (fun k (_ : Unit) => if k = 0 then fin 1 else fin 0)) true 128 64 256 0 (fin 1) st
        { n_block := 0, k_tile := 0, v_tile := 0, Is_first := false, Check_inf := true,
          mask := Mask.causal, v_checked := false }).acc_o 0 () = fin 1 := by
  have hmax : (fin 0 :: List.replicate 63 (ninf : Flt ℝ)).foldl fmax ninf = fin 0 := by
    rw [List.foldl_cons, fmax_ninf_fin, foldl_fmax_replicate_ninf _ (by simp)]
  rw [run_step_causal, load_v_plain_two]
  obtain ⟨e1, e2, e3⟩ := attn_tile_subsequent_row (fun x : ℝ => 2 ^ x) true (fin 1) st _
    ((fun _ : Unit => (fin 1 : Flt ℝ)) :: List.replicate 63 fun _ => fin 0) 0 _ row_first_tile
  rw [e1, e2, e3 (), h1, h2, h3, hmax]
  refine ⟨rfl, ?_, ?_⟩
  · simp [scores_scale, feq, ninf_sub_fin, fin_one_mul_ninf, ninf_mul_fin_one, Flt.exp2, Flt.sum,
      sum_replicate_zero]
  · simp [scores_scale, feq, ninf_sub_fin, fin_one_mul_ninf, ninf_mul_fin_one, Flt.exp2, Flt.sum,
      sum_replicate_zero]

theorem epilogue_row_unit_sum (logf : ℝ → ℝ) (st : SoftmaxState Nat Unit ℝ) (σ rp : Flt ℝ)
    (a : ℝ) (h2 : st.scores_sum 0 = fin 1) (h3 : st.acc_o 0 () = fin a) :
    (epilogue logf false st σ rp).acc_o 0 () = fin a := by
  simp [epilogue, h2, h3, fin_div_fin]

theorem own_steps_eval :
    compute_attn_1rowblock_causal_own_steps 128 64 256 256 0
      = some [Step.mk 0 0 1 false true Mask.causal false,
        Step.mk 1 1 2 false true Mask.causal false] := by
  decide

theorem plain_steps_eval :
    compute_attn_1rowblock_steps true true 128 64 256 256 0
      = some [Step.mk 1 1 1 true true Mask.causal true,
        Step.mk 0 0 0 false true Mask.causal false] := by
  decide

/-- Claim C3 fails on the code.  Tile shape 128 x 64, `actual_seqlen_q = actual_seqlen_k
= 256` (two query tiles, neither a helper nor a publisher), all scores 0, row 0 of the
value matrix 1 and every other row 0, query row 0 of tile `m_block = 0`.  The own pass of
`compute_attn_1rowblock_causal` skips its first loop, so it multiplies the scores of key
tile 0 with value tile 1 and those of key tile 1 with value tile 2, and never takes the
first-block transition; the plain causal kernel pairs tile 1 with tile 1 and tile 0 with
tile 0.  Whatever finite values the uninitialised `scores_max` and `scores_sum` hold, the
output element of the wave-balanced kernel is 0, that of the plain causal kernel is 1. -/
theorem wave_balanced_first_tile_diverges (g h : ℝ) :
    (compute_attn_1rowblock_causal_own_steps 128 64 256 256 0).map
        (List.map fun s => (s.k_tile, s.v_tile, s.Is_first))
      = some [(0, 1, false), (1, 2, false)] ∧
    (compute_attn_1rowblock_steps true true 128 64 256 256 0).map
        (List.map fun s => (s.k_tile, s.v_tile, s.Is_first))
      = some [(1, 1, true), (0, 0, false)] ∧
    (compute_attn_1rowblock_causal_own_rows (fun x : ℝ => 2 ^ x) Real.log
        (Operands.mk (fun _ _ => (fin 0 : Flt ℝ))
          (fun k (_ : Unit) => if k = 0 then fin 1 else fin 0)) true 128 64 256 256 0 (fin 1) (fin (Real.log 2))
        (SoftmaxState.mk (fun _ => fin g) (fun _ => fin h) (fun _ _ => nan))).map
      (fun e => e.acc_o 0 ()) = some (fin 0) ∧
    (compute_attn_1rowblock_rows (fun x : ℝ => 2 ^ x) Real.log
        (Operands.mk (fun _ _ => (fin 0 : Flt ℝ))
          (fun k (_ : Unit) => if k = 0 then fin 1 else fin 0)) true true 128 64 256 256 0 (fin 1) (fin (Real.log 2))
        (SoftmaxState.mk (fun _ => fin g) (fun _ => fin h) (fun _ _ => nan))).map
      (fun e => e.acc_o 0 ()) = some (fin 1) := by
  refine ⟨by decide, by decide, ?_, ?_⟩
  · rw [compute_attn_1rowblock_causal_own_rows, own_steps_eval]
    simp only [Option.map_some', List.foldl_cons, List.foldl_nil]
    obtain ⟨⟨g1, a1⟩, ⟨h1, a2⟩, a3⟩ := own_step_one
      { (SoftmaxState.mk (fun _ => fin g) (fun _ => fin h) (fun _ _ => nan) :
        SoftmaxState Nat Unit ℝ) with acc_o := fun _ _ => fin 0 } g h rfl rfl rfl
    obtain ⟨⟨h2, b2⟩, b3⟩ := own_step_two _ g1 h1 a1 a2 a3
    rw [epilogue_row_zero _ _ _ _ h2 b2 b3]
  · rw [compute_attn_1rowblock_rows, plain_steps_eval]
    simp only [Option.map_some', List.foldl_cons, List.foldl_nil]
    obtain ⟨a1, a2, a3⟩ := plain_step_one
      { (SoftmaxState.mk (fun _ => fin g) (fun _ => fin h) (fun _ _ => nan) :
        SoftmaxState Nat Unit ℝ) with acc_o := fun _ _ => fin 0 } rfl
    obtain ⟨b1, b2, b3⟩ := plain_step_two _ a1 a2 a3
    rw [epilogue_row_unit_sum _ _ _ _ 1 b2 b3]

/-! ## The key-tile schedules in closed form -/

theorem ceil_div_spec (a b : Int) (hb : 0 < b) :
    (ceil_div a b - 1) * b < a ∧ a ≤ ceil_div a b * b := by
  unfold ceil_div
  have h1 := Int.ediv_add_emod (a + b - 1) b
  have h2 := Int.emod_nonneg (a + b - 1) (ne_of_gt hb)
  have h3 := Int.emod_lt_of_pos (a + b - 1) hb
  constructor <;> nlinarith

theorem ceil_div_mul (q b : Int) (hb : 0 < b) : ceil_div (q * b) b = q := by
  have h := ceil_div_spec (q * b) b hb
  have h1 : ceil_div (q * b) b - 1 < q := lt_of_mul_lt_mul_right h.1 (le_of_lt hb)
  have h2 : q ≤ ceil_div (q * b) b := le_of_mul_le_mul_right h.2 hb
  omega

theorem map_range_shift {β : Type} (f : Nat → β) (k : Nat) :
    (List.range (k + 1)).map f = f 0 :: (List.range k).map (fun i => f (i + 1)) := by
  rw [List.range_succ_eq_map, List.map_cons, List.map_map]
  rfl

theorem own_nomask_loop_steps (nms dst : Int) (fuel : Nat) : ∀ (c : Cursor), 0 ≤ c.n_block →
    (c.n_block ≤ dst - nms →
      c.k_tile = c.n_block ∧ c.v_tile = if c.n_block = 0 then 0 else c.n_block - 1) →
    dst - nms + 1 - c.n_block ≤ fuel →
    (own_nomask_loop nms dst fuel c).1
      = (List.range (dst - nms + 1 - c.n_block).toNat).map fun (i : Nat) =>
          Step.mk (c.n_block + i) (c.n_block + i) (c.n_block + i)
            (decide (c.n_block + i = 0)) true Mask.none (!decide (c.n_block + i > 0)) := by
  induction fuel with
  | zero =>
    intro c h0 hk hf
    have : (dst - nms + 1 - c.n_block).toNat = 0 := by omega
    simp [own_nomask_loop, this]
  | succ f ih =>
    intro c h0 hk hf
    by_cases hle : c.n_block ≤ dst - nms
    · obtain ⟨hk1, hv1⟩ := hk hle
      have e : (dst - nms + 1 - c.n_block).toNat = (dst - nms + 1 - (c.n_block + 1)).toNat + 1 := by
        omega
      rw [e, map_range_shift]
      simp only [own_nomask_loop, hle, if_true]
      have := ih ⟨c.n_block + 1,
        (if !decide (nms = 0 ∧ c.n_block = dst) then c.k_tile + 1 else c.k_tile),
        (if c.n_block > 0 then c.v_tile + 1 else c.v_tile)⟩ (by simp; omega)
        (by
          intro h
          simp only at h
          have hne : ¬ (nms = 0 ∧ c.n_block = dst) := by omega
          simp only [hne, decide_False, Bool.not_false, if_true]
          refine ⟨by omega, ?_⟩
          split_ifs <;> omega)
        (by simp only; omega)
      simp only at this
      rw [this]
      congr 1
      · simp [hk1, hv1]
        split_ifs <;> omega
      · apply List.map_congr_left
        intro i _
        have e1 : c.n_block + 1 + (i : Int) = c.n_block + ((i + 1 : Nat) : Int) := by
          push_cast; ring
        rw [e1]
    · have : (dst - nms + 1 - c.n_block).toNat = 0 := by omega
      simp [own_nomask_loop, hle, this]

theorem own_nomask_loop_n_block (nms dst : Int) (fuel : Nat) : ∀ (c : Cursor),
    dst - nms + 1 - c.n_block ≤ fuel →
    (own_nomask_loop nms dst fuel c).2.n_block = max c.n_block (dst - nms + 1) := by
  induction fuel with
  | zero =>
    intro c hf
    simp [own_nomask_loop]; omega
  | succ f ih =>
    intro c hf
    by_cases hle : c.n_block ≤ dst - nms
    · simp only [own_nomask_loop, hle, if_true]
      rw [ih _ (by simp only; omega)]
      simp only
      omega
    · simp [own_nomask_loop, hle]; omega

theorem own_masking_loop_empty (dst : Int) (fuel : Nat) (c : Cursor) (h : dst < c.n_block) :
    own_masking_loop dst fuel c = ([], c) := by
  cases fuel with
  | zero => rfl
  | succ f =>
    have h1 : ¬ c.n_block ≤ dst := by omega
    simp [own_masking_loop, h1]

theorem frag_masking_loop_spec (nms dst : Int) (fuel : Nat) : ∀ (ms : Int) (c : Cursor),
    0 ≤ ms → (ms < nms → dst ≤ c.n_block) → (dst ≤ c.n_block → c.k_tile = c.n_block) →
    (c.v_tile = if ms > 0 then c.n_block + 1 else c.n_block) → nms - ms ≤ fuel →
    (0 < ms ∨ ms < nms) →
    (frag_masking_loop nms dst fuel ms c).1
        = (List.range (min (nms - ms) (c.n_block - dst + 1)).toNat).map (fun (i : Nat) =>
            Step.mk (c.n_block - i) (c.n_block - i) (c.n_block - i)
              (decide (ms + i = 0)) true Mask.causal (!decide (ms + i > 0))) ∧
      (frag_masking_loop nms dst fuel ms c).2.n_block
        = c.n_block - ((min (nms - ms) (c.n_block - dst + 1)).toNat : Int) ∧
      (dst ≤ (frag_masking_loop nms dst fuel ms c).2.n_block →
        (frag_masking_loop nms dst fuel ms c).2.k_tile
            = (frag_masking_loop nms dst fuel ms c).2.n_block ∧
          (frag_masking_loop nms dst fuel ms c).2.v_tile
            = (frag_masking_loop nms dst fuel ms c).2.n_block + 1) := by
  induction fuel with
  | zero =>
    intro ms c h0 h1 h2 h3 h4 h5
    have hms : 0 < ms := by omega
    have : (min (nms - ms) (c.n_block - dst + 1)).toNat = 0 := by omega
    simp only [frag_masking_loop, this, List.range_zero, List.map_nil, Nat.cast_zero, sub_zero,
      true_and]
    intro hd
    exact ⟨h2 hd, by rw [h3, if_pos hms]⟩
  | succ f ih =>
    intro ms c h0 h1 h2 h3 h4 h5
    by_cases hlt : ms < nms
    · have hd := h1 hlt
      have hk := h2 hd
      have hv : (if ms > 0 then c.v_tile - 1 else c.v_tile) = c.n_block := by
        rw [h3]; split_ifs <;> omega
      by_cases hbr : nms > 1 ∧ c.n_block ≤ dst
      · have e : (min (nms - ms) (c.n_block - dst + 1)).toNat = 1 := by omega
        simp only [frag_masking_loop, hlt, hbr, if_true, and_self, e, hv, hk]
        refine ⟨by simp [List.range_succ], by simp, ?_⟩
        intro hd2
        omega
      · have hrec := ih (ms + 1)
          ⟨c.n_block - 1, (if c.n_block > dst then c.k_tile - 1 else c.k_tile), c.n_block⟩
          (by omega) (by intro h; simp only; omega)
          (by
            intro h
            simp only at h ⊢
            have : c.n_block > dst := by omega
            rw [if_pos this, hk])
          (by
            have : ms + 1 > 0 := by omega
            simp only [this, if_true]; omega)
          (by omega) (Or.inl (by omega))
        simp only at hrec
        have e : (min (nms - ms) (c.n_block - dst + 1)).toNat
            = (min (nms - (ms + 1)) (c.n_block - 1 - dst + 1)).toNat + 1 := by omega
        simp only [frag_masking_loop, hlt, hbr, if_true, if_false, hv]
        rw [e, map_range_shift]
        obtain ⟨r1, r2, r3⟩ := hrec
        refine ⟨?_, ?_, r3⟩
        · rw [r1]
          congr 1
          · simp [hk]
          · apply List.map_congr_left
            intro i _
            have e1 : c.n_block - 1 - (i : Int) = c.n_block - ((i + 1 : Nat) : Int) := by
              push_cast; ring
            have e2 : ms + 1 + (i : Int) = ms + ((i + 1 : Nat) : Int) := by
              push_cast; ring
            rw [e1, e2]
        · rw [r2]; push_cast; ring
    · have hms : 0 < ms := by omega
      have : (min (nms - ms) (c.n_block - dst + 1)).toNat = 0 := by omega
      simp only [frag_masking_loop, hlt, if_false, this, List.range_zero, List.map_nil,
        Nat.cast_zero, sub_zero, true_and]
      intro hd
      exact ⟨h2 hd, by rw [h3, if_pos hms]⟩

theorem frag_nomask_loop_spec (dst : Int) (fuel : Nat) : ∀ (c : Cursor),
    (dst ≤ c.n_block → c.k_tile = c.n_block ∧ c.v_tile = c.n_block + 1) →
    c.n_block + 1 - dst ≤ fuel →
    (frag_nomask_loop dst fuel c).1
      = (List.range (c.n_block + 1 - dst).toNat).map (fun (i : Nat) =>
          Step.mk (c.n_block - i) (c.n_block - i) (c.n_block - i)
            false false Mask.none false) := by
  induction fuel with
  | zero =>
    intro c h hf
    have : (c.n_block + 1 - dst).toNat = 0 := by omega
    simp [frag_nomask_loop, this]
  | succ f ih =>
    intro c h hf
    by_cases hge : c.n_block ≥ dst
    · obtain ⟨hk, hv⟩ := h hge
      have e : (c.n_block + 1 - dst).toNat = (c.n_block - 1 + 1 - dst).toNat + 1 := by omega
      simp only [frag_nomask_loop, hge, if_true]
      rw [e, map_range_shift, ih _ (by
        intro h2
        simp only at h2 ⊢
        have : c.n_block > dst := by omega
        rw [if_pos this, hk, hv]
        omega) (by simp only; omega)]
      congr 1
      · simp [hk, hv]
      · apply List.map_congr_left
        intro i _
        have e1 : c.n_block - 1 - (i : Int) = c.n_block - ((i + 1 : Nat) : Int) := by
          push_cast; ring
        simp only [e1]
    · have : (c.n_block + 1 - dst).toNat = 0 := by omega
      simp [frag_nomask_loop, hge, this]

theorem masking_loop_eq_frag (Is_even_N : Bool) (nms : Int) (fuel : Nat) : ∀ (ms : Int)
    (c : Cursor), masking_loop true Is_even_N nms fuel ms c = frag_masking_loop nms 0 fuel ms c := by
  induction fuel with
  | zero => intro ms c; rfl
  | succ f ih =>
    intro ms c
    simp only [masking_loop, frag_masking_loop, ih]
    simp

theorem nomask_loop_eq_frag (fuel : Nat) : ∀ (c : Cursor),
    nomask_loop fuel c = frag_nomask_loop 0 fuel c := by
  induction fuel with
  | zero => intro c; rfl
  | succ f ih =>
    intro c
    simp only [nomask_loop, frag_nomask_loop, ih]

theorem ceil_div_pos (a b : Int) (ha : 0 < a) (hb : 0 < b) : 0 < ceil_div a b := by
  have h := (ceil_div_spec a b hb).2
  by_contra hc
  have : ceil_div a b * b ≤ 0 := mul_nonpos_of_nonpos_of_nonneg (by omega) (le_of_lt hb)
  omega

theorem compute_attn_1rowblock_steps_causal (Is_even_N : Bool)
    (kBlockM kBlockN actual_seqlen_q actual_seqlen_k m_block : Int)
    (hM : 0 < kBlockM) (hN : 0 < kBlockN) (hm : 0 ≤ m_block)
    (hq : m_block * kBlockM < actual_seqlen_q) (hk : 0 < actual_seqlen_k) :
    compute_attn_1rowblock_steps true Is_even_N kBlockM kBlockN actual_seqlen_q actual_seqlen_k
        m_block
      = some
        ((List.range
              (min (ceil_div kBlockM kBlockN)
                (min (ceil_div actual_seqlen_k kBlockN)
                  (ceil_div ((m_block + 1) * kBlockM) kBlockN))).toNat).map
            (fun (i : Nat) =>
              Step.mk
                (min (ceil_div actual_seqlen_k kBlockN)
                  (ceil_div ((m_block + 1) * kBlockM) kBlockN) - 1 - i)
                (min (ceil_div actual_seqlen_k kBlockN)
                  (ceil_div ((m_block + 1) * kBlockM) kBlockN) - 1 - i)
                (min (ceil_div actual_seqlen_k kBlockN)
                  (ceil_div ((m_block + 1) * kBlockM) kBlockN) - 1 - i)
                (decide ((i : Int) = 0)) true Mask.causal (!decide ((i : Int) > 0)))
          ++ (List.range
              (min (ceil_div actual_seqlen_k kBlockN)
                  (ceil_div ((m_block + 1) * kBlockM) kBlockN)
                - ceil_div kBlockM kBlockN).toNat).map
            (fun (i : Nat) =>
              Step.mk
                (min (ceil_div actual_seqlen_k kBlockN)
                  (ceil_div ((m_block + 1) * kBlockM) kBlockN) - 1 - ceil_div kBlockM kBlockN - i)
                (min (ceil_div actual_seqlen_k kBlockN)
                  (ceil_div ((m_block + 1) * kBlockM) kBlockN) - 1 - ceil_div kBlockM kBlockN - i)
                (min (ceil_div actual_seqlen_k kBlockN)
                  (ceil_div ((m_block + 1) * kBlockM) kBlockN) - 1 - ceil_div kBlockM kBlockN - i)
                false false Mask.none false)) := by
  have hr := ceil_div_pos kBlockM kBlockN hM hN
  have h1 := ceil_div_pos actual_seqlen_k kBlockN hk hN
  have h2 := ceil_div_pos ((m_block + 1) * kBlockM) kBlockN (mul_pos (by omega) hM) hN
  have hne : ¬ (m_block * kBlockM ≥ actual_seqlen_q ∨ actual_seqlen_k = 0) := by omega
  simp only [compute_attn_1rowblock_steps, hne, if_false, if_true]
  generalize ceil_div kBlockM kBlockN = r at hr ⊢
  have hn : 0 < min (ceil_div actual_seqlen_k kBlockN)
    (ceil_div ((m_block + 1) * kBlockM) kBlockN) := lt_min h1 h2
  generalize min (ceil_div actual_seqlen_k kBlockN)
    (ceil_div ((m_block + 1) * kBlockM) kBlockN) = nbm at hn ⊢
  rw [masking_loop_eq_frag, nomask_loop_eq_frag]
  obtain ⟨s1, s2, s3⟩ := frag_masking_loop_spec r 0 r.toNat 0 ⟨nbm - 1, nbm - 1, nbm - 1⟩
    (le_refl _) (by intro _; simp only; omega) (by intro _; rfl) (by simp) (by omega)
    (Or.inr hr)
  simp only at s1 s2
  have e1 : min (r - 0) (nbm - 1 - 0 + 1) = min r nbm := by
    congr 1 <;> ring
  rw [e1] at s1 s2
  have s4 := frag_nomask_loop_spec 0
    ((frag_masking_loop r 0 r.toNat 0 ⟨nbm - 1, nbm - 1, nbm - 1⟩).2.n_block + 1).toNat
    (frag_masking_loop r 0 r.toNat 0 ⟨nbm - 1, nbm - 1, nbm - 1⟩).2 s3 (by omega)
  rw [s1, s4, s2]
  congr 2
  · apply List.map_congr_left
    intro i _
    simp
  · by_cases hc : r ≤ nbm
    · have e2 : ((min r nbm).toNat : Int) = r := by omega
      rw [e2]
      have e3 : nbm - 1 - r + 1 - 0 = nbm - r := by ring
      rw [e3]
    · have e2 : (nbm - 1 - ((min r nbm).toNat : Int) + 1 - 0).toNat = 0 := by omega
      have e3 : (nbm - r).toNat = 0 := by omega
      rw [e2, e3]
      rfl

theorem total_tiles_eq (kBlockM actual_seqlen_q : Int) :
    total_tiles kBlockM actual_seqlen_q = ceil_div actual_seqlen_q kBlockM := rfl

theorem own_steps_publisher (kBlockM kBlockN actual_seqlen_q actual_seqlen_k m_block : Int)
    (hq : m_block * kBlockM < actual_seqlen_q) (hk : actual_seqlen_k ≠ 0)
    (hp : is_publisher kBlockM actual_seqlen_q m_block = true) :
    compute_attn_1rowblock_causal_own_steps kBlockM kBlockN actual_seqlen_q actual_seqlen_k
        m_block
      = some ((List.range
          (ceil_div kBlockM kBlockN * (ceil_div actual_seqlen_q kBlockM / 2 + 1)).toNat).map
          (fun (i : Nat) =>
            Step.mk i i i (decide ((i : Int) = 0)) true Mask.none (!decide ((i : Int) > 0)))) := by
  have hne : ¬ (m_block * kBlockM ≥ actual_seqlen_q ∨ actual_seqlen_k = 0) := by omega
  simp only [compute_attn_1rowblock_causal_own_steps, hne, hp, if_false, if_true]
  generalize ceil_div kBlockM kBlockN * (ceil_div actual_seqlen_q kBlockM / 2 + 1) = D
  have s1 := own_nomask_loop_steps 0 (D - 1) (D - 1 - 0 + 1).toNat ⟨0, 0, 0⟩ (le_refl _)
    (by intro _; simp) (by simp only; omega)
  have s2 := own_nomask_loop_n_block 0 (D - 1) (D - 1 - 0 + 1).toNat ⟨0, 0, 0⟩
    (by simp only; omega)
  simp only at s1 s2
  rw [own_masking_loop_empty _ _ _ (by rw [s2]; omega), s1, List.append_nil]
  have e : D - 1 - 0 + 1 - 0 = D := by ring
  rw [e]
  congr 1
  apply List.map_congr_left
  intro i _
  simp

theorem frag_loops_steps (r dst nbm : Int) (hr : 0 < r) (hd : dst < nbm) (fuel : Nat)
    (hf : (frag_masking_loop r dst r.toNat 0 ⟨nbm - 1, nbm - 1, nbm - 1⟩).2.n_block + 1 - dst
      ≤ fuel) :
    (frag_masking_loop r dst r.toNat 0 ⟨nbm - 1, nbm - 1, nbm - 1⟩).1
        ++ (frag_nomask_loop dst fuel
          (frag_masking_loop r dst r.toNat 0 ⟨nbm - 1, nbm - 1, nbm - 1⟩).2).1
      = (List.range (min r (nbm - dst)).toNat).map
          (fun (i : Nat) =>
            Step.mk (nbm - 1 - i) (nbm - 1 - i) (nbm - 1 - i)
              (decide ((i : Int) = 0)) true Mask.causal (!decide ((i : Int) > 0)))
        ++ (List.range (nbm - dst - r).toNat).map
          (fun (i : Nat) =>
            Step.mk (nbm - 1 - r - i) (nbm - 1 - r - i) (nbm - 1 - r - i)
              false false Mask.none false) := by
  obtain ⟨s1, s2, s3⟩ := frag_masking_loop_spec r dst r.toNat 0 ⟨nbm - 1, nbm - 1, nbm - 1⟩
    (le_refl _) (by intro _; simp only; omega) (by intro _; rfl) (by simp) (by omega)
    (Or.inr hr)
  simp only at s1 s2
  have e1 : min (r - 0) (nbm - 1 - dst + 1) = min r (nbm - dst) := by
    congr 1 <;> ring
  rw [e1] at s1 s2
  have s4 := frag_nomask_loop_spec dst fuel
    (frag_masking_loop r dst r.toNat 0 ⟨nbm - 1, nbm - 1, nbm - 1⟩).2 s3 hf
  rw [s1, s4, s2]
  congr 1
  · apply List.map_congr_left
    intro i _
    simp
  · by_cases hc : r ≤ nbm - dst
    · have e2 : ((min r (nbm - dst)).toNat : Int) = r := by omega
      rw [e2]
      have e3 : nbm - 1 - r + 1 - dst = nbm - dst - r := by ring
      rw [e3]
    · have e2 : (nbm - 1 - ((min r (nbm - dst)).toNat : Int) + 1 - dst).toNat = 0 := by omega
      have e3 : (nbm - dst - r).toNat = 0 := by omega
      rw [e2, e3]
      rfl

theorem frag_steps_helper (kBlockM kBlockN actual_seqlen_q actual_seqlen_k m_block : Int)
    (hM : 0 < kBlockM) (hN : 0 < kBlockN)
    (hq : m_block * kBlockM < actual_seqlen_q) (hk : actual_seqlen_k ≠ 0)
    (hh : is_helper kBlockM actual_seqlen_q m_block = true)
    (hd : ceil_div kBlockM kBlockN * (ceil_div actual_seqlen_q kBlockM / 2 + 1)
      < min (ceil_div actual_seqlen_k kBlockN)
          (ceil_div ((reverse_m_block kBlockM actual_seqlen_q m_block + 1) * kBlockM) kBlockN)) :
    compute_attn_1rowblock_causal_frag_steps kBlockM kBlockN actual_seqlen_q actual_seqlen_k
        m_block
      = some
        ((List.range
            (min (ceil_div kBlockM kBlockN)
              (min (ceil_div actual_seqlen_k kBlockN)
                  (ceil_div ((reverse_m_block kBlockM actual_seqlen_q m_block + 1) * kBlockM)
                    kBlockN)
                - ceil_div kBlockM kBlockN * (ceil_div actual_seqlen_q kBlockM / 2 + 1))).toNat).map
            (fun (i : Nat) =>
              Step.mk
                (min (ceil_div actual_seqlen_k kBlockN)
                  (ceil_div ((reverse_m_block kBlockM actual_seqlen_q m_block + 1) * kBlockM)
                    kBlockN) - 1 - i)
                (min (ceil_div actual_seqlen_k kBlockN)
                  (ceil_div ((reverse_m_block kBlockM actual_seqlen_q m_block + 1) * kBlockM)
                    kBlockN) - 1 - i)
                (min (ceil_div actual_seqlen_k kBlockN)
                  (ceil_div ((reverse_m_block kBlockM actual_seqlen_q m_block + 1) * kBlockM)
                    kBlockN) - 1 - i)
                (decide ((i : Int) = 0)) true Mask.causal (!decide ((i : Int) > 0)))
          ++ (List.range
              (min (ceil_div actual_seqlen_k kBlockN)
                  (ceil_div ((reverse_m_block kBlockM actual_seqlen_q m_block + 1) * kBlockM)
                    kBlockN)
                - ceil_div kBlockM kBlockN * (ceil_div actual_seqlen_q kBlockM / 2 + 1)
                - ceil_div kBlockM kBlockN).toNat).map
            (fun (i : Nat) =>
              Step.mk
                (min (ceil_div actual_seqlen_k kBlockN)
                  (ceil_div ((reverse_m_block kBlockM actual_seqlen_q m_block + 1) * kBlockM)
                    kBlockN) - 1 - ceil_div kBlockM kBlockN - i)
                (min (ceil_div actual_seqlen_k kBlockN)
                  (ceil_div ((reverse_m_block kBlockM actual_seqlen_q m_block + 1) * kBlockM)
                    kBlockN) - 1 - ceil_div kBlockM kBlockN - i)
                (min (ceil_div actual_seqlen_k kBlockN)
                  (ceil_div ((reverse_m_block kBlockM actual_seqlen_q m_block + 1) * kBlockM)
                    kBlockN) - 1 - ceil_div kBlockM kBlockN - i)
                false false Mask.none false)) := by
  have hr := ceil_div_pos kBlockM kBlockN hM hN
  have hne : ¬ (m_block * kBlockM ≥ actual_seqlen_q ∨ actual_seqlen_k = 0) := by omega
  simp only [compute_attn_1rowblock_causal_frag_steps, hne, hh, if_false, if_true]
  rw [frag_loops_steps _ _ _ hr hd _ (by omega)]

/-- Claim C15: tiles that lie fully above the diagonal are never iterated.  For
`compute_attn_1rowblock` with `Is_causal`, `m_block ≥ 0`, positive `kBlockM`, `kBlockN` and
`actual_seqlen_k`, and a unit that does not return early, the list of iterations exists
and is not empty, and every iterated tile `n` has `0 ≤ n`,
`n * kBlockN ≤ (m_block + 1) * kBlockM - 1` and `n * kBlockN < actual_seqlen_k`; the K tile
and the V tile of the iteration are both tile `n`. -/
theorem causal_tiles_not_above_diagonal (Is_even_N : Bool)
    (kBlockM kBlockN actual_seqlen_q actual_seqlen_k m_block : Int)
    (hM : 0 < kBlockM) (hN : 0 < kBlockN) (hm : 0 ≤ m_block)
    (hq : m_block * kBlockM < actual_seqlen_q) (hk : 0 < actual_seqlen_k) :
    ∃ steps, compute_attn_1rowblock_steps true Is_even_N kBlockM kBlockN actual_seqlen_q
        actual_seqlen_k m_block = some steps ∧ steps ≠ [] ∧
      ∀ s ∈ steps, 0 ≤ s.n_block ∧ s.k_tile = s.n_block ∧ s.v_tile = s.n_block ∧
        s.n_block * kBlockN ≤ (m_block + 1) * kBlockM - 1 ∧
        s.n_block * kBlockN < actual_seqlen_k := by
  refine ⟨_, compute_attn_1rowblock_steps_causal Is_even_N kBlockM kBlockN actual_seqlen_q
    actual_seqlen_k m_block hM hN hm hq hk, ?_, ?_⟩
  · have hr := ceil_div_pos kBlockM kBlockN hM hN
    have h1 := ceil_div_pos actual_seqlen_k kBlockN hk hN
    have h2 := ceil_div_pos ((m_block + 1) * kBlockM) kBlockN (mul_pos (by omega) hM) hN
    have hn := lt_min hr (lt_min h1 h2)
    intro h
    have := congrArg List.length h
    simp only [List.length_append, List.length_map, List.length_range, List.length_nil] at this
    omega
  · have b1 := (ceil_div_spec actual_seqlen_k kBlockN hN).1
    have b2 := (ceil_div_spec ((m_block + 1) * kBlockM) kBlockN hN).1
    have key : ∀ n : Int, 0 ≤ n →
        n ≤ min (ceil_div actual_seqlen_k kBlockN)
          (ceil_div ((m_block + 1) * kBlockM) kBlockN) - 1 →
        n * kBlockN ≤ (m_block + 1) * kBlockM - 1 ∧ n * kBlockN < actual_seqlen_k := by
      intro n _ hn
      have hn1 : n ≤ ceil_div actual_seqlen_k kBlockN - 1 := le_trans hn (by
        have := min_le_left (ceil_div actual_seqlen_k kBlockN)
          (ceil_div ((m_block + 1) * kBlockM) kBlockN)
        omega)
      have hn2 : n ≤ ceil_div ((m_block + 1) * kBlockM) kBlockN - 1 := le_trans hn (by
        have := min_le_right (ceil_div actual_seqlen_k kBlockN)
          (ceil_div ((m_block + 1) * kBlockM) kBlockN)
        omega)
      have m1 := mul_le_mul_of_nonneg_right hn1 (le_of_lt hN)
      have m2 := mul_le_mul_of_nonneg_right hn2 (le_of_lt hN)
      constructor <;> omega
    intro s hs
    rw [List.mem_append] at hs
    rcases hs with hs | hs
    · rw [List.mem_map] at hs
      obtain ⟨i, hi, rfl⟩ := hs
      rw [List.mem_range] at hi
      have := key (min (ceil_div actual_seqlen_k kBlockN)
        (ceil_div ((m_block + 1) * kBlockM) kBlockN) - 1 - i) (by omega) (by omega)
      exact ⟨by simp only; omega, rfl, rfl, this⟩
    · rw [List.mem_map] at hs
      obtain ⟨i, hi, rfl⟩ := hs
      rw [List.mem_range] at hi
      have hr := ceil_div_pos kBlockM kBlockN hM hN
      have := key (min (ceil_div actual_seqlen_k kBlockN)
        (ceil_div ((m_block + 1) * kBlockM) kBlockN) - 1 - ceil_div kBlockM kBlockN - i)
        (by omega) (by omega)
      exact ⟨by simp only; omega, rfl, rfl, this⟩

theorem ceil_div_sub_le (kBlockM kBlockN m_block : Int) (hM : 0 < kBlockM) (hN : 0 < kBlockN)
    (hdiv : kBlockN ∣ kBlockM ∨ kBlockM ∣ kBlockN) :
    (ceil_div ((m_block + 1) * kBlockM) kBlockN - ceil_div kBlockM kBlockN) * kBlockN
      ≤ m_block * kBlockM := by
  rcases hdiv with ⟨t, rfl⟩ | ⟨t, rfl⟩
  · have e1 : ceil_div (kBlockN * t) kBlockN = t := by
      rw [mul_comm]; exact ceil_div_mul t kBlockN hN
    have e2 : ceil_div ((m_block + 1) * (kBlockN * t)) kBlockN = (m_block + 1) * t := by
      have : (m_block + 1) * (kBlockN * t) = ((m_block + 1) * t) * kBlockN := by ring
      rw [this]; exact ceil_div_mul _ kBlockN hN
    rw [e1, e2]
    have : ((m_block + 1) * t - t) * kBlockN = m_block * (kBlockN * t) := by ring
    omega
  · have ht : 0 < t := by
      by_contra hc
      have : kBlockM * t ≤ 0 := mul_nonpos_of_nonneg_of_nonpos (le_of_lt hM) (by omega)
      omega
    have s1 := ceil_div_spec kBlockM (kBlockM * t) hN
    have s2 := ceil_div_spec ((m_block + 1) * kBlockM) (kBlockM * t) hN
    have hr := ceil_div_pos kBlockM (kBlockM * t) hM hN
    generalize ceil_div kBlockM (kBlockM * t) = r at s1 hr ⊢
    generalize ceil_div ((m_block + 1) * kBlockM) (kBlockM * t) = q at s2 ⊢
    have a1 : (q - 1) * t < m_block + 1 := by
      have : ((q - 1) * t) * kBlockM < (m_block + 1) * kBlockM := by
        have e : (q - 1) * (kBlockM * t) = ((q - 1) * t) * kBlockM := by ring
        rw [← e]; exact s2.1
      exact lt_of_mul_lt_mul_right this (le_of_lt hM)
    have a2 : (q - r) * t ≤ (q - 1) * t :=
      mul_le_mul_of_nonneg_right (by omega) (le_of_lt ht)
    have a3 : (q - r) * t ≤ m_block := by omega
    have a4 := mul_le_mul_of_nonneg_right a3 (le_of_lt hM)
    have e : (q - r) * (kBlockM * t) = (q - r) * t * kBlockM := by ring
    rw [e]; exact a4

/-- Claim C14: the tiles of the non-masking loop lie fully below the diagonal.  For
`compute_attn_1rowblock` with `Is_causal`, positive tile sizes one of which divides the
other, and a unit that does not return early: the iterations are a first part of at most
`ceil_div kBlockM kBlockN` iterations, all with causal masking, followed by a second part
without masking in which every tile `n` has `(n + 1) * kBlockN - 1 ≤ m_block * kBlockM`
and `(n + 1) * kBlockN ≤ actual_seqlen_k` (K tile and V tile both being tile `n`); hence an
iterated tile that reaches above the first query row of the tile, or past the end of the
keys, belongs to the first part. -/
theorem causal_unmasked_tiles_below_diagonal (Is_even_N : Bool)
    (kBlockM kBlockN actual_seqlen_q actual_seqlen_k m_block : Int)
    (hM : 0 < kBlockM) (hN : 0 < kBlockN) (hm : 0 ≤ m_block)
    (hq : m_block * kBlockM < actual_seqlen_q) (hk : 0 < actual_seqlen_k)
    (hdiv : kBlockN ∣ kBlockM ∨ kBlockM ∣ kBlockN) :
    ∃ pre post, compute_attn_1rowblock_steps true Is_even_N kBlockM kBlockN actual_seqlen_q
        actual_seqlen_k m_block = some (pre ++ post) ∧
      pre.length ≤ (ceil_div kBlockM kBlockN).toNat ∧
      (∀ s ∈ pre, s.mask = Mask.causal) ∧
      (∀ s ∈ post, s.mask = Mask.none ∧ s.k_tile = s.n_block ∧ s.v_tile = s.n_block ∧
        (s.n_block + 1) * kBlockN - 1 ≤ m_block * kBlockM ∧
        (s.n_block + 1) * kBlockN ≤ actual_seqlen_k) ∧
      ∀ s ∈ pre ++ post,
        (m_block * kBlockM < (s.n_block + 1) * kBlockN - 1 ∨
          actual_seqlen_k < (s.n_block + 1) * kBlockN) → s ∈ pre := by
  have hpost : ∀ s ∈ (List.range
      (min (ceil_div actual_seqlen_k kBlockN) (ceil_div ((m_block + 1) * kBlockM) kBlockN)
        - ceil_div kBlockM kBlockN).toNat).map
      (fun (i : Nat) =>
        Step.mk
          (min (ceil_div actual_seqlen_k kBlockN)
            (ceil_div ((m_block + 1) * kBlockM) kBlockN) - 1 - ceil_div kBlockM kBlockN - i)
          (min (ceil_div actual_seqlen_k kBlockN)
            (ceil_div ((m_block + 1) * kBlockM) kBlockN) - 1 - ceil_div kBlockM kBlockN - i)
          (min (ceil_div actual_seqlen_k kBlockN)
            (ceil_div ((m_block + 1) * kBlockM) kBlockN) - 1 - ceil_div kBlockM kBlockN - i)
          false false Mask.none false),
      s.mask = Mask.none ∧ s.k_tile = s.n_block ∧ s.v_tile = s.n_block ∧
        (s.n_block + 1) * kBlockN - 1 ≤ m_block * kBlockM ∧
        (s.n_block + 1) * kBlockN ≤ actual_seqlen_k := by
    intro s hs
    rw [List.mem_map] at hs
    obtain ⟨i, hi, rfl⟩ := hs
    rw [List.mem_range] at hi
    refine ⟨rfl, rfl, rfl, ?_⟩
    simp only
    have hr := ceil_div_pos kBlockM kBlockN hM hN
    have b1 := (ceil_div_spec actual_seqlen_k kBlockN hN).1
    have b3 := ceil_div_sub_le kBlockM kBlockN m_block hM hN hdiv
    have l1 := min_le_left (ceil_div actual_seqlen_k kBlockN)
      (ceil_div ((m_block + 1) * kBlockM) kBlockN)
    have l2 := min_le_right (ceil_div actual_seqlen_k kBlockN)
      (ceil_div ((m_block + 1) * kBlockM) kBlockN)
    generalize min (ceil_div actual_seqlen_k kBlockN)
      (ceil_div ((m_block + 1) * kBlockM) kBlockN) = nbm at hi l1 l2 ⊢
    generalize ceil_div kBlockM kBlockN = r at hi hr b3 ⊢
    generalize ceil_div actual_seqlen_k kBlockN = a at b1 l1
    generalize ceil_div ((m_block + 1) * kBlockM) kBlockN = q at b3 l2
    have c1 : nbm - 1 - r - (i : Int) + 1 ≤ q - r := by omega
    have c2 : nbm - 1 - r - (i : Int) + 1 ≤ a - 1 := by omega
    have m1 := mul_le_mul_of_nonneg_right c1 (le_of_lt hN)
    have m2 := mul_le_mul_of_nonneg_right c2 (le_of_lt hN)
    constructor <;> omega
  refine ⟨_, _, compute_attn_1rowblock_steps_causal Is_even_N kBlockM kBlockN actual_seqlen_q
    actual_seqlen_k m_block hM hN hm hq hk, ?_, ?_, hpost, ?_⟩
  · simp only [List.length_map, List.length_range]
    omega
  · intro s hs
    rw [List.mem_map] at hs
    obtain ⟨i, _, rfl⟩ := hs
    rfl
  · intro s hs hb
    rw [List.mem_append] at hs
    rcases hs with hs | hs
    · exact hs
    · have := hpost s hs
      omega

/-- Claim C13: role assignment in `compute_attn_1rowblock_causal`.  For a tile index
`0 ≤ m_block < T`, `T = total_tiles`: `m_block` is not both a helper and a publisher;
`reverse_m_block` is `T - 1 - m_block`, again a tile index, and mirroring twice gives
`m_block` back; `m_block` is a helper exactly when its mirror is a publisher, and a
publisher exactly when its mirror is a helper, so mirroring is a bijection between the
helpers and the publishers; the mirror of a helper lies beyond `T / 2`. -/
theorem role_assignment (kBlockM actual_seqlen_q m_block : Int)
    (hm : 0 ≤ m_block) (hT : m_block < total_tiles kBlockM actual_seqlen_q) :
    ¬ (is_helper kBlockM actual_seqlen_q m_block = true
        ∧ is_publisher kBlockM actual_seqlen_q m_block = true) ∧
      reverse_m_block kBlockM actual_seqlen_q m_block
        = total_tiles kBlockM actual_seqlen_q - 1 - m_block ∧
      0 ≤ reverse_m_block kBlockM actual_seqlen_q m_block ∧
      reverse_m_block kBlockM actual_seqlen_q m_block < total_tiles kBlockM actual_seqlen_q ∧
      reverse_m_block kBlockM actual_seqlen_q
        (reverse_m_block kBlockM actual_seqlen_q m_block) = m_block ∧
      (is_helper kBlockM actual_seqlen_q m_block = true ↔
        is_publisher kBlockM actual_seqlen_q
          (reverse_m_block kBlockM actual_seqlen_q m_block) = true) ∧
      (is_publisher kBlockM actual_seqlen_q m_block = true ↔
        is_helper kBlockM actual_seqlen_q
          (reverse_m_block kBlockM actual_seqlen_q m_block) = true) ∧
      (is_helper kBlockM actual_seqlen_q m_block = true →
        total_tiles kBlockM actual_seqlen_q / 2
          < reverse_m_block kBlockM actual_seqlen_q m_block) := by
  simp only [is_helper, is_publisher, reverse_m_block, decide_eq_true_eq]
  generalize total_tiles kBlockM actual_seqlen_q = T at hT ⊢
  omega

theorem perm_range_desc (k : Nat) (lo : Int) :
    List.Perm ((List.range k).map fun (i : Nat) => lo + k - 1 - i)
      ((List.range k).map fun (i : Nat) => lo + i) := by
  induction k with
  | zero => simp
  | succ k ih =>
    rw [map_range_shift, List.range_succ, List.map_append, List.map_singleton]
    have e : ((List.range k).map fun (i : Nat) => lo + ((k + 1 : Nat) : Int) - 1 - ((i + 1 : Nat) : Int))
        = (List.range k).map fun (i : Nat) => lo + k - 1 - i := by
      apply List.map_congr_left
      intro i _
      push_cast; ring
    rw [e]
    have e2 : lo + ((k + 1 : Nat) : Int) - 1 - ((0 : Nat) : Int) = lo + k := by
      push_cast; ring
    rw [e2]
    exact (List.Perm.cons _ ih).trans (List.perm_append_singleton _ _).symm

theorem map_range_append (f : Nat → Int × Int) (a b : Nat) :
    (List.range a).map f ++ (List.range b).map (fun i => f (a + i))
      = (List.range (a + b)).map f := by
  rw [List.range_add, List.map_append, List.map_map]
  rfl

theorem frag_proj (t nbm D : Int) (ht : 0 < t) (hd : D < nbm) :
    ((List.range (min t (nbm - D)).toNat).map
          (fun (i : Nat) =>
            Step.mk (nbm - 1 - i) (nbm - 1 - i) (nbm - 1 - i)
              (decide ((i : Int) = 0)) true Mask.causal (!decide ((i : Int) > 0)))
        ++ (List.range (nbm - D - t).toNat).map
          (fun (i : Nat) =>
            Step.mk (nbm - 1 - t - i) (nbm - 1 - t - i) (nbm - 1 - t - i)
              false false Mask.none false)).map (fun s => (s.k_tile, s.v_tile))
      = (List.range (nbm - D).toNat).map
          (fun (i : Nat) => (nbm - 1 - (i : Int), nbm - 1 - (i : Int))) := by
  rw [List.map_append, List.map_map, List.map_map]
  have e : (nbm - D).toNat = (min t (nbm - D)).toNat + (nbm - D - t).toNat := by omega
  rw [e, ← map_range_append]
  congr 1
  apply List.map_congr_left
  intro i hi
  rw [List.mem_range] at hi
  have : ((min t (nbm - D)).toNat : Int) = t := by omega
  simp only [Function.comp, Nat.cast_add, this]
  congr 1 <;> ring

theorem perm_of_proj (own frag : List Step) (D nbm : Int) (hD : 0 ≤ D) (hd : D ≤ nbm)
    (h1 : own.map (fun s => (s.k_tile, s.v_tile))
      = (List.range D.toNat).map (fun (i : Nat) => ((i : Int), (i : Int))))
    (h2 : frag.map (fun s => (s.k_tile, s.v_tile))
      = (List.range (nbm - D).toNat).map
          (fun (i : Nat) => (nbm - 1 - (i : Int), nbm - 1 - (i : Int)))) :
    List.Perm ((own ++ frag).map fun s => s.k_tile)
      ((List.range nbm.toNat).map fun (i : Nat) => (i : Int)) := by
  have e0 : ∀ l : List Step, l.map (fun s => s.k_tile)
      = (l.map (fun s => (s.k_tile, s.v_tile))).map Prod.fst := by
    intro l; rw [List.map_map]; rfl
  rw [e0, List.map_append, h1, h2, List.map_append, List.map_map, List.map_map]
  have e : nbm.toNat = D.toNat + (nbm - D).toNat := by omega
  rw [e, List.range_add, List.map_append, List.map_map]
  refine List.Perm.append (List.Perm.of_eq rfl) ?_
  have p := perm_range_desc (nbm - D).toNat D
  refine List.Perm.trans (List.Perm.of_eq ?_) (p.trans (List.Perm.of_eq ?_))
  · apply List.map_congr_left
    intro i _
    simp only [Function.comp]
    omega
  · apply List.map_congr_left
    intro i _
    simp only [Function.comp, Nat.cast_add]
    omega

/-- Claim C12: the rendezvous point partitions the key range of the mirrored tile.  Let
`kBlockN` divide `kBlockM`, `actual_seqlen_k = actual_seqlen_q`, and let `m_block` be a
helper with mirrored tile `rev = reverse_m_block`.  Write
`D = ceil_div kBlockM kBlockN * (total_tiles / 2 + 1)` and
`n_block_max = min (ceil_div actual_seqlen_q kBlockN) (ceil_div ((rev + 1) * kBlockM) kBlockN)`.
The own pass of the unit of tile `rev` and the fragment pass of the helper both run; the
own pass multiplies K tile `i` with V tile `i` for `i = 0, ..., D - 1` in this order, the
fragment pass for `i = n_block_max - 1, ..., D` in this order; `0 < D < n_block_max`, so
neither pass is empty and the two ranges are disjoint; and the tiles of the two passes
together are a permutation of `0, ..., n_block_max - 1`: each tile is processed exactly
once. -/
theorem rendezvous_partition (kBlockM kBlockN actual_seqlen_q m_block : Int)
    (hM : 0 < kBlockM) (hN : 0 < kBlockN) (hdiv : kBlockN ∣ kBlockM) (hm : 0 ≤ m_block)
    (hh : is_helper kBlockM actual_seqlen_q m_block = true) :
    ∃ own frag,
      compute_attn_1rowblock_causal_own_steps kBlockM kBlockN actual_seqlen_q actual_seqlen_q
          (reverse_m_block kBlockM actual_seqlen_q m_block) = some own ∧
      compute_attn_1rowblock_causal_frag_steps kBlockM kBlockN actual_seqlen_q actual_seqlen_q
          m_block = some frag ∧
      own.map (fun s => (s.k_tile, s.v_tile))
        = (List.range
            (ceil_div kBlockM kBlockN * (total_tiles kBlockM actual_seqlen_q / 2 + 1)).toNat).map
          (fun (i : Nat) => ((i : Int), (i : Int))) ∧
      frag.map (fun s => (s.k_tile, s.v_tile))
        = (List.range
            (min (ceil_div actual_seqlen_q kBlockN)
                (ceil_div ((reverse_m_block kBlockM actual_seqlen_q m_block + 1) * kBlockM)
                  kBlockN)
              - ceil_div kBlockM kBlockN
                * (total_tiles kBlockM actual_seqlen_q / 2 + 1)).toNat).map
          (fun (i : Nat) =>
            (min (ceil_div actual_seqlen_q kBlockN)
                (ceil_div ((reverse_m_block kBlockM actual_seqlen_q m_block + 1) * kBlockM)
                  kBlockN) - 1 - i,
              min (ceil_div actual_seqlen_q kBlockN)
                (ceil_div ((reverse_m_block kBlockM actual_seqlen_q m_block + 1) * kBlockM)
                  kBlockN) - 1 - i)) ∧
      0 < ceil_div kBlockM kBlockN * (total_tiles kBlockM actual_seqlen_q / 2 + 1) ∧
      ceil_div kBlockM kBlockN * (total_tiles kBlockM actual_seqlen_q / 2 + 1)
        < min (ceil_div actual_seqlen_q kBlockN)
            (ceil_div ((reverse_m_block kBlockM actual_seqlen_q m_block + 1) * kBlockM)
              kBlockN) ∧
      List.Perm ((own ++ frag).map fun s => s.k_tile)
        ((List.range
            (min (ceil_div actual_seqlen_q kBlockN)
              (ceil_div ((reverse_m_block kBlockM actual_seqlen_q m_block + 1) * kBlockM)
                kBlockN)).toNat).map fun (i : Nat) => (i : Int)) := by
  obtain ⟨t, rfl⟩ := hdiv
  have ht : 0 < t := by
    by_contra hc
    have : kBlockN * t ≤ 0 := mul_nonpos_of_nonneg_of_nonpos (le_of_lt hN) (by omega)
    omega
  have hr : ceil_div (kBlockN * t) kBlockN = t := by
    rw [mul_comm]; exact ceil_div_mul t kBlockN hN
  have f1 := ceil_div_spec actual_seqlen_q (kBlockN * t) hM
  have hrev : ceil_div ((reverse_m_block (kBlockN * t) actual_seqlen_q m_block + 1)
      * (kBlockN * t)) kBlockN
      = (reverse_m_block (kBlockN * t) actual_seqlen_q m_block + 1) * t := by
    have : (reverse_m_block (kBlockN * t) actual_seqlen_q m_block + 1) * (kBlockN * t)
        = ((reverse_m_block (kBlockN * t) actual_seqlen_q m_block + 1) * t) * kBlockN := by ring
    rw [this]; exact ceil_div_mul _ kBlockN hN
  have f7 := ceil_div_spec actual_seqlen_q kBlockN hN
  rw [hrev, hr]
  simp only [is_helper, decide_eq_true_eq] at hh
  have hpub : is_publisher (kBlockN * t) actual_seqlen_q
      (reverse_m_block (kBlockN * t) actual_seqlen_q m_block) = true := by
    simp only [is_publisher, reverse_m_block, decide_eq_true_eq]
    omega
  have hhelp : is_helper (kBlockN * t) actual_seqlen_q m_block = true := by
    simp only [is_helper, decide_eq_true_eq]
    exact hh
  have own := own_steps_publisher (kBlockN * t) kBlockN actual_seqlen_q actual_seqlen_q
    (reverse_m_block (kBlockN * t) actual_seqlen_q m_block)
  have frag := frag_steps_helper (kBlockN * t) kBlockN actual_seqlen_q actual_seqlen_q m_block
    hM hN
  rw [hrev, hr] at frag
  rw [hr] at own
  simp only [reverse_m_block] at own frag hpub ⊢
  rw [total_tiles_eq] at hh own frag hpub ⊢
  generalize ceil_div actual_seqlen_q (kBlockN * t) = T at f1 hh own frag hpub ⊢
  generalize ceil_div actual_seqlen_q kBlockN = A at f7 frag ⊢
  have hT : 3 ≤ T := by omega
  have g1 : m_block * (kBlockN * t) ≤ (T - 1) * (kBlockN * t) :=
    mul_le_mul_of_nonneg_right (by omega) (le_of_lt hM)
  have g2 : (T - m_block - 1) * (kBlockN * t) ≤ (T - 1) * (kBlockN * t) :=
    mul_le_mul_of_nonneg_right (by omega) (le_of_lt hM)
  have g3 : (0 : Int) ≤ (T - 1) * (kBlockN * t) :=
    mul_nonneg (by omega) (le_of_lt hM)
  have g4 : t * (T / 2 + 1) < (T - m_block - 1 + 1) * t := by
    rw [mul_comm t]
    exact mul_lt_mul_of_pos_right (by omega) ht
  have g5 : t * (T / 2 + 1) < A := by
    have h1 : t * (T / 2 + 1) ≤ (T - 1) * t := by
      rw [mul_comm t]
      exact mul_le_mul_of_nonneg_right (by omega) (le_of_lt ht)
    have h2 : ((T - 1) * t) * kBlockN < A * kBlockN := by
      have : (T - 1) * (kBlockN * t) = ((T - 1) * t) * kBlockN := by ring
      omega
    have := lt_of_mul_lt_mul_right h2 (le_of_lt hN)
    omega
  have g6 : 0 < t * (T / 2 + 1) := mul_pos ht (by omega)
  have hd := lt_min g5 g4
  have own := own (by omega) (by omega) hpub
  have frag := frag (by omega) (by omega) hhelp hd
  generalize min A ((T - m_block - 1 + 1) * t) = nbm at hd frag ⊢
  generalize t * (T / 2 + 1) = D at g6 hd own frag ⊢
  exact ⟨_, _, own, frag, by rw [List.map_map]; rfl, frag_proj t nbm D ht hd, g6, hd,
    perm_of_proj _ _ D nbm (le_of_lt g6) (le_of_lt hd) (by rw [List.map_map]; rfl)
      (frag_proj t nbm D ht hd)⟩

/-! ## The flag protocol -/

theorem helper_not_publisher (kBlockM actual_seqlen_q m_block : Int)
    (hh : is_helper kBlockM actual_seqlen_q m_block = true) :
    is_publisher kBlockM actual_seqlen_q m_block = false := by
  simp only [is_helper, is_publisher, decide_eq_true_eq, decide_eq_false_iff_not] at hh ⊢
  generalize total_tiles kBlockM actual_seqlen_q = T at hh ⊢
  omega

theorem publisher_not_helper (kBlockM actual_seqlen_q m_block : Int)
    (hp : is_publisher kBlockM actual_seqlen_q m_block = true) :
    is_helper kBlockM actual_seqlen_q m_block = false := by
  simp only [is_helper, is_publisher, decide_eq_true_eq, decide_eq_false_iff_not] at hp ⊢
  generalize total_tiles kBlockM actual_seqlen_q = T at hp ⊢
  omega

/-- Claim C16, amended.  A publisher launched through `compute_attn_casual` that does not
return early sets exactly one flag to 1, `CompleteMask[bidh][bidb][blockIdx.x]`: the third
index is the unit index `blockIdx.x = gridDim.x - 1 - m_block`, not the index of the tile
the unit works on.  When `gridDim.x` is the tile count, this is the index of the mirrored
tile, and it differs from `m_block`. -/
theorem flag_set_index (Share_Q_K_smem : Bool)
    (kBlockM actual_seqlen_q actual_seqlen_k bidb bidh gridDim_x blockIdx_x : Int)
    (hp : is_publisher kBlockM actual_seqlen_q (gridDim_x - 1 - blockIdx_x) = true)
    (hq : (gridDim_x - 1 - blockIdx_x) * kBlockM < actual_seqlen_q)
    (hk : actual_seqlen_k ≠ 0) :
    (∀ h b i v, Event.atomicOr h b i v ∈ compute_attn_casual_events true Share_Q_K_smem
        kBlockM actual_seqlen_q actual_seqlen_k bidb bidh gridDim_x blockIdx_x
      ↔ (h = bidh ∧ b = bidb ∧ i = blockIdx_x ∧ v = 1)) ∧
    (gridDim_x = total_tiles kBlockM actual_seqlen_q →
      blockIdx_x = reverse_m_block kBlockM actual_seqlen_q (gridDim_x - 1 - blockIdx_x) ∧
      blockIdx_x ≠ gridDim_x - 1 - blockIdx_x) := by
  have hne : ¬ ((gridDim_x - 1 - blockIdx_x) * kBlockM ≥ actual_seqlen_q
      ∨ actual_seqlen_k = 0) := by omega
  have hh := publisher_not_helper _ _ _ hp
  constructor
  · intro h b i v
    cases Share_Q_K_smem <;>
      simp [compute_attn_casual_events, compute_attn_1rowblock_causal_events, hp, hne, hh]
  · intro hg
    simp only [is_publisher, reverse_m_block, decide_eq_true_eq] at hp ⊢
    rw [← hg] at hp ⊢
    omega

/-- Claim C16 as stated fails: with four query tiles of 128 rows the unit `blockIdx.x = 0`
works on tile 3, is a publisher, and sets `CompleteMask[0][0][0]`, not
`CompleteMask[0][0][3]`. -/
theorem flag_set_not_at_own_tile :
    is_publisher 128 512 (4 - 1 - 0) = true ∧
      Event.atomicOr 0 0 0 1 ∈ compute_attn_casual_events true false 128 512 512 0 0 4 0 ∧
      Event.atomicOr 0 0 (4 - 1 - 0) 1
        ∉ compute_attn_casual_events true false 128 512 512 0 0 4 0 := by
  decide

/-- Claim C17, amended.  A helper that does not return early polls
`CompleteMask[bidh][bidb][m_block]`, with the index `m_block` of its own tile, not that of
the mirrored tile.  Its events are: a prefix without any load of published state, the spin
loop, a barrier, and a rest that holds no other spin loop and the loads of the output, the
maxima and the sums of the mirrored tile `reverse_m_block`, and of no other tile.  So in
program order no published value is read before the spin loop is over. -/
theorem helper_polls_own_index (Share_Q_K_smem : Bool)
    (kBlockM actual_seqlen_q actual_seqlen_k bidb bidh m_block blockIdx_x : Int)
    (hh : is_helper kBlockM actual_seqlen_q m_block = true)
    (hq : m_block * kBlockM < actual_seqlen_q) (hk : actual_seqlen_k ≠ 0) :
    ∃ pre post,
      compute_attn_1rowblock_causal_events Share_Q_K_smem kBlockM actual_seqlen_q
          actual_seqlen_k bidb bidh m_block blockIdx_x
        = pre ++ Event.atomicCAS_spin bidh bidb m_block :: Event.syncthreads :: post ∧
      (∀ e ∈ pre, e.is_load = false) ∧
      (∀ h b i, Event.atomicCAS_spin h b i ∉ pre ++ post) ∧
      (∀ e ∈ post, e.is_load = true →
        e = Event.load_o (reverse_m_block kBlockM actual_seqlen_q m_block) ∨
        e = Event.load_scores_max (reverse_m_block kBlockM actual_seqlen_q m_block) ∨
        e = Event.load_scores_sum (reverse_m_block kBlockM actual_seqlen_q m_block)) ∧
      Event.load_o (reverse_m_block kBlockM actual_seqlen_q m_block) ∈ post ∧
      Event.load_scores_max (reverse_m_block kBlockM actual_seqlen_q m_block) ∈ post ∧
      Event.load_scores_sum (reverse_m_block kBlockM actual_seqlen_q m_block) ∈ post := by
  have hne : ¬ (m_block * kBlockM ≥ actual_seqlen_q ∨ actual_seqlen_k = 0) := by omega
  have hp := helper_not_publisher _ _ _ hh
  cases Share_Q_K_smem
  · refine ⟨[Event.syncthreads, Event.store_lse m_block, Event.store_o m_block,
      Event.syncthreads],
      [Event.syncthreads, Event.load_o (reverse_m_block kBlockM actual_seqlen_q m_block),
        Event.syncthreads, Event.syncthreads,
        Event.load_scores_max (reverse_m_block kBlockM actual_seqlen_q m_block),
        Event.load_scores_sum (reverse_m_block kBlockM actual_seqlen_q m_block),
        Event.syncthreads, Event.store_lse (reverse_m_block kBlockM actual_seqlen_q m_block),
        Event.store_o (reverse_m_block kBlockM actual_seqlen_q m_block)],
      ?_, ?_, ?_, ?_, ?_, ?_, ?_⟩
    · simp only [compute_attn_1rowblock_causal_events, hp, hne, hh, if_false, if_true,
        Bool.false_eq_true, List.nil_append, List.append_nil, List.cons_append,
        List.append_assoc]
    all_goals simp [Event.is_load]
  · refine ⟨[Event.syncthreads, Event.syncthreads, Event.store_lse m_block,
      Event.store_o m_block, Event.syncthreads],
      [Event.syncthreads, Event.load_o (reverse_m_block kBlockM actual_seqlen_q m_block),
        Event.syncthreads, Event.syncthreads, Event.syncthreads,
        Event.load_scores_max (reverse_m_block kBlockM actual_seqlen_q m_block),
        Event.load_scores_sum (reverse_m_block kBlockM actual_seqlen_q m_block),
        Event.syncthreads, Event.syncthreads,
        Event.store_lse (reverse_m_block kBlockM actual_seqlen_q m_block),
        Event.store_o (reverse_m_block kBlockM actual_seqlen_q m_block)],
      ?_, ?_, ?_, ?_, ?_, ?_, ?_⟩
    · simp only [compute_attn_1rowblock_causal_events, hp, hne, hh, if_false, if_true,
        Bool.false_eq_true, List.nil_append, List.append_nil, List.cons_append,
        List.append_assoc]
    all_goals simp [Event.is_load]

/-- Claim C17 as stated fails: with four query tiles of 128 rows the helper of tile 0 polls
`CompleteMask[0][0][0]`, not `CompleteMask[0][0][3]`. -/
theorem helper_polls_not_at_mirrored_index :
    is_helper 128 512 0 = true ∧
      Event.atomicCAS_spin 0 0 0
        ∈ compute_attn_1rowblock_causal_events false 128 512 512 0 0 0 3 ∧
      Event.atomicCAS_spin 0 0 (total_tiles 128 512 - 1 - 0)
        ∉ compute_attn_1rowblock_causal_events false 128 512 512 0 0 0 3 := by
  decide

/-- Claim C19 fails on the code.  No unit of `compute_attn_1rowblock_causal` executes
`__threadfence()`, whatever its parameters.  The first half of the claim does hold: in no
unit is there a store to bulk memory after a flag set.  For the publisher of tile 3 of
four the events are: flag reset, barrier, stores to `gLSE`, `gscores_max`, `gscores_sum`
and `gO`, the barrier `__syncthreads()`, flag set.  So the stores precede the flag set in
program order, but what lies between them is a barrier of the threads of the unit, not a
fence. -/
theorem publish_without_fence :
    (∀ (Share_Q_K_smem : Bool)
        (kBlockM actual_seqlen_q actual_seqlen_k bidb bidh m_block blockIdx_x : Int),
      Event.threadfence ∉ compute_attn_1rowblock_causal_events Share_Q_K_smem kBlockM
        actual_seqlen_q actual_seqlen_k bidb bidh m_block blockIdx_x) ∧
    (∀ (Share_Q_K_smem : Bool)
        (kBlockM actual_seqlen_q actual_seqlen_k bidb bidh m_block blockIdx_x : Int),
      ((compute_attn_1rowblock_causal_events Share_Q_K_smem kBlockM actual_seqlen_q
          actual_seqlen_k bidb bidh m_block blockIdx_x).dropWhile
        fun e => !e.is_flag_set).filter Event.is_store = []) ∧
    compute_attn_1rowblock_causal_events false 128 512 512 0 0 3 0
      = [Event.atomicAnd 0 0 0 0, Event.syncthreads, Event.store_lse 3,
          Event.store_scores_max 3, Event.store_scores_sum 3, Event.store_o 3,
          Event.syncthreads, Event.atomicOr 0 0 0 1] := by
  refine ⟨?_, ?_, by decide⟩
  · intro s M sq sk b h m x
    unfold compute_attn_1rowblock_causal_events
    cases s <;> split_ifs <;> simp
  · intro s M sq sk b h m x
    by_cases hp : is_publisher M sq m = true
    · have hh := publisher_not_helper _ _ _ hp
      by_cases hne : (m * M ≥ sq ∨ sk = 0)
      · simp [compute_attn_1rowblock_causal_events, hp, hne, Event.is_flag_set,
          List.dropWhile]
      · cases s <;>
          simp [compute_attn_1rowblock_causal_events, hp, hne, hh, Event.is_flag_set,
            Event.is_store, List.dropWhile]
    · have hp1 : is_publisher M sq m = false := by simpa using hp
      unfold compute_attn_1rowblock_causal_events
      cases s <;> split_ifs <;>
        simp_all [Event.is_flag_set, Event.is_store, List.dropWhile]

/-- Claim C18, amended.  The operations of a unit that can change a flag are: none for a
unit that is no publisher; for a publisher the reset
`atomicAnd(&CompleteMask[bidh][bidb][blockIdx.x], 0)` on entry, followed, unless the unit
returns early, by `atomicOr(&CompleteMask[bidh][bidb][blockIdx.x], 1)`.  When that flag is 0
before the unit starts, its successive values while the unit runs never decrease and are 0
or 1, and every other flag keeps its value throughout. -/
theorem flag_writes_of_unit (Share_Q_K_smem : Bool)
    (kBlockM actual_seqlen_q actual_seqlen_k bidb bidh m_block blockIdx_x : Int)
    (f : Int → Int → Int → Nat) (hz : f bidh bidb blockIdx_x = 0) :
    (compute_attn_1rowblock_causal_events Share_Q_K_smem kBlockM actual_seqlen_q
          actual_seqlen_k bidb bidh m_block blockIdx_x).filter Event.is_flag_write
        = (if is_publisher kBlockM actual_seqlen_q m_block then
            Event.atomicAnd bidh bidb blockIdx_x 0
              :: (if m_block * kBlockM ≥ actual_seqlen_q ∨ actual_seqlen_k = 0 then []
                else [Event.atomicOr bidh bidb blockIdx_x 1])
          else []) ∧
      List.Chain' (fun a b => a ≤ b)
        (flag_values
          (compute_attn_1rowblock_causal_events Share_Q_K_smem kBlockM actual_seqlen_q
            actual_seqlen_k bidb bidh m_block blockIdx_x) f bidh bidb blockIdx_x) ∧
      (∀ v ∈ flag_values
          (compute_attn_1rowblock_causal_events Share_Q_K_smem kBlockM actual_seqlen_q
            actual_seqlen_k bidb bidh m_block blockIdx_x) f bidh bidb blockIdx_x,
        v = 0 ∨ v = 1) ∧
      ∀ h b i, ¬ (h = bidh ∧ b = bidb ∧ i = blockIdx_x) →
        ∀ v ∈ flag_values
          (compute_attn_1rowblock_causal_events Share_Q_K_smem kBlockM actual_seqlen_q
            actual_seqlen_k bidb bidh m_block blockIdx_x) f h b i,
        v = f h b i := by
  by_cases hp : is_publisher kBlockM actual_seqlen_q m_block = true
  · have hh := publisher_not_helper _ _ _ hp
    by_cases hne : (m_block * kBlockM ≥ actual_seqlen_q ∨ actual_seqlen_k = 0)
    · refine ⟨?_, ?_, ?_, ?_⟩
      · simp [compute_attn_1rowblock_causal_events, hp, hne, Event.is_flag_write]
      · simp [compute_attn_1rowblock_causal_events, hp, hne, flag_values, Event.flag_step, hz]
      · simp [compute_attn_1rowblock_causal_events, hp, hne, flag_values, Event.flag_step, hz]
      · intro h b i hn
        simp [compute_attn_1rowblock_causal_events, hp, hne, flag_values, Event.flag_step, hn]
    · refine ⟨?_, ?_, ?_, ?_⟩
      · cases Share_Q_K_smem <;>
          simp [compute_attn_1rowblock_causal_events, hp, hne, hh, Event.is_flag_write]
      · cases Share_Q_K_smem <;>
          simp [compute_attn_1rowblock_causal_events, hp, hne, hh, flag_values,
            Event.flag_step, hz]
      · cases Share_Q_K_smem <;>
          simp [compute_attn_1rowblock_causal_events, hp, hne, hh, flag_values,
            Event.flag_step, hz]
      · intro h b i hn
        cases Share_Q_K_smem <;>
          simp [compute_attn_1rowblock_causal_events, hp, hne, hh, flag_values,
            Event.flag_step, hn]
  · have hp1 : is_publisher kBlockM actual_seqlen_q m_block = false := by
      simpa using hp
    refine ⟨?_, ?_, ?_, ?_⟩
    · unfold compute_attn_1rowblock_causal_events
      cases Share_Q_K_smem <;> split_ifs <;> simp_all [Event.is_flag_write]
    · unfold compute_attn_1rowblock_causal_events
      cases Share_Q_K_smem <;> split_ifs <;> simp_all [flag_values, Event.flag_step]
    · unfold compute_attn_1rowblock_causal_events
      cases Share_Q_K_smem <;> split_ifs <;> simp_all [flag_values, Event.flag_step]
    · intro h b i hn
      unfold compute_attn_1rowblock_causal_events
      cases Share_Q_K_smem <;> split_ifs <;> simp_all [flag_values, Event.flag_step]

/-- Claim C18 as stated fails: the publisher of tile 3 of four writes its flag twice,
first with `atomicAnd(..., 0)`, which stores 0, then with `atomicOr(..., 1)`; on a grid in
which that flag holds 1 beforehand, the flag goes from 1 to 0 and later back to 1. -/
theorem publisher_resets_its_flag :
    is_publisher 128 512 3 = true ∧
      (compute_attn_1rowblock_causal_events false 128 512 512 0 0 3 0).filter
          Event.is_flag_write
        = [Event.atomicAnd 0 0 0 0, Event.atomicOr 0 0 0 1] ∧
      flag_values (compute_attn_1rowblock_causal_events false 128 512 512 0 0 3 0)
          (fun _ _ _ => 1) 0 0 0
        = [1, 0, 0, 0, 0, 0, 0, 0, 1] := by
  refine ⟨by decide, by decide, ?_⟩
  simp [compute_attn_1rowblock_causal_events, is_publisher, is_helper, total_tiles,
    flag_values, Event.flag_step]

/-! ## Stores to bulk memory -/

theorem attn_tile_rowAgree (exp2f : α → α) (Is_first Check_inf : Bool) (c : Flt α)
    (st st1 : SoftmaxState ρ κ α) (t t1 : KVTile ρ κ α) (mi : ρ)
    (hs : t1.scores mi = t.scores mi) (hv : t1.v = t.v) (h : RowAgree mi st1 st) :
    RowAgree mi (attn_tile exp2f Is_first Check_inf c st1 t1)
      (attn_tile exp2f Is_first Check_inf c st t) := by
  obtain ⟨h1, h2, h3⟩ := h
  cases Is_first <;>
    simp [RowAgree, attn_tile, softmax_rescale_o, reduce_max, reduce_sum, scale_apply_exp2,
      gemm_A_in_regs, hs, hv, h1, h2, h3]

theorem run_step_rowAgree (exp2f : α → α) (inp inp1 : Operands κ α) (Is_even_N : Bool)
    (kBlockM kBlockN actual_seqlen_k q_tile : Int) (c : Flt α) (mi : Nat)
    (hS : ∀ k, inp1.S (q_tile * kBlockM + (mi : Int)) k = inp.S (q_tile * kBlockM + (mi : Int)) k)
    (hV : inp1.V = inp.V) (st st1 : SoftmaxState Nat κ α) (h : RowAgree mi st1 st) (s : Step) :
    RowAgree mi (run_step exp2f inp1 Is_even_N kBlockM kBlockN actual_seqlen_k q_tile c st1 s)
      (run_step exp2f inp Is_even_N kBlockM kBlockN actual_seqlen_k q_tile c st s) := by
  have hacc : acc_s inp1 kBlockM kBlockN q_tile s.k_tile mi
      = acc_s inp kBlockM kBlockN q_tile s.k_tile mi := by
    simp [acc_s, hS]
  unfold run_step
  apply attn_tile_rowAgree
  · cases s.mask <;> simp [apply_mask, apply_mask_causal, hacc]
  · simp [load_v, hV]
  · exact h

theorem foldl_run_step_rowAgree (exp2f : α → α) (inp inp1 : Operands κ α) (Is_even_N : Bool)
    (kBlockM kBlockN actual_seqlen_k q_tile : Int) (c : Flt α) (mi : Nat)
    (hS : ∀ k, inp1.S (q_tile * kBlockM + (mi : Int)) k = inp.S (q_tile * kBlockM + (mi : Int)) k)
    (hV : inp1.V = inp.V) (steps : List Step) :
    ∀ (st st1 : SoftmaxState Nat κ α), RowAgree mi st1 st →
      RowAgree mi
        (steps.foldl
          (run_step exp2f inp1 Is_even_N kBlockM kBlockN actual_seqlen_k q_tile c) st1)
        (steps.foldl
          (run_step exp2f inp Is_even_N kBlockM kBlockN actual_seqlen_k q_tile c) st) := by
  induction steps with
  | nil => intro st st1 h; exact h
  | cons s rest ih =>
    intro st st1 h
    simp only [List.foldl_cons]
    exact ih _ _ (run_step_rowAgree exp2f inp inp1 Is_even_N kBlockM kBlockN actual_seqlen_k
      q_tile c mi hS hV st st1 h s)

theorem epilogue_rowAgree (logf : α → α) (Is_dropout : Bool) (st st1 : SoftmaxState ρ κ α)
    (σ rp : Flt α) (mi : ρ) (h : RowAgree mi st1 st) :
    (epilogue logf Is_dropout st1 σ rp).lse mi = (epilogue logf Is_dropout st σ rp).lse mi ∧
      ∀ ni, (epilogue logf Is_dropout st1 σ rp).acc_o mi ni
        = (epilogue logf Is_dropout st σ rp).acc_o mi ni := by
  obtain ⟨h1, h2, h3⟩ := h
  simp [epilogue, h1, h2, h3]

theorem store_rows_above {β : Type} (kBlockM actual_seqlen_q m_block : Int) (frag : Nat → β)
    (mem : Int → β) (i : Int) (hi : actual_seqlen_q ≤ i) :
    store_rows kBlockM actual_seqlen_q m_block frag mem i = mem i := by
  have : ¬ (0 ≤ i - m_block * kBlockM ∧ i - m_block * kBlockM < kBlockM
      ∧ i - m_block * kBlockM < actual_seqlen_q - m_block * kBlockM) := by omega
  unfold store_rows
  rw [if_neg this]

theorem store_rows_congr {β : Type} (kBlockM actual_seqlen_q m_block : Int)
    (frag frag1 : Nat → β) (mem mem1 : Int → β) (i : Int) (hi : i < actual_seqlen_q)
    (hf : ∀ mi : Nat, (mi : Int) < kBlockM → m_block * kBlockM + (mi : Int) < actual_seqlen_q →
      frag1 mi = frag mi)
    (hm : mem1 i = mem i) :
    store_rows kBlockM actual_seqlen_q m_block frag1 mem1 i
      = store_rows kBlockM actual_seqlen_q m_block frag mem i := by
  unfold store_rows
  split_ifs with hc
  · apply hf <;> omega
  · exact hm

theorem rowAgree_clear (regs regs1 : SoftmaxState ρ κ α) (mi : ρ) (h : RowAgree mi regs1 regs) :
    RowAgree mi ({ regs1 with acc_o := fun _ _ => fin 0 } : SoftmaxState ρ κ α)
      ({ regs with acc_o := fun _ _ => fin 0 } : SoftmaxState ρ κ α) :=
  ⟨h.1, h.2.1, fun _ => rfl⟩

theorem plain_gmem_agree (exp2f logf : α → α) (inp inp1 : Operands κ α)
    (Is_causal Is_even_N : Bool) (kBlockM kBlockN actual_seqlen_q actual_seqlen_k m_block : Int)
    (c σ : Flt α) (regs regs1 : SoftmaxState Nat κ α) (g g1 : Gmem κ α)
    (hS : ∀ q k, q < actual_seqlen_q → inp1.S q k = inp.S q k) (hV : inp1.V = inp.V)
    (hregs : ∀ mi : Nat, m_block * kBlockM + (mi : Int) < actual_seqlen_q →
      RowAgree mi regs1 regs)
    (hg : GmemAgree actual_seqlen_q g1 g) :
    GmemAgree actual_seqlen_q
      (compute_attn_1rowblock_gmem exp2f logf inp1 Is_causal Is_even_N kBlockM kBlockN
        actual_seqlen_q actual_seqlen_k m_block c σ regs1 g1)
      (compute_attn_1rowblock_gmem exp2f logf inp Is_causal Is_even_N kBlockM kBlockN
        actual_seqlen_q actual_seqlen_k m_block c σ regs g) := by
  intro i hi
  unfold compute_attn_1rowblock_gmem compute_attn_1rowblock_state
  cases hsteps : compute_attn_1rowblock_steps Is_causal Is_even_N kBlockM kBlockN
      actual_seqlen_q actual_seqlen_k m_block with
  | none => exact hg i hi
  | some steps =>
    simp only [Option.map_some']
    have key : ∀ mi : Nat, m_block * kBlockM + (mi : Int) < actual_seqlen_q →
        RowAgree mi
          (steps.foldl
            (run_step exp2f inp1 Is_even_N kBlockM kBlockN actual_seqlen_k m_block c)
            { regs1 with acc_o := fun _ _ => fin 0 })
          (steps.foldl
            (run_step exp2f inp Is_even_N kBlockM kBlockN actual_seqlen_k m_block c)
            { regs with acc_o := fun _ _ => fin 0 }) := by
      intro mi hmi
      exact foldl_run_step_rowAgree exp2f inp inp1 Is_even_N kBlockM kBlockN actual_seqlen_k
        m_block c mi (fun k => hS _ k hmi) hV steps _ _ (rowAgree_clear _ _ _ (hregs mi hmi))
    refine ⟨?_, (hg i hi).2.1, (hg i hi).2.2.1, ?_⟩
    · exact store_rows_congr _ _ _ _ _ _ _ i hi
        (fun mi _ hmi => (epilogue_rowAgree logf false _ _ σ (fin 1) mi (key mi hmi)).1)
        (hg i hi).1
    · intro ni
      exact congrFun (store_rows_congr _ _ _ _ _ _ _ i hi
        (fun mi _ hmi => funext fun ni =>
          (epilogue_rowAgree logf false _ _ σ (fin 1) mi (key mi hmi)).2 ni)
        (funext fun ni => (hg i hi).2.2.2 ni)) ni

theorem plain_gmem_frame (exp2f logf : α → α) (inp : Operands κ α)
    (Is_causal Is_even_N : Bool) (kBlockM kBlockN actual_seqlen_q actual_seqlen_k m_block : Int)
    (c σ : Flt α) (regs : SoftmaxState Nat κ α) (g : Gmem κ α) (i : Int)
    (hi : actual_seqlen_q ≤ i) :
    (compute_attn_1rowblock_gmem exp2f logf inp Is_causal Is_even_N kBlockM kBlockN
        actual_seqlen_q actual_seqlen_k m_block c σ regs g).softmax_lse i = g.softmax_lse i ∧
    (compute_attn_1rowblock_gmem exp2f logf inp Is_causal Is_even_N kBlockM kBlockN
        actual_seqlen_q actual_seqlen_k m_block c σ regs g).scores_max i = g.scores_max i ∧
    (compute_attn_1rowblock_gmem exp2f logf inp Is_causal Is_even_N kBlockM kBlockN
        actual_seqlen_q actual_seqlen_k m_block c σ regs g).scores_sum i = g.scores_sum i ∧
    (compute_attn_1rowblock_gmem exp2f logf inp Is_causal Is_even_N kBlockM kBlockN
        actual_seqlen_q actual_seqlen_k m_block c σ regs g).o i = g.o i := by
  unfold compute_attn_1rowblock_gmem
  cases compute_attn_1rowblock_state exp2f inp Is_causal Is_even_N kBlockM kBlockN
      actual_seqlen_q actual_seqlen_k m_block c regs with
  | none => exact ⟨rfl, rfl, rfl, rfl⟩
  | some st =>
    exact ⟨store_rows_above _ _ _ _ _ i hi, rfl, rfl, store_rows_above _ _ _ _ _ i hi⟩

theorem own_gmem_agree (exp2f logf : α → α) (inp inp1 : Operands κ α)
    (Is_even_N : Bool) (kBlockM kBlockN actual_seqlen_q actual_seqlen_k m_block : Int)
    (c σ : Flt α) (regs regs1 : SoftmaxState Nat κ α) (g g1 : Gmem κ α)
    (hS : ∀ q k, q < actual_seqlen_q → inp1.S q k = inp.S q k) (hV : inp1.V = inp.V)
    (hregs : ∀ mi : Nat, m_block * kBlockM + (mi : Int) < actual_seqlen_q →
      RowAgree mi regs1 regs)
    (hg : GmemAgree actual_seqlen_q g1 g) :
    GmemAgree actual_seqlen_q
      (compute_attn_1rowblock_causal_own_gmem exp2f logf inp1 Is_even_N kBlockM kBlockN
        actual_seqlen_q actual_seqlen_k m_block c σ regs1 g1)
      (compute_attn_1rowblock_causal_own_gmem exp2f logf inp Is_even_N kBlockM kBlockN
        actual_seqlen_q actual_seqlen_k m_block c σ regs g) := by
  intro i hi
  unfold compute_attn_1rowblock_causal_own_gmem compute_attn_1rowblock_causal_own_state
  cases hsteps : compute_attn_1rowblock_causal_own_steps kBlockM kBlockN
      actual_seqlen_q actual_seqlen_k m_block with
  | none => exact hg i hi
  | some steps =>
    simp only [Option.map_some']
    have key : ∀ mi : Nat, m_block * kBlockM + (mi : Int) < actual_seqlen_q →
        RowAgree mi
          (steps.foldl
            (run_step exp2f inp1 Is_even_N kBlockM kBlockN actual_seqlen_k m_block c)
            { regs1 with acc_o := fun _ _ => fin 0 })
          (steps.foldl
            (run_step exp2f inp Is_even_N kBlockM kBlockN actual_seqlen_k m_block c)
            { regs with acc_o := fun _ _ => fin 0 }) := by
      intro mi hmi
      exact foldl_run_step_rowAgree exp2f inp inp1 Is_even_N kBlockM kBlockN actual_seqlen_k
        m_block c mi (fun k => hS _ k hmi) hV steps _ _ (rowAgree_clear _ _ _ (hregs mi hmi))
    refine ⟨?_, ?_, ?_, ?_⟩
    · exact store_rows_congr _ _ _ _ _ _ _ i hi
        (fun mi _ hmi => (epilogue_rowAgree logf false _ _ σ (fin 1) mi (key mi hmi)).1)
        (hg i hi).1
    · by_cases hp : is_publisher kBlockM actual_seqlen_q m_block = true
      · simp only [hp, if_true]
        exact store_rows_congr _ _ _ _ _ _ _ i hi (fun mi _ hmi => (key mi hmi).1) (hg i hi).2.1
      · simp only [hp, if_false]
        exact (hg i hi).2.1
    · by_cases hp : is_publisher kBlockM actual_seqlen_q m_block = true
      · simp only [hp, if_true]
        exact store_rows_congr _ _ _ _ _ _ _ i hi (fun mi _ hmi => (key mi hmi).2.1)
          (hg i hi).2.2.1
      · simp only [hp, if_false]
        exact (hg i hi).2.2.1
    · intro ni
      exact congrFun (store_rows_congr _ _ _ _ _ _ _ i hi
        (fun mi _ hmi => funext fun ni =>
          (epilogue_rowAgree logf false _ _ σ (fin 1) mi (key mi hmi)).2 ni)
        (funext fun ni => (hg i hi).2.2.2 ni)) ni

theorem own_gmem_frame (exp2f logf : α → α) (inp : Operands κ α)
    (Is_even_N : Bool) (kBlockM kBlockN actual_seqlen_q actual_seqlen_k m_block : Int)
    (c σ : Flt α) (regs : SoftmaxState Nat κ α) (g : Gmem κ α) (i : Int)
    (hi : actual_seqlen_q ≤ i) :
    (compute_attn_1rowblock_causal_own_gmem exp2f logf inp Is_even_N kBlockM kBlockN
        actual_seqlen_q actual_seqlen_k m_block c σ regs g).softmax_lse i = g.softmax_lse i ∧
    (compute_attn_1rowblock_causal_own_gmem exp2f logf inp Is_even_N kBlockM kBlockN
        actual_seqlen_q actual_seqlen_k m_block c σ regs g).scores_max i = g.scores_max i ∧
    (compute_attn_1rowblock_causal_own_gmem exp2f logf inp Is_even_N kBlockM kBlockN
        actual_seqlen_q actual_seqlen_k m_block c σ regs g).scores_sum i = g.scores_sum i ∧
    (compute_attn_1rowblock_causal_own_gmem exp2f logf inp Is_even_N kBlockM kBlockN
        actual_seqlen_q actual_seqlen_k m_block c σ regs g).o i = g.o i := by
  unfold compute_attn_1rowblock_causal_own_gmem
  cases compute_attn_1rowblock_causal_own_state exp2f inp Is_even_N kBlockM kBlockN
      actual_seqlen_q actual_seqlen_k m_block c regs with
  | none => exact ⟨rfl, rfl, rfl, rfl⟩
  | some st =>
    refine ⟨store_rows_above _ _ _ _ _ i hi, ?_, ?_, store_rows_above _ _ _ _ _ i hi⟩
    · simp only
      split_ifs
      · exact store_rows_above _ _ _ _ _ i hi
      · rfl
    · simp only
      split_ifs
      · exact store_rows_above _ _ _ _ _ i hi
      · rfl

theorem merge_rowAgree (exp2f logf : α → α) (s s1 : MergeState ρ κ α) (c σ : Flt α) (mi : ρ)
    (h1 : s1.scores_max_1 mi = s.scores_max_1 mi) (h2 : s1.scores_sum_1 mi = s.scores_sum_1 mi)
    (h3 : s1.scores_max_2 mi = s.scores_max_2 mi) (h4 : s1.scores_sum_2 mi = s.scores_sum_2 mi)
    (h5 : ∀ ni, s1.acc_o_1 mi ni = s.acc_o_1 mi ni)
    (h6 : ∀ ni, s1.acc_o_2 mi ni = s.acc_o_2 mi ni) :
    merged_lse logf (softmax_merge_o exp2f s1 c) σ mi
        = merged_lse logf (softmax_merge_o exp2f s c) σ mi ∧
      ∀ ni, (softmax_merge_o exp2f s1 c).acc_o_2 mi ni = (softmax_merge_o exp2f s c).acc_o_2 mi ni := by
  simp [merged_lse, softmax_merge_o, h1, h2, h3, h4, h5, h6]

theorem load_rows_congr {β : Type} (kBlockM actual_seqlen_q m_block : Int)
    (mem mem1 : Int → β) (frag frag1 : Nat → β) (mi : Nat) (h1 : (mi : Int) < kBlockM)
    (h2 : m_block * kBlockM + (mi : Int) < actual_seqlen_q)
    (hm : mem1 (m_block * kBlockM + (mi : Int)) = mem (m_block * kBlockM + (mi : Int))) :
    load_rows kBlockM actual_seqlen_q m_block mem1 frag1 mi
      = load_rows kBlockM actual_seqlen_q m_block mem frag mi := by
  have : (mi : Int) < kBlockM ∧ (mi : Int) < actual_seqlen_q - m_block * kBlockM := by omega
  unfold load_rows
  rw [if_pos this, if_pos this, hm]

theorem merge_gmem_agree (exp2f logf : α → α) (inp inp1 : Operands κ α)
    (Is_even_N : Bool) (kBlockM kBlockN actual_seqlen_q actual_seqlen_k m_block : Int)
    (c σ : Flt α) (regs regs1 : SoftmaxState Nat κ α) (g g1 : Gmem κ α)
    (hS : ∀ q k, q < actual_seqlen_q → inp1.S q k = inp.S q k) (hV : inp1.V = inp.V)
    (hg : GmemAgree actual_seqlen_q g1 g) :
    GmemAgree actual_seqlen_q
      (compute_attn_1rowblock_causal_merge_gmem exp2f logf inp1 Is_even_N kBlockM kBlockN
        actual_seqlen_q actual_seqlen_k m_block c σ regs1 g1)
      (compute_attn_1rowblock_causal_merge_gmem exp2f logf inp Is_even_N kBlockM kBlockN
        actual_seqlen_q actual_seqlen_k m_block c σ regs g) := by
  intro i hi
  unfold compute_attn_1rowblock_causal_merge_gmem compute_attn_1rowblock_causal_merged
    compute_attn_1rowblock_causal_frag_state
  cases hsteps : compute_attn_1rowblock_causal_frag_steps kBlockM kBlockN
      actual_seqlen_q actual_seqlen_k m_block with
  | none => exact hg i hi
  | some steps =>
    simp only [Option.map_some']
    have key : ∀ mi : Nat,
        reverse_m_block kBlockM actual_seqlen_q m_block * kBlockM + (mi : Int)
          < actual_seqlen_q →
        RowAgree mi
          (steps.foldl
            (run_step exp2f inp1 Is_even_N kBlockM kBlockN actual_seqlen_k
              (reverse_m_block kBlockM actual_seqlen_q m_block) c)
            { scores_max := fun _ => fin 0, scores_sum := fun _ => fin 0,
              acc_o := fun _ _ => fin 0 })
          (steps.foldl
            (run_step exp2f inp Is_even_N kBlockM kBlockN actual_seqlen_k
              (reverse_m_block kBlockM actual_seqlen_q m_block) c)
            { scores_max := fun _ => fin 0, scores_sum := fun _ => fin 0,
              acc_o := fun _ _ => fin 0 }) := by
      intro mi hmi
      exact foldl_run_step_rowAgree exp2f inp inp1 Is_even_N kBlockM kBlockN actual_seqlen_k
        _ c mi (fun k => hS _ k hmi) hV steps _ _ ⟨rfl, rfl, fun _ => rfl⟩
    refine ⟨?_, (hg i hi).2.1, (hg i hi).2.2.1, ?_⟩
    · refine store_rows_congr _ _ _ _ _ _ _ i hi ?_ (hg i hi).1
      intro mi hm1 hmi
      refine (merge_rowAgree exp2f logf _ _ c σ mi ?_ ?_ ?_ ?_ ?_ ?_).1
      · exact (key mi hmi).1
      · exact (key mi hmi).2.1
      · exact load_rows_congr _ _ _ _ _ _ _ mi hm1 hmi (hg _ hmi).2.1
      · exact load_rows_congr _ _ _ _ _ _ _ mi hm1 hmi (hg _ hmi).2.2.1
      · exact (epilogue_rowAgree logf false _ _ σ (fin 1) mi (key mi hmi)).2
      · intro ni
        exact congrFun (load_rows_congr _ _ _ _ _ regs.acc_o regs1.acc_o mi hm1 hmi
          (funext fun ni => (hg _ hmi).2.2.2 ni)) ni
    · intro ni
      refine congrFun (store_rows_congr _ _ _ _ _ _ _ i hi ?_
        (funext fun ni => (hg i hi).2.2.2 ni)) ni
      intro mi hm1 hmi
      funext ni2
      refine (merge_rowAgree exp2f logf _ _ c σ mi ?_ ?_ ?_ ?_ ?_ ?_).2 ni2
      · exact (key mi hmi).1
      · exact (key mi hmi).2.1
      · exact load_rows_congr _ _ _ _ _ _ _ mi hm1 hmi (hg _ hmi).2.1
      · exact load_rows_congr _ _ _ _ _ _ _ mi hm1 hmi (hg _ hmi).2.2.1
      · exact (epilogue_rowAgree logf false _ _ σ (fin 1) mi (key mi hmi)).2
      · intro ni
        exact congrFun (load_rows_congr _ _ _ _ _ regs.acc_o regs1.acc_o mi hm1 hmi
          (funext fun ni => (hg _ hmi).2.2.2 ni)) ni

theorem merge_gmem_frame (exp2f logf : α → α) (inp : Operands κ α)
    (Is_even_N : Bool) (kBlockM kBlockN actual_seqlen_q actual_seqlen_k m_block : Int)
    (c σ : Flt α) (regs : SoftmaxState Nat κ α) (g : Gmem κ α) (i : Int)
    (hi : actual_seqlen_q ≤ i) :
    (compute_attn_1rowblock_causal_merge_gmem exp2f logf inp Is_even_N kBlockM kBlockN
        actual_seqlen_q actual_seqlen_k m_block c σ regs g).softmax_lse i = g.softmax_lse i ∧
    (compute_attn_1rowblock_causal_merge_gmem exp2f logf inp Is_even_N kBlockM kBlockN
        actual_seqlen_q actual_seqlen_k m_block c σ regs g).scores_max i = g.scores_max i ∧
    (compute_attn_1rowblock_causal_merge_gmem exp2f logf inp Is_even_N kBlockM kBlockN
        actual_seqlen_q actual_seqlen_k m_block c σ regs g).scores_sum i = g.scores_sum i ∧
    (compute_attn_1rowblock_causal_merge_gmem exp2f logf inp Is_even_N kBlockM kBlockN
        actual_seqlen_q actual_seqlen_k m_block c σ regs g).o i = g.o i := by
  unfold compute_attn_1rowblock_causal_merge_gmem
  cases compute_attn_1rowblock_causal_merged exp2f logf inp Is_even_N kBlockM kBlockN
      actual_seqlen_q actual_seqlen_k m_block c σ regs g with
  | none => exact ⟨rfl, rfl, rfl, rfl⟩
  | some st =>
    exact ⟨store_rows_above _ _ _ _ _ i hi, rfl, rfl, store_rows_above _ _ _ _ _ i hi⟩

/-- Claim C20: a ragged query tile.  Element `m_block * kBlockM + row` of an array is that
of the tile-local row `row`, so the rows at or past the in-bounds count
`actual_seqlen_q - m_block * kBlockM` are the elements from `actual_seqlen_q` on.  First, a
unit of `compute_attn_1rowblock`, the own pass of a unit of `compute_attn_1rowblock_causal`
and the merge pass of a helper leave every such element of `gLSE`, `gscores_max`,
`gscores_sum` and `gO` as it was.  Second, two runs that agree on the scores of the query
rows below `actual_seqlen_q`, on the value matrix, on the register contents of the
in-bounds rows of the tile and on the memory elements below `actual_seqlen_q` leave the same
values in the elements below `actual_seqlen_q`: what is held for rows out of bounds, be it
scores, registers or memory, has no influence on what is written. -/
theorem ragged_tile_rows (exp2f logf : α → α) (inp inp1 : Operands κ α)
    (Is_causal Is_even_N : Bool) (kBlockM kBlockN actual_seqlen_q actual_seqlen_k m_block : Int)
    (c σ : Flt α) (regs regs1 mregs mregs1 : SoftmaxState Nat κ α) (g g1 : Gmem κ α)
    (hS : ∀ q k, q < actual_seqlen_q → inp1.S q k = inp.S q k) (hV : inp1.V = inp.V)
    (hregs : ∀ mi : Nat, m_block * kBlockM + (mi : Int) < actual_seqlen_q →
      RowAgree mi regs1 regs)
    (hg : GmemAgree actual_seqlen_q g1 g) :
    (∀ i, actual_seqlen_q ≤ i →
      ((compute_attn_1rowblock_gmem exp2f logf inp Is_causal Is_even_N kBlockM kBlockN
          actual_seqlen_q actual_seqlen_k m_block c σ regs g).softmax_lse i = g.softmax_lse i ∧
        (compute_attn_1rowblock_gmem exp2f logf inp Is_causal Is_even_N kBlockM kBlockN
          actual_seqlen_q actual_seqlen_k m_block c σ regs g).o i = g.o i) ∧
      ((compute_attn_1rowblock_causal_own_gmem exp2f logf inp Is_even_N kBlockM kBlockN
          actual_seqlen_q actual_seqlen_k m_block c σ regs g).softmax_lse i = g.softmax_lse i ∧
        (compute_attn_1rowblock_causal_own_gmem exp2f logf inp Is_even_N kBlockM kBlockN
          actual_seqlen_q actual_seqlen_k m_block c σ regs g).scores_max i = g.scores_max i ∧
        (compute_attn_1rowblock_causal_own_gmem exp2f logf inp Is_even_N kBlockM kBlockN
          actual_seqlen_q actual_seqlen_k m_block c σ regs g).scores_sum i = g.scores_sum i ∧
        (compute_attn_1rowblock_causal_own_gmem exp2f logf inp Is_even_N kBlockM kBlockN
          actual_seqlen_q actual_seqlen_k m_block c σ regs g).o i = g.o i) ∧
      ((compute_attn_1rowblock_causal_merge_gmem exp2f logf inp Is_even_N kBlockM kBlockN
          actual_seqlen_q actual_seqlen_k m_block c σ mregs g).softmax_lse i = g.softmax_lse i ∧
        (compute_attn_1rowblock_causal_merge_gmem exp2f logf inp Is_even_N kBlockM kBlockN
          actual_seqlen_q actual_seqlen_k m_block c σ mregs g).o i = g.o i)) ∧
    GmemAgree actual_seqlen_q
      (compute_attn_1rowblock_gmem exp2f logf inp1 Is_causal Is_even_N kBlockM kBlockN
        actual_seqlen_q actual_seqlen_k m_block c σ regs1 g1)
      (compute_attn_1rowblock_gmem exp2f logf inp Is_causal Is_even_N kBlockM kBlockN
        actual_seqlen_q actual_seqlen_k m_block c σ regs g) ∧
    GmemAgree actual_seqlen_q
      (compute_attn_1rowblock_causal_own_gmem exp2f logf inp1 Is_even_N kBlockM kBlockN
        actual_seqlen_q actual_seqlen_k m_block c σ regs1 g1)
      (compute_attn_1rowblock_causal_own_gmem exp2f logf inp Is_even_N kBlockM kBlockN
        actual_seqlen_q actual_seqlen_k m_block c σ regs g) ∧
    GmemAgree actual_seqlen_q
      (compute_attn_1rowblock_causal_merge_gmem exp2f logf inp1 Is_even_N kBlockM kBlockN
        actual_seqlen_q actual_seqlen_k m_block c σ mregs1 g1)
      (compute_attn_1rowblock_causal_merge_gmem exp2f logf inp Is_even_N kBlockM kBlockN
        actual_seqlen_q actual_seqlen_k m_block c σ mregs g) := by
  refine ⟨?_, ?_, ?_, ?_⟩
  · intro i hi
    have a := plain_gmem_frame exp2f logf inp Is_causal Is_even_N kBlockM kBlockN
      actual_seqlen_q actual_seqlen_k m_block c σ regs g i hi
    have b := own_gmem_frame exp2f logf inp Is_even_N kBlockM kBlockN
      actual_seqlen_q actual_seqlen_k m_block c σ regs g i hi
    have d := merge_gmem_frame exp2f logf inp Is_even_N kBlockM kBlockN
      actual_seqlen_q actual_seqlen_k m_block c σ mregs g i hi
    exact ⟨⟨a.1, a.2.2.2⟩, b, ⟨d.1, d.2.2.2⟩⟩
  · exact plain_gmem_agree exp2f logf inp inp1 Is_causal Is_even_N kBlockM kBlockN
      actual_seqlen_q actual_seqlen_k m_block c σ regs regs1 g g1 hS hV hregs hg
  · exact own_gmem_agree exp2f logf inp inp1 Is_even_N kBlockM kBlockN
      actual_seqlen_q actual_seqlen_k m_block c σ regs regs1 g g1 hS hV hregs hg
  · exact merge_gmem_agree exp2f logf inp inp1 Is_even_N kBlockM kBlockN
      actual_seqlen_q actual_seqlen_k m_block c σ mregs mregs1 g g1 hS hV hg

theorem epilogue_lse_pinf (logf : α → α) (Is_dropout : Bool) (st : SoftmaxState ρ κ α)
    (σ rp : Flt α) (mi : ρ) (h : st.scores_sum mi = fin 0 ∨ st.scores_sum mi = nan) :
    (epilogue logf Is_dropout st σ rp).lse mi = pinf := by
  rcases h with h | h <;> simp [epilogue, h, feq]

theorem merged_lse_pinf (logf : α → α) (s : MergeState ρ κ α) (σ : Flt α) (mi : ρ)
    (h : s.scores_sum_1 mi = fin 0 ∨ s.scores_sum_1 mi = nan) :
    merged_lse logf s σ mi = pinf := by
  rcases h with h | h <;> simp [merged_lse, h, feq]

theorem store_rows_at {β : Type} (kBlockM actual_seqlen_q m_block : Int) (frag : Nat → β)
    (mem : Int → β) (row : Nat) (h1 : (row : Int) < kBlockM)
    (h2 : m_block * kBlockM + (row : Int) < actual_seqlen_q) :
    store_rows kBlockM actual_seqlen_q m_block frag mem (m_block * kBlockM + (row : Int))
      = frag row := by
  have : 0 ≤ m_block * kBlockM + (row : Int) - m_block * kBlockM
      ∧ m_block * kBlockM + (row : Int) - m_block * kBlockM < kBlockM
      ∧ m_block * kBlockM + (row : Int) - m_block * kBlockM
        < actual_seqlen_q - m_block * kBlockM := by omega
  unfold store_rows
  rw [if_pos this]
  congr 1
  omega

/-- Claim C11, amended.  For an in-bounds row of the tile whose running sum is zero or NaN
when the loops are over, the LSE element stored is plus infinity: by a unit of
`compute_attn_1rowblock`, by the own pass of `compute_attn_1rowblock_causal`, and, for the
merged sum, by the merge pass of a helper.  With `actual_seqlen_k = 0` each of the three
returns before any store and leaves bulk memory as it was: no LSE element is written. -/
theorem fully_masked_row_lse (exp2f logf : α → α) (inp : Operands κ α)
    (Is_causal Is_even_N : Bool) (kBlockM kBlockN actual_seqlen_q actual_seqlen_k m_block : Int)
    (c σ : Flt α) (regs mregs : SoftmaxState Nat κ α) (g : Gmem κ α) (row : Nat)
    (h1 : (row : Int) < kBlockM) :
    (m_block * kBlockM + (row : Int) < actual_seqlen_q →
      ∀ st, compute_attn_1rowblock_state exp2f inp Is_causal Is_even_N kBlockM kBlockN
          actual_seqlen_q actual_seqlen_k m_block c regs = some st →
        (st.scores_sum row = fin 0 ∨ st.scores_sum row = nan) →
        (compute_attn_1rowblock_gmem exp2f logf inp Is_causal Is_even_N kBlockM kBlockN
          actual_seqlen_q actual_seqlen_k m_block c σ regs g).softmax_lse
            (m_block * kBlockM + (row : Int)) = pinf) ∧
    (m_block * kBlockM + (row : Int) < actual_seqlen_q →
      ∀ st, compute_attn_1rowblock_causal_own_state exp2f inp Is_even_N kBlockM kBlockN
          actual_seqlen_q actual_seqlen_k m_block c regs = some st →
        (st.scores_sum row = fin 0 ∨ st.scores_sum row = nan) →
        (compute_attn_1rowblock_causal_own_gmem exp2f logf inp Is_even_N kBlockM kBlockN
          actual_seqlen_q actual_seqlen_k m_block c σ regs g).softmax_lse
            (m_block * kBlockM + (row : Int)) = pinf) ∧
    (reverse_m_block kBlockM actual_seqlen_q m_block * kBlockM + (row : Int)
        < actual_seqlen_q →
      ∀ s, compute_attn_1rowblock_causal_merged exp2f logf inp Is_even_N kBlockM kBlockN
          actual_seqlen_q actual_seqlen_k m_block c σ mregs g = some s →
        (s.scores_sum_1 row = fin 0 ∨ s.scores_sum_1 row = nan) →
        (compute_attn_1rowblock_causal_merge_gmem exp2f logf inp Is_even_N kBlockM kBlockN
          actual_seqlen_q actual_seqlen_k m_block c σ mregs g).softmax_lse
            (reverse_m_block kBlockM actual_seqlen_q m_block * kBlockM + (row : Int))
          = pinf) ∧
    compute_attn_1rowblock_gmem exp2f logf inp Is_causal Is_even_N kBlockM kBlockN
        actual_seqlen_q 0 m_block c σ regs g = g ∧
    compute_attn_1rowblock_causal_own_gmem exp2f logf inp Is_even_N kBlockM kBlockN
        actual_seqlen_q 0 m_block c σ regs g = g ∧
    compute_attn_1rowblock_causal_merge_gmem exp2f logf inp Is_even_N kBlockM kBlockN
        actual_seqlen_q 0 m_block c σ mregs g = g := by
  refine ⟨?_, ?_, ?_, ?_, ?_, ?_⟩
  · intro h2 st hst hdeg
    simp only [compute_attn_1rowblock_gmem, hst]
    rw [store_rows_at _ _ _ _ _ row h1 h2]
    exact epilogue_lse_pinf logf false st σ (fin 1) row hdeg
  · intro h2 st hst hdeg
    simp only [compute_attn_1rowblock_causal_own_gmem, hst]
    rw [store_rows_at _ _ _ _ _ row h1 h2]
    exact epilogue_lse_pinf logf false st σ (fin 1) row hdeg
  · intro h2 s hs hdeg
    simp only [compute_attn_1rowblock_causal_merge_gmem, hs]
    rw [store_rows_at _ _ _ _ _ row h1 h2]
    exact merged_lse_pinf logf s σ row hdeg
  · simp [compute_attn_1rowblock_gmem, compute_attn_1rowblock_state,
      compute_attn_1rowblock_steps]
  · simp [compute_attn_1rowblock_causal_own_gmem, compute_attn_1rowblock_causal_own_state,
      compute_attn_1rowblock_causal_own_steps]
  · simp [compute_attn_1rowblock_causal_merge_gmem, compute_attn_1rowblock_causal_merged,
      compute_attn_1rowblock_causal_frag_state, compute_attn_1rowblock_causal_frag_steps]

/-- Claim C11 as stated fails for `actual_seqlen_k = 0`: a unit of either kernel on a
one-row tile returns at once, and the LSE element of the row, 0 beforehand, is still 0
afterwards, not plus infinity. -/
theorem no_keys_lse_not_written :
    (compute_attn_1rowblock_gmem (fun x : ℝ => 2 ^ x) Real.log
        (Operands.mk (fun _ _ => fin 0) (fun _ (_ : Unit) => fin 0)) false false 1 1 1 0 0
        (fin 1) (fin 1) (SoftmaxState.mk (fun _ => fin 0) (fun _ => fin 0) (fun _ _ => fin 0))
        (Gmem.mk (fun _ _ => fin 0) (fun _ => fin 0) (fun _ => fin 0)
          (fun _ => fin 0))).softmax_lse 0 = fin 0 ∧
      (compute_attn_1rowblock_causal_own_gmem (fun x : ℝ => 2 ^ x) Real.log
        (Operands.mk (fun _ _ => fin 0) (fun _ (_ : Unit) => fin 0)) false 1 1 1 0 0
        (fin 1) (fin 1) (SoftmaxState.mk (fun _ => fin 0) (fun _ => fin 0) (fun _ _ => fin 0))
        (Gmem.mk (fun _ _ => fin 0) (fun _ => fin 0) (fun _ => fin 0)
          (fun _ => fin 0))).softmax_lse 0 = fin 0 := by
  constructor
  · simp [compute_attn_1rowblock_gmem, compute_attn_1rowblock_state,
      compute_attn_1rowblock_steps]
  · simp [compute_attn_1rowblock_causal_own_gmem, compute_attn_1rowblock_causal_own_state,
      compute_attn_1rowblock_causal_own_steps]

/-! ## The own pass of the wave-balanced kernel in closed form -/

theorem own_masking_loop_spec (dst : Int) (fuel : Nat) : ∀ (c : Cursor),
    dst + 1 - c.n_block ≤ fuel →
    (own_masking_loop dst fuel c).1
      = (List.range (dst + 1 - c.n_block).toNat).map fun (i : Nat) =>
          Step.mk (c.n_block + i) (c.k_tile + i)
            (if dst = 0 then c.v_tile else c.v_tile + i + 1)
            false true Mask.causal (decide (dst = 0)) := by
  induction fuel with
  | zero =>
    intro c hf
    have : (dst + 1 - c.n_block).toNat = 0 := by omega
    simp [own_masking_loop, this]
  | succ f ih =>
    intro c hf
    by_cases hle : c.n_block ≤ dst
    · have e : (dst + 1 - c.n_block).toNat = (dst + 1 - (c.n_block + 1)).toNat + 1 := by omega
      rw [e, map_range_shift]
      simp only [own_masking_loop, hle, if_true]
      rw [ih _ (by simp only; omega)]
      simp only
      congr 1
      · simp
      · apply List.map_congr_left
        intro i hi
        have hi2 : (i : Int) < dst + 1 - (c.n_block + 1) := by
          have := List.mem_range.1 hi
          omega
        have hlt : c.n_block < dst := by omega
        have e1 : c.n_block + 1 + (i : Int) = c.n_block + ((i + 1 : Nat) : Int) := by
          push_cast; ring
        have e2 : c.k_tile + 1 + (i : Int) = c.k_tile + ((i + 1 : Nat) : Int) := by
          push_cast; ring
        rw [if_pos hlt, e1, e2]
        by_cases hd : dst = 0
        · simp [hd]
        · simp only [hd, if_false]
          congr 1
          push_cast; ring
    · have : (dst + 1 - c.n_block).toNat = 0 := by omega
      simp [own_masking_loop, hle, this]

theorem own_nomask_loop_cursor (nms dst : Int) (hn : 0 < nms) (fuel : Nat) : ∀ (c : Cursor),
    0 ≤ c.n_block → c.k_tile = c.n_block →
    (c.v_tile = if c.n_block = 0 then 0 else c.n_block - 1) →
    dst - nms + 1 - c.n_block ≤ fuel →
    (own_nomask_loop nms dst fuel c).2.k_tile = max c.n_block (dst - nms + 1) ∧
      (own_nomask_loop nms dst fuel c).2.v_tile
        = if max c.n_block (dst - nms + 1) = 0 then 0 else max c.n_block (dst - nms + 1) - 1 := by
  induction fuel with
  | zero =>
    intro c h0 hk hv hf
    have e : max c.n_block (dst - nms + 1) = c.n_block := by omega
    simp only [own_nomask_loop, e]
    exact ⟨hk, hv⟩
  | succ f ih =>
    intro c h0 hk hv hf
    by_cases hle : c.n_block ≤ dst - nms
    · simp only [own_nomask_loop, hle, if_true]
      have hne : ¬ (nms = 0 ∧ c.n_block = dst) := by omega
      have := ih ⟨c.n_block + 1,
        (if !decide (nms = 0 ∧ c.n_block = dst) then c.k_tile + 1 else c.k_tile),
        (if c.n_block > 0 then c.v_tile + 1 else c.v_tile)⟩ (by simp only; omega)
        (by simp only [hne, decide_False, Bool.not_false, if_true]; omega)
        (by
          simp only
          rw [hv]
          split_ifs <;> omega)
        (by simp only; omega)
      simp only at this
      have e : max (c.n_block + 1) (dst - nms + 1) = max c.n_block (dst - nms + 1) := by omega
      rw [e] at this
      exact this
    · have e : max c.n_block (dst - nms + 1) = c.n_block := by omega
      simp only [own_nomask_loop, hle, if_false, e]
      exact ⟨hk, hv⟩

/-- The own pass of a unit that is no publisher, in closed form: the first loop runs the
tiles `0 .. nbm - r - 1`, the second loop the last `min r nbm` tiles; when the first loop
is empty and the second has more than one iteration, the V pointer is one tile ahead. -/
theorem own_steps_not_publisher (kBlockM kBlockN actual_seqlen_q actual_seqlen_k m_block : Int)
    (hM : 0 < kBlockM) (hN : 0 < kBlockN) (hm : 0 ≤ m_block)
    (hq : m_block * kBlockM < actual_seqlen_q) (hk : 0 < actual_seqlen_k)
    (hp : is_publisher kBlockM actual_seqlen_q m_block = false) :
    compute_attn_1rowblock_causal_own_steps kBlockM kBlockN actual_seqlen_q actual_seqlen_k
        m_block
      = some
        ((List.range
            (min (ceil_div actual_seqlen_k kBlockN) (ceil_div ((m_block + 1) * kBlockM) kBlockN)
              - ceil_div kBlockM kBlockN).toNat).map
            (fun (i : Nat) =>
              Step.mk i i i (decide ((i : Int) = 0)) true Mask.none (!decide ((i : Int) > 0)))
          ++ (List.range
              (min (ceil_div kBlockM kBlockN)
                (min (ceil_div actual_seqlen_k kBlockN)
                  (ceil_div ((m_block + 1) * kBlockM) kBlockN))).toNat).map
            (fun (i : Nat) =>
              Step.mk
                (max 0 (min (ceil_div actual_seqlen_k kBlockN)
                    (ceil_div ((m_block + 1) * kBlockM) kBlockN) - ceil_div kBlockM kBlockN) + i)
                (max 0 (min (ceil_div actual_seqlen_k kBlockN)
                    (ceil_div ((m_block + 1) * kBlockM) kBlockN) - ceil_div kBlockM kBlockN) + i)
                (if min (ceil_div actual_seqlen_k kBlockN)
                      (ceil_div ((m_block + 1) * kBlockM) kBlockN) ≤ ceil_div kBlockM kBlockN ∧
                    1 < min (ceil_div actual_seqlen_k kBlockN)
                      (ceil_div ((m_block + 1) * kBlockM) kBlockN)
                  then (i : Int) + 1
                  else max 0 (min (ceil_div actual_seqlen_k kBlockN)
                    (ceil_div ((m_block + 1) * kBlockM) kBlockN) - ceil_div kBlockM kBlockN) + i)
                false true Mask.causal
                (decide (min (ceil_div actual_seqlen_k kBlockN)
                  (ceil_div ((m_block + 1) * kBlockM) kBlockN) = 1)))) := by
  have hr := ceil_div_pos kBlockM kBlockN hM hN
  have h1 := ceil_div_pos actual_seqlen_k kBlockN hk hN
  have h2 := ceil_div_pos ((m_block + 1) * kBlockM) kBlockN (mul_pos (by omega) hM) hN
  have hne : ¬ (m_block * kBlockM ≥ actual_seqlen_q ∨ actual_seqlen_k = 0) := by omega
  simp only [compute_attn_1rowblock_causal_own_steps, hne, hp, if_false, Bool.false_eq_true]
  generalize ceil_div kBlockM kBlockN = r at hr ⊢
  have hn : 0 < min (ceil_div actual_seqlen_k kBlockN)
    (ceil_div ((m_block + 1) * kBlockM) kBlockN) := lt_min h1 h2
  generalize min (ceil_div actual_seqlen_k kBlockN)
    (ceil_div ((m_block + 1) * kBlockM) kBlockN) = nbm at hn ⊢
  have s1 := own_nomask_loop_steps r (nbm - 1) (nbm - 1 - r + 1).toNat ⟨0, 0, 0⟩ (le_refl _)
    (by intro _; simp) (by simp only; omega)
  have s2 := own_nomask_loop_n_block r (nbm - 1) (nbm - 1 - r + 1).toNat ⟨0, 0, 0⟩
    (by simp only; omega)
  obtain ⟨s3, s4⟩ := own_nomask_loop_cursor r (nbm - 1) hr (nbm - 1 - r + 1).toNat ⟨0, 0, 0⟩
    (le_refl _) rfl (by simp) (by simp only; omega)
  simp only at s1 s2 s3 s4
  have e0 : nbm - 1 - r + 1 = nbm - r := by ring
  rw [e0] at s1 s2 s3 s4
  have s5 := own_masking_loop_spec (nbm - 1)
    (nbm - 1 + 1 - (own_nomask_loop r (nbm - 1) (nbm - r).toNat ⟨0, 0, 0⟩).2.n_block).toNat
    (own_nomask_loop r (nbm - 1) (nbm - r).toNat ⟨0, 0, 0⟩).2 (by omega)
  rw [e0, s1, s5, s2, s3, s4]
  have e1 : (nbm - 1 + 1 - max 0 (nbm - r)).toNat = (min r nbm).toNat := by omega
  rw [e1]
  congr 2
  · have e2 : nbm - r - 0 = nbm - r := by ring
    rw [e2]
    apply List.map_congr_left
    intro i _
    simp
  · apply List.map_congr_left
    intro i hi
    have hi2 := List.mem_range.1 hi
    congr 1
    · by_cases hc : nbm ≤ r ∧ 1 < nbm
      · have e3 : max 0 (nbm - r) = 0 := by omega
        have e4 : ¬ (nbm - 1 = 0) := by omega
        simp only [hc, e3, e4, if_true, if_false, and_self]
        ring
      · simp only [hc, if_false]
        by_cases hd : nbm - 1 = 0
        · have e3 : max 0 (nbm - r) = 0 := by omega
          have e5 : i = 0 := by omega
          simp [hd, e3, e5]
        · have e3 : ¬ (max 0 (nbm - r) = 0) := by omega
          simp only [hd, e3, if_false]
          ring
    · have : (nbm - 1 = 0) ↔ (nbm = 1) := by omega
      simp only [this]

/-! ## The loops of compute_attn_1rowblock for every fuel -/

theorem map_range_add {β : Type} (f : Nat → β) (a b : Nat) :
    (List.range a).map f ++ (List.range b).map (fun i => f (a + i))
      = (List.range (a + b)).map f := by
  rw [List.range_add, List.map_append, List.map_map]
  rfl

/-- The two loops of `compute_attn_1rowblock` under `Is_causal`, for every fuel that covers
the loop bounds. -/
theorem plain_loops_causal (Is_even_N : Bool) (r nbm : Int) (hr : 0 < r) (hn : 0 < nbm)
    (f1 f2 : Nat) (h1 : r ≤ f1) (h2 : nbm - r ≤ f2) :
    (masking_loop true Is_even_N r f1 0 ⟨nbm - 1, nbm - 1, nbm - 1⟩).1
        ++ (nomask_loop f2 (masking_loop true Is_even_N r f1 0 ⟨nbm - 1, nbm - 1, nbm - 1⟩).2).1
      = (List.range (min r nbm).toNat).map
          (fun (i : Nat) =>
            Step.mk (nbm - 1 - i) (nbm - 1 - i) (nbm - 1 - i)
              (decide ((i : Int) = 0)) true Mask.causal (!decide ((i : Int) > 0)))
        ++ (List.range (nbm - r).toNat).map
          (fun (i : Nat) =>
            Step.mk (nbm - 1 - r - i) (nbm - 1 - r - i) (nbm - 1 - r - i)
              false false Mask.none false) := by
  rw [masking_loop_eq_frag, nomask_loop_eq_frag]
  obtain ⟨s1, s2, s3⟩ := frag_masking_loop_spec r 0 f1 0 ⟨nbm - 1, nbm - 1, nbm - 1⟩
    (le_refl _) (by intro _; simp only; omega) (by intro _; rfl) (by simp) (by omega)
    (Or.inr hr)
  simp only at s1 s2
  have e1 : min (r - 0) (nbm - 1 - 0 + 1) = min r nbm := by
    congr 1 <;> ring
  rw [e1] at s1 s2
  have s4 := frag_nomask_loop_spec 0 f2
    (frag_masking_loop r 0 f1 0 ⟨nbm - 1, nbm - 1, nbm - 1⟩).2 s3 (by omega)
  rw [s1, s4, s2]
  congr 1
  · apply List.map_congr_left
    intro i _
    simp
  · by_cases hc : r ≤ nbm
    · have e2 : ((min r nbm).toNat : Int) = r := by omega
      rw [e2]
      have e3 : nbm - 1 - r + 1 - 0 = nbm - r := by ring
      rw [e3]
    · have e2 : (nbm - 1 - ((min r nbm).toNat : Int) + 1 - 0).toNat = 0 := by omega
      have e3 : (nbm - r).toNat = 0 := by omega
      rw [e2, e3]
      rfl

theorem masking_loop_noncausal (Is_even_N : Bool) (f1 : Nat) (h1 : 1 ≤ f1) (c : Cursor) :
    masking_loop false Is_even_N 1 f1 0 c
      = ([Step.mk c.n_block c.k_tile c.v_tile true false
            (if !Is_even_N then Mask.seqlen else Mask.none) true],
          ⟨c.n_block - 1, if c.n_block > 0 then c.k_tile - 1 else c.k_tile, c.v_tile⟩) := by
  obtain ⟨f, rfl⟩ : ∃ f, f1 = f + 1 := ⟨f1 - 1, by omega⟩
  cases f with
  | zero => simp [masking_loop]
  | succ f => simp [masking_loop]

/-- The two loops of `compute_attn_1rowblock` without `Is_causal`, for every fuel that
covers the loop bounds. -/
theorem plain_loops_noncausal (Is_even_N : Bool) (nbm : Int) (hn : 0 < nbm)
    (f1 f2 : Nat) (h1 : 1 ≤ f1) (h2 : nbm - 1 ≤ f2) :
    (masking_loop false Is_even_N 1 f1 0 ⟨nbm - 1, nbm - 1, nbm - 1⟩).1
        ++ (nomask_loop f2 (masking_loop false Is_even_N 1 f1 0 ⟨nbm - 1, nbm - 1, nbm - 1⟩).2).1
      = (List.range (min 1 nbm).toNat).map
          (fun (i : Nat) =>
            Step.mk (nbm - 1 - i) (nbm - 1 - i) (nbm - 1 - i)
              (decide ((i : Int) = 0)) false (if !Is_even_N then Mask.seqlen else Mask.none)
              (!decide ((i : Int) > 0)))
        ++ (List.range (nbm - 1).toNat).map
          (fun (i : Nat) =>
            Step.mk (nbm - 1 - 1 - i) (nbm - 1 - 1 - i) (nbm - 1 - 1 - i)
              false false Mask.none false) := by
  rw [masking_loop_noncausal _ _ h1, nomask_loop_eq_frag]
  simp only
  rw [frag_nomask_loop_spec 0 f2 _ (by
    intro h
    simp only at h ⊢
    have : nbm - 1 > 0 := by omega
    rw [if_pos this]
    omega) (by simp only; omega)]
  have e : (min 1 nbm).toNat = 1 := by omega
  rw [e]
  rw [show List.range 1 = [0] from rfl]
  simp only [List.map_cons, List.map_nil, List.singleton_append]
  congr 1
  · simp
  · have e3 : nbm - 1 - 1 + 1 - 0 = nbm - 1 := by ring
    rw [e3]

/-- A descending run of masked iterations followed by unmasked ones, seen through a
projection that does not tell the two kinds apart. -/
theorem desc_steps_proj {β : Type} (p : Step → β) (g : Nat → β) (ci : Bool) (mk : Mask)
    (r nbm : Int) (hr : 0 < r) (hn : 0 < nbm)
    (hA : ∀ i : Nat, p (Step.mk (nbm - 1 - i) (nbm - 1 - i) (nbm - 1 - i)
      (decide ((i : Int) = 0)) ci mk (!decide ((i : Int) > 0))) = g i)
    (hB : ∀ i : Nat, p (Step.mk (nbm - 1 - r - i) (nbm - 1 - r - i) (nbm - 1 - r - i)
      false false Mask.none false) = g (r.toNat + i)) :
    ((List.range (min r nbm).toNat).map
          (fun (i : Nat) =>
            Step.mk (nbm - 1 - i) (nbm - 1 - i) (nbm - 1 - i)
              (decide ((i : Int) = 0)) ci mk (!decide ((i : Int) > 0)))
        ++ (List.range (nbm - r).toNat).map
          (fun (i : Nat) =>
            Step.mk (nbm - 1 - r - i) (nbm - 1 - r - i) (nbm - 1 - r - i)
              false false Mask.none false)).map p
      = (List.range nbm.toNat).map g := by
  rw [List.map_append, List.map_map, List.map_map]
  have e : nbm.toNat = (min r nbm).toNat + (nbm - r).toNat := by omega
  rw [e, ← map_range_add]
  congr 1
  · apply List.map_congr_left
    intro i _
    exact hA i
  · apply List.map_congr_left
    intro i hi
    have hi2 := List.mem_range.1 hi
    have e2 : (min r nbm).toNat = r.toNat := by omega
    rw [e2]
    exact hB i

theorem steps_eq_loops (Is_causal Is_even_N : Bool)
    (kBlockM kBlockN actual_seqlen_q actual_seqlen_k m_block : Int)
    (hq : m_block * kBlockM < actual_seqlen_q) (hk : 0 < actual_seqlen_k) :
    compute_attn_1rowblock_steps Is_causal Is_even_N kBlockM kBlockN actual_seqlen_q
        actual_seqlen_k m_block
      = some
        ((masking_loop Is_causal Is_even_N (n_masking_steps Is_causal kBlockM kBlockN)
            (n_masking_steps Is_causal kBlockM kBlockN).toNat 0
            ⟨n_block_max Is_causal kBlockM kBlockN actual_seqlen_k m_block - 1,
              n_block_max Is_causal kBlockM kBlockN actual_seqlen_k m_block - 1,
              n_block_max Is_causal kBlockM kBlockN actual_seqlen_k m_block - 1⟩).1
          ++ (nomask_loop
            ((masking_loop Is_causal Is_even_N (n_masking_steps Is_causal kBlockM kBlockN)
              (n_masking_steps Is_causal kBlockM kBlockN).toNat 0
              ⟨n_block_max Is_causal kBlockM kBlockN actual_seqlen_k m_block - 1,
                n_block_max Is_causal kBlockM kBlockN actual_seqlen_k m_block - 1,
                n_block_max Is_causal kBlockM kBlockN actual_seqlen_k m_block - 1⟩).2.n_block
              + 1).toNat
            (masking_loop Is_causal Is_even_N (n_masking_steps Is_causal kBlockM kBlockN)
              (n_masking_steps Is_causal kBlockM kBlockN).toNat 0
              ⟨n_block_max Is_causal kBlockM kBlockN actual_seqlen_k m_block - 1,
                n_block_max Is_causal kBlockM kBlockN actual_seqlen_k m_block - 1,
                n_block_max Is_causal kBlockM kBlockN actual_seqlen_k m_block - 1⟩).2).1) := by
  have hne : ¬ (m_block * kBlockM ≥ actual_seqlen_q ∨ actual_seqlen_k = 0) := by omega
  simp only [compute_attn_1rowblock_steps, hne, if_false, n_block_max, n_masking_steps]

theorem masking_loop_n_block (Is_causal Is_even_N : Bool) (r nbm : Int) (hr : 0 < r)
    (hn : 0 < nbm) (hc : Is_causal = false → r = 1) (f1 : Nat) (h1 : r ≤ f1) :
    (masking_loop Is_causal Is_even_N r f1 0 ⟨nbm - 1, nbm - 1, nbm - 1⟩).2.n_block + 1
      = nbm - min r nbm := by
  cases Is_causal with
  | true =>
    rw [masking_loop_eq_frag]
    obtain ⟨_, s2, _⟩ := frag_masking_loop_spec r 0 f1 0 ⟨nbm - 1, nbm - 1, nbm - 1⟩
      (le_refl _) (by intro _; simp only; omega) (by intro _; rfl) (by simp) (by omega)
      (Or.inr hr)
    rw [s2]
    simp only
    omega
  | false =>
    have := hc rfl
    subst this
    rw [masking_loop_noncausal _ _ (by omega)]
    simp only
    omega

theorem plain_loops_closed (Is_causal Is_even_N : Bool) (r nbm : Int) (hr : 0 < r)
    (hn : 0 < nbm) (hc : Is_causal = false → r = 1) (f1 f2 : Nat) (h1 : r ≤ f1)
    (h2 : nbm - r ≤ f2) :
    (masking_loop Is_causal Is_even_N r f1 0 ⟨nbm - 1, nbm - 1, nbm - 1⟩).1
        ++ (nomask_loop f2
          (masking_loop Is_causal Is_even_N r f1 0 ⟨nbm - 1, nbm - 1, nbm - 1⟩).2).1
      = (List.range (min r nbm).toNat).map
          (fun (i : Nat) =>
            Step.mk (nbm - 1 - i) (nbm - 1 - i) (nbm - 1 - i)
              (decide ((i : Int) = 0)) Is_causal
              (if !Is_causal then (if !Is_even_N then Mask.seqlen else Mask.none)
                else Mask.causal)
              (!decide ((i : Int) > 0)))
        ++ (List.range (nbm - r).toNat).map
          (fun (i : Nat) =>
            Step.mk (nbm - 1 - r - i) (nbm - 1 - r - i) (nbm - 1 - r - i)
              false false Mask.none false) := by
  cases Is_causal with
  | true => exact plain_loops_causal Is_even_N r nbm hr hn f1 f2 h1 h2
  | false =>
    have := hc rfl
    subst this
    exact plain_loops_noncausal Is_even_N nbm hn f1 f2 (by omega) h2

theorem n_block_max_pos (Is_causal : Bool) (kBlockM kBlockN actual_seqlen_k m_block : Int)
    (hM : 0 < kBlockM) (hN : 0 < kBlockN) (hm : 0 ≤ m_block) (hk : 0 < actual_seqlen_k) :
    0 < n_block_max Is_causal kBlockM kBlockN actual_seqlen_k m_block := by
  have h1 := ceil_div_pos actual_seqlen_k kBlockN hk hN
  have h2 := ceil_div_pos ((m_block + 1) * kBlockM) kBlockN (mul_pos (by omega) hM) hN
  unfold n_block_max
  cases Is_causal with
  | true => exact lt_min h1 h2
  | false => exact h1

theorem n_masking_steps_pos (Is_causal : Bool) (kBlockM kBlockN : Int)
    (hM : 0 < kBlockM) (hN : 0 < kBlockN) : 0 < n_masking_steps Is_causal kBlockM kBlockN := by
  unfold n_masking_steps
  cases Is_causal with
  | true => exact ceil_div_pos kBlockM kBlockN hM hN
  | false => exact Int.one_pos

/-- Claim C22: the key-tile iteration of `compute_attn_1rowblock`.  For positive tile sizes,
`m_block ≥ 0` and a unit that does not return early, with `n_block_max` the number of key
tiles (capped by `ceil((m_block + 1) * kBlockM / kBlockN)` under `Is_causal`):
`n_block_max` is positive; the masking loop followed by the non-masking loop runs exactly
`n_block_max` iterations, the `i`-th on tile `n_block_max - 1 - i`, so the tiles
`n_block_max - 1, ..., 0` in that order, each once, with the K tile and the V tile of the
iteration both that tile; the first-block transition is taken in iteration 0 and in no
other; and the loops end on their own conditions: run with any larger iteration bounds
they yield the same list. -/
theorem plain_kernel_tile_order (Is_causal Is_even_N : Bool)
    (kBlockM kBlockN actual_seqlen_q actual_seqlen_k m_block : Int)
    (hM : 0 < kBlockM) (hN : 0 < kBlockN) (hm : 0 ≤ m_block)
    (hq : m_block * kBlockM < actual_seqlen_q) (hk : 0 < actual_seqlen_k) :
    0 < n_block_max Is_causal kBlockM kBlockN actual_seqlen_k m_block ∧
    ∃ steps : List Step,
      compute_attn_1rowblock_steps Is_causal Is_even_N kBlockM kBlockN actual_seqlen_q
        actual_seqlen_k m_block = some steps ∧
      steps.map (fun s => (s.n_block, s.k_tile, s.v_tile, s.Is_first))
        = (List.range (n_block_max Is_causal kBlockM kBlockN actual_seqlen_k m_block).toNat).map
          (fun (i : Nat) =>
            (n_block_max Is_causal kBlockM kBlockN actual_seqlen_k m_block - 1 - (i : Int),
              n_block_max Is_causal kBlockM kBlockN actual_seqlen_k m_block - 1 - (i : Int),
              n_block_max Is_causal kBlockM kBlockN actual_seqlen_k m_block - 1 - (i : Int),
              decide (i = 0))) ∧
      ∀ f1 f2 : Nat, (n_masking_steps Is_causal kBlockM kBlockN).toNat ≤ f1 →
        (n_block_max Is_causal kBlockM kBlockN actual_seqlen_k m_block
          - n_masking_steps Is_causal kBlockM kBlockN).toNat ≤ f2 →
        (masking_loop Is_causal Is_even_N (n_masking_steps Is_causal kBlockM kBlockN) f1 0
            ⟨n_block_max Is_causal kBlockM kBlockN actual_seqlen_k m_block - 1,
              n_block_max Is_causal kBlockM kBlockN actual_seqlen_k m_block - 1,
              n_block_max Is_causal kBlockM kBlockN actual_seqlen_k m_block - 1⟩).1
          ++ (nomask_loop f2
            (masking_loop Is_causal Is_even_N (n_masking_steps Is_causal kBlockM kBlockN) f1 0
              ⟨n_block_max Is_causal kBlockM kBlockN actual_seqlen_k m_block - 1,
                n_block_max Is_causal kBlockM kBlockN actual_seqlen_k m_block - 1,
                n_block_max Is_causal kBlockM kBlockN actual_seqlen_k m_block - 1⟩).2).1
          = steps := by
  have hn := n_block_max_pos Is_causal kBlockM kBlockN actual_seqlen_k m_block hM hN hm hk
  have hr := n_masking_steps_pos Is_causal kBlockM kBlockN hM hN
  have hc : Is_causal = false → n_masking_steps Is_causal kBlockM kBlockN = 1 := by
    intro h; simp [n_masking_steps, h]
  have hsteps := steps_eq_loops Is_causal Is_even_N kBlockM kBlockN actual_seqlen_q
    actual_seqlen_k m_block hq hk
  have e := masking_loop_n_block Is_causal Is_even_N _ _ hr hn hc
    (n_masking_steps Is_causal kBlockM kBlockN).toNat (by omega)
  rw [plain_loops_closed Is_causal Is_even_N _ _ hr hn hc _ _ (by omega) (by omega)] at hsteps
  refine ⟨hn, _, hsteps, ?_, ?_⟩
  · generalize n_block_max Is_causal kBlockM kBlockN actual_seqlen_k m_block = nbm at hn ⊢
    generalize n_masking_steps Is_causal kBlockM kBlockN = r at hr hc ⊢
    apply desc_steps_proj _ _ _ _ r nbm hr hn
    · intro i
      simp
    · intro i
      have : ¬ (r.toNat + i = 0) := by omega
      simp only [this, decide_False]
      have e1 : nbm - 1 - r - (i : Int) = nbm - 1 - ((r.toNat + i : Nat) : Int) := by
        push_cast
        omega
      rw [e1]
  · intro f1 f2 h1 h2
    generalize n_block_max Is_causal kBlockM kBlockN actual_seqlen_k m_block = nbm at hn h2 ⊢
    generalize n_masking_steps Is_causal kBlockM kBlockN = r at hr hc h1 h2 ⊢
    exact plain_loops_closed Is_causal Is_even_N r nbm hr hn hc f1 f2 (by omega) (by omega)

/-! ## The own pass on query tile 0 -/

theorem first_tile_not_publisher (kBlockM actual_seqlen_q : Int) (hM : 0 < kBlockM)
    (hq : 0 < actual_seqlen_q) : is_publisher kBlockM actual_seqlen_q 0 = false := by
  have hT : 0 ≤ total_tiles kBlockM actual_seqlen_q :=
    Int.ediv_nonneg (by omega) (le_of_lt hM)
  simp only [is_publisher, decide_eq_false_iff_not]
  generalize total_tiles kBlockM actual_seqlen_q = T at hT ⊢
  omega

/-- The own pass of the unit of query tile 0: the first loop is empty, every iteration
belongs to the second loop. -/
theorem own_steps_first_tile (kBlockM kBlockN actual_seqlen_q actual_seqlen_k : Int)
    (hM : 0 < kBlockM) (hN : 0 < kBlockN) (hq : 0 < actual_seqlen_q)
    (hk : 0 < actual_seqlen_k) :
    compute_attn_1rowblock_causal_own_steps kBlockM kBlockN actual_seqlen_q actual_seqlen_k 0
      = some ((List.range (n_block_max true kBlockM kBlockN actual_seqlen_k 0).toNat).map
          (fun (i : Nat) =>
            Step.mk i i
              (if 1 < n_block_max true kBlockM kBlockN actual_seqlen_k 0 then (i : Int) + 1
                else i)
              false true Mask.causal
              (decide (n_block_max true kBlockM kBlockN actual_seqlen_k 0 = 1)))) := by
  rw [own_steps_not_publisher kBlockM kBlockN actual_seqlen_q actual_seqlen_k 0 hM hN
    (le_refl _) (by omega) hk (first_tile_not_publisher kBlockM actual_seqlen_q hM hq)]
  have e : n_block_max true kBlockM kBlockN actual_seqlen_k 0
      = min (ceil_div actual_seqlen_k kBlockN) (ceil_div ((0 + 1) * kBlockM) kBlockN) := by
    simp [n_block_max]
  rw [e]
  have e1 : (0 + 1) * kBlockM = kBlockM := by ring
  rw [e1]
  generalize ceil_div actual_seqlen_k kBlockN = a
  generalize ceil_div kBlockM kBlockN = r
  have e2 : (min a r - r).toNat = 0 := by omega
  have e3 : min r (min a r) = min a r := by omega
  have e4 : max 0 (min a r - r) = 0 := by omega
  have e5 : min a r ≤ r := by omega
  rw [e2, e3, e4]
  simp only [List.range_zero, List.map_nil, List.nil_append, zero_add, e5, true_and]

theorem row_first_tile_square :
    apply_mask_causal
        (acc_s (Operands.mk (fun _ _ => (fin 0 : Flt ℝ)) (fun _ (_ : Unit) => fin 1)) 64 64 0 0)
        (0 * 64) 64 (0 * 64) 0
      = fin 0 :: List.replicate 63 ninf := by
  rw [masked_row]
  rfl

theorem own_step_square (st : SoftmaxState Nat Unit ℝ) (h : ℝ) (h1 : st.scores_max 0 = fin 0)
    (h2 : st.scores_sum 0 = fin h) :
    (run_step (fun x : ℝ => 2 ^ x)
        (Operands.mk (fun _ _ => (fin 0 : Flt ℝ)) (fun _ (_ : Unit) => fin 1)) true 64 64 64 0
        (fin 1) st
        { n_block := 0, k_tile := 0, v_tile := 0, Is_first := false, Check_inf := true,
          mask := Mask.causal, v_checked := true }).scores_max 0 = fin 0 ∧
      (run_step (fun x : ℝ => 2 ^ x)
        (Operands.mk (fun _ _ => (fin 0 : Flt ℝ)) (fun _ (_ : Unit) => fin 1)) true 64 64 64 0
        (fin 1) st
        { n_block := 0, k_tile := 0, v_tile := 0, Is_first := false, Check_inf := true,
          mask := Mask.causal, v_checked := true }).scores_sum 0 = fin (h + 1) := by
  have hmax : (fin 0 :: List.replicate 63 (ninf : Flt ℝ)).foldl fmax (fin 0) = fin 0 := by
    rw [List.foldl_cons, fmax_fin_fin, foldl_fmax_replicate_ninf _ (by simp)]
    simp
  rw [run_step_causal]
  obtain ⟨e1, e2, _⟩ := attn_tile_subsequent_row (fun x : ℝ => 2 ^ x) true (fin 1) st _
    (load_v (Operands.mk (fun _ _ => (fin 0 : Flt ℝ)) (fun _ (_ : Unit) => fin 1)) true 64 64
      { n_block := 0, k_tile := 0, v_tile := 0, Is_first := false, Check_inf := true,
        mask := Mask.causal, v_checked := true }) 0 _ row_first_tile_square
  rw [e1, e2, h1, h2, hmax]
  refine ⟨rfl, ?_⟩
  simp [scores_scale, feq, ninf_sub_fin, fin_one_mul_ninf, Flt.exp2, Flt.sum, sum_replicate_zero]

theorem plain_step_square (st : SoftmaxState Nat Unit ℝ) :
    (run_step (fun x : ℝ => 2 ^ x)
        (Operands.mk (fun _ _ => (fin 0 : Flt ℝ)) (fun _ (_ : Unit) => fin 1)) true 64 64 64 0
        (fin 1) st
        { n_block := 0, k_tile := 0, v_tile := 0, Is_first := true, Check_inf := true,
          mask := Mask.causal, v_checked := true }).scores_max 0 = fin 0 ∧
      (run_step (fun x : ℝ => 2 ^ x)
        (Operands.mk (fun _ _ => (fin 0 : Flt ℝ)) (fun _ (_ : Unit) => fin 1)) true 64 64 64 0
        (fin 1) st
        { n_block := 0, k_tile := 0, v_tile := 0, Is_first := true, Check_inf := true,
          mask := Mask.causal, v_checked := true }).scores_sum 0 = fin 1 := by
  have hmax : (fin 0 :: List.replicate 63 (ninf : Flt ℝ)).foldl fmax ninf = fin 0 := by
    rw [List.foldl_cons, fmax_ninf_fin, foldl_fmax_replicate_ninf _ (by simp)]
  rw [run_step_causal]
  obtain ⟨e1, e2, _⟩ := attn_tile_first_row (fun x : ℝ => 2 ^ x) true (fin 1) st _
    (load_v (Operands.mk (fun _ _ => (fin 0 : Flt ℝ)) (fun _ (_ : Unit) => fin 1)) true 64 64
      { n_block := 0, k_tile := 0, v_tile := 0, Is_first := true, Check_inf := true,
        mask := Mask.causal, v_checked := true }) 0 _ row_first_tile_square
  rw [e1, e2, hmax]
  refine ⟨rfl, ?_⟩
  simp [feq, ninf_sub_fin, fin_one_mul_ninf, Flt.exp2, Flt.sum, sum_replicate_zero]

/-- Claim C23 fails on the code.  In the own pass of `compute_attn_1rowblock_causal` the
unit of query tile 0 never takes the first-block transition, whatever the tile shape and
the sequence lengths: its first loop, the only place where `softmax_rescale_o` is called
with `Is_first = true`, is empty, and every iteration of its second loop calls
`softmax_rescale_o<false, true>`.  With tile shape 64 x 64 and
`actual_seqlen_q = actual_seqlen_k = 64` the pass is the single iteration on key tile 0;
with all scores 0 and `scores_max = 0`, `scores_sum = h` in the uninitialised fragments,
query row 0 ends with `scores_sum = h + 1`, where `compute_attn_1rowblock` with
`Is_causal` ends with 1 for every content of the fragments. -/
theorem own_pass_first_tile_no_first_block :
    (∀ kBlockM kBlockN actual_seqlen_q actual_seqlen_k : Int,
      0 < kBlockM → 0 < kBlockN → 0 < actual_seqlen_q → 0 < actual_seqlen_k →
      ∃ steps : List Step,
        compute_attn_1rowblock_causal_own_steps kBlockM kBlockN actual_seqlen_q
          actual_seqlen_k 0 = some steps ∧
        steps ≠ [] ∧ ∀ s ∈ steps, s.Is_first = false) ∧
    compute_attn_1rowblock_causal_own_steps 64 64 64 64 0
      = some [Step.mk 0 0 0 false true Mask.causal true] ∧
    compute_attn_1rowblock_steps true true 64 64 64 64 0
      = some [Step.mk 0 0 0 true true Mask.causal true] ∧
    (∀ h : ℝ,
      (compute_attn_1rowblock_causal_own_state (fun x : ℝ => 2 ^ x)
          (Operands.mk (fun _ _ => (fin 0 : Flt ℝ)) (fun _ (_ : Unit) => fin 1)) true
          64 64 64 64 0 (fin 1)
          (SoftmaxState.mk (fun _ => fin 0) (fun _ => fin h) (fun _ _ => nan))).map
        (fun st => (st.scores_max 0, st.scores_sum 0)) = some (fin 0, fin (h + 1))) ∧
    (∀ regs : SoftmaxState Nat Unit ℝ,
      (compute_attn_1rowblock_state (fun x : ℝ => 2 ^ x)
          (Operands.mk (fun _ _ => (fin 0 : Flt ℝ)) (fun _ (_ : Unit) => fin 1)) true true
          64 64 64 64 0 (fin 1) regs).map
        (fun st => (st.scores_max 0, st.scores_sum 0)) = some (fin 0, fin 1)) := by
  have hown : compute_attn_1rowblock_causal_own_steps 64 64 64 64 0
      = some [Step.mk 0 0 0 false true Mask.causal true] := by decide
  have hplain : compute_attn_1rowblock_steps true true 64 64 64 64 0
      = some [Step.mk 0 0 0 true true Mask.causal true] := by decide
  refine ⟨?_, hown, hplain, ?_, ?_⟩
  · intro M N sq sk hM hN hq hk
    have hn := lt_min (ceil_div_pos sk N hk hN)
      (ceil_div_pos ((0 + 1) * M) N (mul_pos (by omega) hM) hN)
    have e : n_block_max true M N sk 0
        = min (ceil_div sk N) (ceil_div ((0 + 1) * M) N) := by
      simp [n_block_max]
    refine ⟨_, own_steps_first_tile M N sq sk hM hN hq hk, ?_, ?_⟩
    · rw [e]
      intro hnil
      have hl := congrArg List.length hnil
      simp only [List.length_map, List.length_range, List.length_nil] at hl
      omega
    · intro s hs
      obtain ⟨i, _, rfl⟩ := List.mem_map.1 hs
      rfl
  · intro h
    rw [compute_attn_1rowblock_causal_own_state, hown]
    simp only [Option.map_some', List.foldl_cons, List.foldl_nil]
    obtain ⟨a1, a2⟩ := own_step_square
      { (SoftmaxState.mk (fun _ => fin 0) (fun _ => fin h) (fun _ _ => nan) :
        SoftmaxState Nat Unit ℝ) with acc_o := fun _ _ => fin 0 } h rfl rfl
    rw [a1, a2]
  · intro regs
    rw [compute_attn_1rowblock_state, hplain]
    simp only [Option.map_some', List.foldl_cons, List.foldl_nil]
    obtain ⟨a1, a2⟩ := plain_step_square { regs with acc_o := fun _ _ => fin 0 }
    rw [a1, a2]

/-! ## Value tiles of the own pass -/

/-- Claim C24 fails on the code.  In the own pass of `compute_attn_1rowblock_causal` only
key tile 0 is loaded by the bounds-checked copy.  For a unit that is no publisher and
whose query tile reaches the last key tile, with more than one key tile, the last key
tile `ceil(actual_seqlen_k / kBlockN) - 1` is run with a V tile brought by the unchecked
copy `flash::copy<true, Is_even_K>`, also when the tile extends past `actual_seqlen_k`.
Tile shape 64 x 64, `actual_seqlen_q = actual_seqlen_k = 100`, `m_block = 1`: the pass
runs tile 0 (checked) and then tile 1, rows 64 .. 127, unchecked, so row 36 of `sV` is row
100 of the value matrix, which lies past the keys; `compute_attn_1rowblock` with
`Is_causal` loads tile 1 first, bounds-checked, and has zeros in that row. -/
theorem own_pass_ragged_tile_unchecked :
    (∀ kBlockM kBlockN actual_seqlen_q actual_seqlen_k m_block : Int,
      0 < kBlockM → 0 < kBlockN → 0 ≤ m_block → m_block * kBlockM < actual_seqlen_q →
      0 < actual_seqlen_k → is_publisher kBlockM actual_seqlen_q m_block = false →
      ceil_div actual_seqlen_k kBlockN ≤ ceil_div ((m_block + 1) * kBlockM) kBlockN →
      1 < ceil_div actual_seqlen_k kBlockN →
      actual_seqlen_k < ceil_div actual_seqlen_k kBlockN * kBlockN →
      ∃ steps : List Step,
        compute_attn_1rowblock_causal_own_steps kBlockM kBlockN actual_seqlen_q
          actual_seqlen_k m_block = some steps ∧
        ∃ s ∈ steps, s.n_block = ceil_div actual_seqlen_k kBlockN - 1 ∧
          (s.n_block + 1) * kBlockN > actual_seqlen_k ∧ s.n_block ≤ s.v_tile ∧
          s.v_checked = false) ∧
    compute_attn_1rowblock_causal_own_steps 64 64 100 100 1
      = some [Step.mk 0 0 0 true true Mask.none true,
        Step.mk 1 1 1 false true Mask.causal false] ∧
    (∀ inp : Operands Unit ℝ,
      (load_v inp false 64 100 (Step.mk 1 1 1 false true Mask.causal false))[36]?
        = some (inp.V 100)) ∧
    compute_attn_1rowblock_steps true false 64 64 100 100 1
      = some [Step.mk 1 1 1 true true Mask.causal true,
        Step.mk 0 0 0 false false Mask.none false] ∧
    (∀ inp : Operands Unit ℝ,
      (load_v inp false 64 100 (Step.mk 1 1 1 true true Mask.causal true))[36]?
        = some (fun _ => fin 0)) := by
  refine ⟨?_, by decide, ?_, by decide, ?_⟩
  · intro M N sq sk m hM hN hm hq hk hp hab h1 hrag
    refine ⟨_, own_steps_not_publisher M N sq sk m hM hN hm hq hk hp, ?_⟩
    rw [min_eq_left hab]
    have hr := ceil_div_pos M N hM hN
    generalize ceil_div sk N = a at h1 hrag ⊢
    generalize ceil_div M N = r at hr ⊢
    refine ⟨_, List.mem_append.2 (Or.inr (List.mem_map.2
      ⟨(min r a).toNat - 1, List.mem_range.2 (by omega), rfl⟩)), ?_, ?_, ?_, ?_⟩
    · simp only
      omega
    · simp only
      have e : max 0 (a - r) + (((min r a).toNat - 1 : Nat) : Int) + 1 = a := by omega
      rw [e]
      exact hrag
    · simp only
      split_ifs with hc
      · omega
      · exact le_refl _
    · simp only [decide_eq_false_iff_not]
      omega
  · intro inp
    simp [load_v]
  · intro inp
    simp [load_v]

/-- Claim C25 fails on the code.  In the own pass of `compute_attn_1rowblock_causal` the
unit of query tile 0, whenever it has more than one key tile to run, multiplies the scores
of key tile `n_block` with value tile `n_block + 1` in every iteration: its first loop is
empty, and the second loop, entered with the V pointer on tile 0 and `dst ≠ 0`, advances
the pointer before its first load.  Tile shape 128 x 64 and
`actual_seqlen_q = actual_seqlen_k = 512`, `m_block = 0`: the own pass pairs (K, V) tiles
(0, 1) and (1, 2); `compute_attn_1rowblock` with `Is_causal` pairs (1, 1) and (0, 0), and
the fragment pass of the same unit pairs (7, 7) and (6, 6). -/
theorem own_pass_value_tile_ahead :
    (∀ kBlockM kBlockN actual_seqlen_q actual_seqlen_k : Int,
      0 < kBlockM → 0 < kBlockN → 0 < actual_seqlen_q → 0 < actual_seqlen_k →
      1 < n_block_max true kBlockM kBlockN actual_seqlen_k 0 →
      ∃ steps : List Step,
        compute_attn_1rowblock_causal_own_steps kBlockM kBlockN actual_seqlen_q
          actual_seqlen_k 0 = some steps ∧
        steps ≠ [] ∧ ∀ s ∈ steps, s.k_tile = s.n_block ∧ s.v_tile = s.n_block + 1) ∧
    (compute_attn_1rowblock_causal_own_steps 128 64 512 512 0).map
        (List.map fun s => (s.n_block, s.k_tile, s.v_tile))
      = some [(0, 0, 1), (1, 1, 2)] ∧
    (compute_attn_1rowblock_steps true true 128 64 512 512 0).map
        (List.map fun s => (s.n_block, s.k_tile, s.v_tile))
      = some [(1, 1, 1), (0, 0, 0)] ∧
    (compute_attn_1rowblock_causal_frag_steps 128 64 512 512 0).map
        (List.map fun s => (s.n_block, s.k_tile, s.v_tile))
      = some [(7, 7, 7), (6, 6, 6)] := by
  refine ⟨?_, by decide, by decide, by decide⟩
  intro M N sq sk hM hN hq hk h1
  refine ⟨_, own_steps_first_tile M N sq sk hM hN hq hk, ?_, ?_⟩
  · intro hnil
    have hl := congrArg List.length hnil
    simp only [List.length_map, List.length_range, List.length_nil] at hl
    omega
  · intro s hs
    obtain ⟨i, _, rfl⟩ := List.mem_map.1 hs
    simp only [h1, if_true, and_self]

/-- Claim C27 fails on the code.  A publisher of `compute_attn_1rowblock_causal` replaces
`dst = n_block_max - 1` by `ceil_div(kBlockM, kBlockN) * (ceil_div(actual_seqlen_q,
kBlockM) / 2 + 1) - 1`, in which `actual_seqlen_k` does not occur: its own pass runs every
tile below that bound, whatever the number of key tiles.  Tile shape 128 x 64,
`actual_seqlen_q = 512`, `actual_seqlen_k = 128`, `m_block = 3`: the keys have 2 tiles, the
own pass runs the tiles 0 .. 5.  With `actual_seqlen_q = actual_seqlen_k = 128`,
`m_block = 0`, the own pass loads the value tiles 1 and 2 for the key tiles 0 and 1, again
with 2 key tiles.  And with tile shape 64 x 128, `actual_seqlen_q = actual_seqlen_k = 500`,
`m_block = 5`, a publisher, the keys have 4 tiles and the own pass runs the tiles
0 .. 4. -/
theorem own_pass_tiles_outside_keys :
    (∀ kBlockM kBlockN actual_seqlen_q actual_seqlen_k m_block n : Int,
      m_block * kBlockM < actual_seqlen_q → actual_seqlen_k ≠ 0 →
      is_publisher kBlockM actual_seqlen_q m_block = true → 0 ≤ n →
      n < ceil_div kBlockM kBlockN * (ceil_div actual_seqlen_q kBlockM / 2 + 1) →
      ∃ steps : List Step,
        compute_attn_1rowblock_causal_own_steps kBlockM kBlockN actual_seqlen_q
          actual_seqlen_k m_block = some steps ∧
        ∃ s ∈ steps, s.n_block = n ∧ s.k_tile = n ∧ s.v_tile = n) ∧
    is_publisher 128 512 3 = true ∧
    ceil_div 128 64 = 2 ∧
    (compute_attn_1rowblock_causal_own_steps 128 64 512 128 3).map
        (List.map fun s => (s.n_block, s.k_tile, s.v_tile))
      = some [(0, 0, 0), (1, 1, 1), (2, 2, 2), (3, 3, 3), (4, 4, 4), (5, 5, 5)] ∧
    (compute_attn_1rowblock_causal_own_steps 128 64 128 128 0).map
        (List.map fun s => (s.n_block, s.k_tile, s.v_tile))
      = some [(0, 0, 1), (1, 1, 2)] ∧
    is_publisher 64 500 5 = true ∧
    ceil_div 500 128 = 4 ∧
    (compute_attn_1rowblock_causal_own_steps 64 128 500 500 5).map
        (List.map fun s => (s.n_block, s.k_tile, s.v_tile))
      = some [(0, 0, 0), (1, 1, 1), (2, 2, 2), (3, 3, 3), (4, 4, 4)] := by
  refine ⟨?_, by decide, by decide, by decide, by decide, by decide, by decide, by decide⟩
  intro M N sq sk m n hq hk hp h0 hn
  refine ⟨_, own_steps_publisher M N sq sk m hq hk hp, ?_⟩
  refine ⟨_, List.mem_map.2 ⟨n.toNat, List.mem_range.2 (by omega), rfl⟩, ?_, ?_, ?_⟩ <;>
    simp only <;> omega

/-! ## Counting iterations -/

theorem own_length_not_publisher (kBlockM kBlockN actual_seqlen_q actual_seqlen_k m_block : Int)
    (hM : 0 < kBlockM) (hN : 0 < kBlockN) (hm : 0 ≤ m_block)
    (hq : m_block * kBlockM < actual_seqlen_q) (hk : 0 < actual_seqlen_k)
    (hp : is_publisher kBlockM actual_seqlen_q m_block = false) :
    (compute_attn_1rowblock_causal_own_steps kBlockM kBlockN actual_seqlen_q actual_seqlen_k
        m_block).map List.length
      = some ((min (ceil_div actual_seqlen_k kBlockN)
            (ceil_div ((m_block + 1) * kBlockM) kBlockN) - ceil_div kBlockM kBlockN).toNat
          + (min (ceil_div kBlockM kBlockN)
            (min (ceil_div actual_seqlen_k kBlockN)
              (ceil_div ((m_block + 1) * kBlockM) kBlockN))).toNat) := by
  rw [own_steps_not_publisher kBlockM kBlockN actual_seqlen_q actual_seqlen_k m_block hM hN hm
    hq hk hp]
  simp only [Option.map_some', List.length_append, List.length_map, List.length_range]

theorem own_length_publisher (kBlockM kBlockN actual_seqlen_q actual_seqlen_k m_block : Int)
    (hq : m_block * kBlockM < actual_seqlen_q) (hk : actual_seqlen_k ≠ 0)
    (hp : is_publisher kBlockM actual_seqlen_q m_block = true) :
    (compute_attn_1rowblock_causal_own_steps kBlockM kBlockN actual_seqlen_q actual_seqlen_k
        m_block).map List.length
      = some (ceil_div kBlockM kBlockN * (ceil_div actual_seqlen_q kBlockM / 2 + 1)).toNat := by
  rw [own_steps_publisher kBlockM kBlockN actual_seqlen_q actual_seqlen_k m_block hq hk hp]
  simp only [Option.map_some', List.length_map, List.length_range]

theorem frag_length_helper (kBlockM kBlockN actual_seqlen_q actual_seqlen_k m_block : Int)
    (hM : 0 < kBlockM) (hN : 0 < kBlockN)
    (hq : m_block * kBlockM < actual_seqlen_q) (hk : actual_seqlen_k ≠ 0)
    (hh : is_helper kBlockM actual_seqlen_q m_block = true)
    (hd : ceil_div kBlockM kBlockN * (ceil_div actual_seqlen_q kBlockM / 2 + 1)
      < min (ceil_div actual_seqlen_k kBlockN)
          (ceil_div ((reverse_m_block kBlockM actual_seqlen_q m_block + 1) * kBlockM) kBlockN)) :
    (compute_attn_1rowblock_causal_frag_steps kBlockM kBlockN actual_seqlen_q actual_seqlen_k
        m_block).map List.length
      = some ((min (ceil_div kBlockM kBlockN)
              (min (ceil_div actual_seqlen_k kBlockN)
                  (ceil_div ((reverse_m_block kBlockM actual_seqlen_q m_block + 1) * kBlockM)
                    kBlockN)
                - ceil_div kBlockM kBlockN * (ceil_div actual_seqlen_q kBlockM / 2 + 1))).toNat
          + (min (ceil_div actual_seqlen_k kBlockN)
                  (ceil_div ((reverse_m_block kBlockM actual_seqlen_q m_block + 1) * kBlockM)
                    kBlockN)
                - ceil_div kBlockM kBlockN * (ceil_div actual_seqlen_q kBlockM / 2 + 1)
                - ceil_div kBlockM kBlockN).toNat) := by
  rw [frag_steps_helper kBlockM kBlockN actual_seqlen_q actual_seqlen_k m_block hM hN hq hk hh
    hd]
  simp only [Option.map_some', List.length_append, List.length_map, List.length_range]

theorem frag_steps_not_helper (kBlockM kBlockN actual_seqlen_q actual_seqlen_k m_block : Int)
    (hh : is_helper kBlockM actual_seqlen_q m_block = false) :
    compute_attn_1rowblock_causal_frag_steps kBlockM kBlockN actual_seqlen_q actual_seqlen_k
      m_block = none := by
  unfold compute_attn_1rowblock_causal_frag_steps
  split_ifs <;> simp_all

theorem plain_length_causal (Is_even_N : Bool)
    (kBlockM kBlockN actual_seqlen_q actual_seqlen_k m_block : Int)
    (hM : 0 < kBlockM) (hN : 0 < kBlockN) (hm : 0 ≤ m_block)
    (hq : m_block * kBlockM < actual_seqlen_q) (hk : 0 < actual_seqlen_k) :
    (compute_attn_1rowblock_steps true Is_even_N kBlockM kBlockN actual_seqlen_q
        actual_seqlen_k m_block).map List.length
      = some ((min (ceil_div kBlockM kBlockN)
            (min (ceil_div actual_seqlen_k kBlockN)
              (ceil_div ((m_block + 1) * kBlockM) kBlockN))).toNat
          + (min (ceil_div actual_seqlen_k kBlockN)
              (ceil_div ((m_block + 1) * kBlockM) kBlockN) - ceil_div kBlockM kBlockN).toNat) := by
  rw [compute_attn_1rowblock_steps_causal Is_even_N kBlockM kBlockN actual_seqlen_q
    actual_seqlen_k m_block hM hN hm hq hk]
  simp only [Option.map_some', List.length_append, List.length_map, List.length_range]

theorem ceil_div_mul_mul (q r b : Int) (hb : 0 < b) : ceil_div (q * (r * b)) b = q * r := by
  rw [← mul_assoc]
  exact ceil_div_mul _ _ hb

theorem total_tiles_mul (T kBlockM : Int) (hM : 0 < kBlockM) :
    total_tiles kBlockM (T * kBlockM) = T :=
  ceil_div_mul T kBlockM hM

theorem helper_count_arith (A B C E r : Int) (hr : 0 < r) (hA0 : 0 ≤ A) (hAB : A + r ≤ B)
    (hB : C + E = B) (hAE : A + 2 * r ≤ E) :
    (((min B (A + r) - r).toNat + (min r (min B (A + r))).toNat
        + ((min r (min B (B - A) - (C + r))).toNat
          + (min B (B - A) - (C + r) - r).toNat) : Nat) : Int) = E := by
  omega

theorem standalone_count_arith (A B C r : Int) (hr : 0 < r) (hA0 : 0 ≤ A) (hAB : A + r ≤ B)
    (hAC : A ≤ C) :
    (((min B (A + r) - r).toNat + (min r (min B (A + r))).toNat + 0 : Nat) : Int) ≤ C + r := by
  omega

theorem plain_count_arith (B r : Int) (hr : 0 < r) (hB : r ≤ B) :
    (((min r (min B B)).toNat + (min B B - r).toNat : Nat) : Int) = B := by
  omega

/-- Claim C28: the load balance of the wave-balanced kernel.  Let `kBlockM = r * kBlockN`,
`actual_seqlen_q = actual_seqlen_k = T * kBlockM` with `T ≥ 3`, and `0 ≤ m_block < T`.
The number of iterations of a unit of `compute_attn_1rowblock_causal`, own pass and
fragment pass together, is `r * ceil(T / 2)` when the unit is a helper, `r * (T / 2 + 1)`
when it is a publisher, and at most `r * (T / 2 + 1)` in every case; the unit of the last
query tile of `compute_attn_1rowblock` with `Is_causal` runs `r * T` iterations. -/
theorem wave_balance_tile_counts (Is_even_N : Bool) (kBlockN r T m_block : Int)
    (hN : 0 < kBlockN) (hr : 0 < r) (hT : 3 ≤ T) (hm0 : 0 ≤ m_block) (hm : m_block < T) :
    (is_helper (r * kBlockN) (T * (r * kBlockN)) m_block = true →
      ((compute_attn_1rowblock_causal_tile_count (r * kBlockN) kBlockN (T * (r * kBlockN))
        (T * (r * kBlockN)) m_block : Nat) : Int) = r * ((T + 1) / 2)) ∧
    (is_publisher (r * kBlockN) (T * (r * kBlockN)) m_block = true →
      ((compute_attn_1rowblock_causal_tile_count (r * kBlockN) kBlockN (T * (r * kBlockN))
        (T * (r * kBlockN)) m_block : Nat) : Int) = r * (T / 2 + 1)) ∧
    ((compute_attn_1rowblock_causal_tile_count (r * kBlockN) kBlockN (T * (r * kBlockN))
        (T * (r * kBlockN)) m_block : Nat) : Int) ≤ r * (T / 2 + 1) ∧
    ((compute_attn_1rowblock_steps true Is_even_N (r * kBlockN) kBlockN (T * (r * kBlockN))
        (T * (r * kBlockN)) (T - 1)).map List.length).map (fun (n : Nat) => (n : Int))
      = some (r * T) := by
  have hM : 0 < r * kBlockN := mul_pos hr hN
  have hq : m_block * (r * kBlockN) < T * (r * kBlockN) := mul_lt_mul_of_pos_right hm hM
  have hk : 0 < T * (r * kBlockN) := mul_pos (by omega) hM
  have hq1 : (T - 1) * (r * kBlockN) < T * (r * kBlockN) :=
    mul_lt_mul_of_pos_right (by omega) hM
  have c1 : ceil_div (r * kBlockN) kBlockN = r := ceil_div_mul r kBlockN hN
  have c2 : ceil_div (T * (r * kBlockN)) kBlockN = T * r := ceil_div_mul_mul T r kBlockN hN
  have c3 : ∀ x : Int, ceil_div ((x + 1) * (r * kBlockN)) kBlockN = (x + 1) * r :=
    fun x => ceil_div_mul_mul (x + 1) r kBlockN hN
  have c4 : ceil_div (T * (r * kBlockN)) (r * kBlockN) = T := ceil_div_mul T _ hM
  have c5 : total_tiles (r * kBlockN) (T * (r * kBlockN)) = T := total_tiles_mul T _ hM
  -- the products that occur, and the order between them
  have eA : (m_block + 1) * r = m_block * r + r := by ring
  have eR : (T - m_block - 1 + 1) * r = T * r - m_block * r := by ring
  have eL : (T - 1 + 1) * r = T * r := by ring
  have eC : r * (T / 2 + 1) = T / 2 * r + r := by ring
  have eE : r * ((T + 1) / 2) = (T + 1) / 2 * r := by ring
  have eT : r * T = T * r := by ring
  have eB : T / 2 * r + (T + 1) / 2 * r = T * r := by
    have : T / 2 + (T + 1) / 2 = T := by omega
    rw [← add_mul, this]
  have hA0 : 0 ≤ m_block * r := mul_nonneg hm0 (le_of_lt hr)
  have hAB : m_block * r + r ≤ T * r := by
    have := mul_le_mul_of_nonneg_right (show m_block + 1 ≤ T by omega) (le_of_lt hr)
    rw [eA] at this
    exact this
  have hCE : T / 2 * r ≤ (T + 1) / 2 * r :=
    mul_le_mul_of_nonneg_right (by omega) (le_of_lt hr)
  have hEC : (T + 1) / 2 * r ≤ T / 2 * r + r := by
    have := mul_le_mul_of_nonneg_right (show (T + 1) / 2 ≤ T / 2 + 1 by omega) (le_of_lt hr)
    rw [add_mul, one_mul] at this
    exact this
  have hCr : r ≤ T / 2 * r := by
    have := mul_le_mul_of_nonneg_right (show 1 ≤ T / 2 by omega) (le_of_lt hr)
    rw [one_mul] at this
    exact this
  -- the count of a unit, by its role
  have hhelper : is_helper (r * kBlockN) (T * (r * kBlockN)) m_block = true →
      ((compute_attn_1rowblock_causal_tile_count (r * kBlockN) kBlockN (T * (r * kBlockN))
        (T * (r * kBlockN)) m_block : Nat) : Int) = r * ((T + 1) / 2) := by
    intro hh
    have hp := helper_not_publisher _ _ _ hh
    have hh2 : m_block + 2 ≤ (T + 1) / 2 := by
      simp only [is_helper, c5, decide_eq_true_eq] at hh
      omega
    have hAE : m_block * r + 2 * r ≤ (T + 1) / 2 * r := by
      have := mul_le_mul_of_nonneg_right hh2 (le_of_lt hr)
      rw [add_mul] at this
      exact this
    have hd : ceil_div (r * kBlockN) kBlockN
          * (ceil_div (T * (r * kBlockN)) (r * kBlockN) / 2 + 1)
        < min (ceil_div (T * (r * kBlockN)) kBlockN)
          (ceil_div ((reverse_m_block (r * kBlockN) (T * (r * kBlockN)) m_block + 1)
            * (r * kBlockN)) kBlockN) := by
      rw [reverse_m_block, c5, c1, c2, c3, c4]
      omega
    unfold compute_attn_1rowblock_causal_tile_count
    rw [own_length_not_publisher _ _ _ _ _ hM hN hm0 hq hk hp,
      frag_length_helper _ _ _ _ _ hM hN hq (ne_of_gt hk) hh hd]
    rw [reverse_m_block, c5, c1, c2, c3, c3, c4]
    simp only [Option.getD_some]
    rw [eA, eR, eC, eE]
    exact helper_count_arith _ _ _ _ r hr hA0 hAB eB hAE
  have hpublisher : is_publisher (r * kBlockN) (T * (r * kBlockN)) m_block = true →
      ((compute_attn_1rowblock_causal_tile_count (r * kBlockN) kBlockN (T * (r * kBlockN))
        (T * (r * kBlockN)) m_block : Nat) : Int) = r * (T / 2 + 1) := by
    intro hp
    have hh := publisher_not_helper _ _ _ hp
    unfold compute_attn_1rowblock_causal_tile_count
    rw [own_length_publisher _ _ _ _ _ hq (ne_of_gt hk) hp,
      frag_steps_not_helper _ _ _ _ _ hh, c1, c4]
    simp only [Option.getD_some, Option.map_none', Option.getD_none, add_zero]
    have h0 : 0 ≤ r * (T / 2 + 1) := mul_nonneg (le_of_lt hr) (by omega)
    exact Int.toNat_of_nonneg h0
  refine ⟨hhelper, hpublisher, ?_, ?_⟩
  · by_cases hp : is_publisher (r * kBlockN) (T * (r * kBlockN)) m_block = true
    · exact le_of_eq (hpublisher hp)
    · by_cases hh : is_helper (r * kBlockN) (T * (r * kBlockN)) m_block = true
      · rw [hhelper hh, eC, eE]
        exact hEC
      · have hp1 : is_publisher (r * kBlockN) (T * (r * kBlockN)) m_block = false := by
          simpa using hp
        have hh1 : is_helper (r * kBlockN) (T * (r * kBlockN)) m_block = false := by
          simpa using hh
        have hmT : m_block ≤ T / 2 := by
          simp only [is_publisher, c5, decide_eq_false_iff_not] at hp1
          omega
        have hAC : m_block * r ≤ T / 2 * r := mul_le_mul_of_nonneg_right hmT (le_of_lt hr)
        unfold compute_attn_1rowblock_causal_tile_count
        rw [own_length_not_publisher _ _ _ _ _ hM hN hm0 hq hk hp1,
          frag_steps_not_helper _ _ _ _ _ hh1, c1, c2, c3]
        simp only [Option.getD_some, Option.map_none', Option.getD_none]
        rw [eA, eC]
        exact standalone_count_arith _ _ _ r hr hA0 hAB hAC
  · rw [plain_length_causal Is_even_N _ _ _ _ _ hM hN (by omega) hq1 hk, c1, c2, c3]
    simp only [Option.map_some', Option.some.injEq]
    rw [eL, eT]
    exact plain_count_arith _ r hr (by omega)

/-! ## Dropout arguments and the dispatch -/

/-- Claim C21: dropout reproducibility.  At every call of `apply_dropout`, in
`compute_attn_1rowblock` and in both passes of `compute_attn_1rowblock_causal`, the
arguments are determined by the pair `seeds`, the batch and head indices (with the head
count `params.h`), the lane `tidx % 32`, the warp `tidx / 32`, the query tile and the key
tile (with the tile shape): `seed` is the first component of `seeds`, `offset` the second
plus `(bidb * h + bidh) * 32 + lane`, `block_row_idx` is `q_tile * (kBlockM / 16) + warp`
and `block_col_idx` is `n_block * (kBlockN / 32)`.  So a second thread index with the same
lane and warp passes the same arguments, the own pass passes what `compute_attn_1rowblock`
passes, and the fragment pass of the unit of tile `m_block` passes, for every key tile,
what the own pass and `compute_attn_1rowblock` pass on the mirrored tile
`reverse_m_block`. -/
theorem dropout_args_by_position (seeds : Int × Int)
    (h bidb bidh tidx kBlockM kBlockN actual_seqlen_q m_block n_block : Int) :
    compute_attn_1rowblock_dropout_args seeds h bidb bidh tidx kBlockM kBlockN m_block n_block
      = DropoutArgs.mk (seeds.1 % 2 ^ 64)
          ((seeds.2 + ((bidb * h + bidh) * 32 + tidx % 32)) % 2 ^ 64)
          ((m_block * (kBlockM / 16) + tidx / 32) % 2 ^ 32)
          ((n_block * (kBlockN / 32)) % 2 ^ 32) ∧
    (∀ tidx2 : Int, tidx2 % 32 = tidx % 32 → tidx2 / 32 = tidx / 32 →
      compute_attn_1rowblock_dropout_args seeds h bidb bidh tidx2 kBlockM kBlockN m_block
          n_block
        = compute_attn_1rowblock_dropout_args seeds h bidb bidh tidx kBlockM kBlockN m_block
          n_block ∧
      compute_attn_1rowblock_causal_own_dropout_args seeds h bidb bidh tidx2 kBlockM kBlockN
          m_block n_block
        = compute_attn_1rowblock_causal_own_dropout_args seeds h bidb bidh tidx kBlockM
          kBlockN m_block n_block ∧
      compute_attn_1rowblock_causal_frag_dropout_args seeds h bidb bidh tidx2 kBlockM kBlockN
          actual_seqlen_q m_block n_block
        = compute_attn_1rowblock_causal_frag_dropout_args seeds h bidb bidh tidx kBlockM
          kBlockN actual_seqlen_q m_block n_block) ∧
    compute_attn_1rowblock_causal_own_dropout_args seeds h bidb bidh tidx kBlockM kBlockN
        m_block n_block
      = compute_attn_1rowblock_dropout_args seeds h bidb bidh tidx kBlockM kBlockN m_block
        n_block ∧
    compute_attn_1rowblock_causal_frag_dropout_args seeds h bidb bidh tidx kBlockM kBlockN
        actual_seqlen_q m_block n_block
      = compute_attn_1rowblock_causal_own_dropout_args seeds h bidb bidh tidx kBlockM kBlockN
        (reverse_m_block kBlockM actual_seqlen_q m_block) n_block ∧
    compute_attn_1rowblock_causal_frag_dropout_args seeds h bidb bidh tidx kBlockM kBlockN
        actual_seqlen_q m_block n_block
      = compute_attn_1rowblock_dropout_args seeds h bidb bidh tidx kBlockM kBlockN
        (reverse_m_block kBlockM actual_seqlen_q m_block) n_block := by
  refine ⟨rfl, ?_, rfl, rfl, rfl⟩
  intro tidx2 hl hw
  simp only [compute_attn_1rowblock_dropout_args,
    compute_attn_1rowblock_causal_own_dropout_args,
    compute_attn_1rowblock_causal_frag_dropout_args, hl, hw, and_self]

/-- Claim C29: the dispatch of `compute_attn_casual`.  With the switch `Is_causal` off the
unit runs `compute_attn_1rowblock` instantiated with `Is_causal = true`, on `blockIdx.y`,
`blockIdx.z`; with the switch on it runs `compute_attn_1rowblock_causal` on `bidb`, `bidh`;
so the iterations are those of the plain causal schedule, respectively of the own pass of
the wave-balanced kernel.  In both branches the query tile is
`gridDim.x - 1 - blockIdx.x`, which for `0 ≤ blockIdx.x < gridDim.x` lies in
`[0, gridDim.x)`; and every tile of that range is the tile of exactly one unit of the
range. -/
theorem compute_attn_casual_dispatch
    (bidb bidh gridDim_x blockIdx_x blockIdx_y blockIdx_z : Int)
    (h0 : 0 ≤ blockIdx_x) (hx : blockIdx_x < gridDim_x) :
    compute_attn_casual false bidb bidh gridDim_x blockIdx_x blockIdx_y blockIdx_z
      = KernelCall.compute_attn_1rowblock true blockIdx_y blockIdx_z
          (gridDim_x - 1 - blockIdx_x) ∧
    compute_attn_casual true bidb bidh gridDim_x blockIdx_x blockIdx_y blockIdx_z
      = KernelCall.compute_attn_1rowblock_causal true bidb bidh
          (gridDim_x - 1 - blockIdx_x) ∧
    (∀ (Is_even_N : Bool) (kBlockM kBlockN actual_seqlen_q actual_seqlen_k : Int),
      (compute_attn_casual false bidb bidh gridDim_x blockIdx_x blockIdx_y blockIdx_z).steps
          Is_even_N kBlockM kBlockN actual_seqlen_q actual_seqlen_k
        = compute_attn_1rowblock_steps true Is_even_N kBlockM kBlockN actual_seqlen_q
          actual_seqlen_k (gridDim_x - 1 - blockIdx_x) ∧
      (compute_attn_casual true bidb bidh gridDim_x blockIdx_x blockIdx_y blockIdx_z).steps
          Is_even_N kBlockM kBlockN actual_seqlen_q actual_seqlen_k
        = compute_attn_1rowblock_causal_own_steps kBlockM kBlockN actual_seqlen_q
          actual_seqlen_k (gridDim_x - 1 - blockIdx_x)) ∧
    (0 ≤ gridDim_x - 1 - blockIdx_x ∧ gridDim_x - 1 - blockIdx_x < gridDim_x) ∧
    (∀ m_block : Int, 0 ≤ m_block → m_block < gridDim_x →
      ∃! x : Int, (0 ≤ x ∧ x < gridDim_x) ∧ gridDim_x - 1 - x = m_block) := by
  refine ⟨rfl, rfl, fun _ _ _ _ _ => ⟨rfl, rfl⟩, ⟨by omega, by omega⟩, ?_⟩
  intro m hm0 hm
  refine ⟨gridDim_x - 1 - m, ⟨⟨by omega, by omega⟩, by omega⟩, ?_⟩
  rintro y ⟨_, hy⟩
  omega

/-! ## The flag grid -/

/-- Every access of a unit of `compute_attn_1rowblock_causal` to the flag grid: a publisher
accesses the element of its unit index, a helper the element of its tile index. -/
theorem causal_events_flag_index (Share_Q_K_smem : Bool)
    (kBlockM actual_seqlen_q actual_seqlen_k bidb bidh m_block blockIdx_x : Int) (e : Event)
    (he : e ∈ compute_attn_1rowblock_causal_events Share_Q_K_smem kBlockM actual_seqlen_q
      actual_seqlen_k bidb bidh m_block blockIdx_x) :
    (e.flag_index = none ∧ e.is_flag_write = false) ∨
      (e.is_flag_write = true ∧ e.flag_index = some (bidh, bidb, blockIdx_x) ∧
        is_publisher kBlockM actual_seqlen_q m_block = true) ∨
      (e.is_flag_write = false ∧ e.flag_index = some (bidh, bidb, m_block) ∧
        is_helper kBlockM actual_seqlen_q m_block = true) := by
  revert e
  unfold compute_attn_1rowblock_causal_events
  cases Share_Q_K_smem <;>
    by_cases hp : is_publisher kBlockM actual_seqlen_q m_block = true <;>
    by_cases hh : is_helper kBlockM actual_seqlen_q m_block = true <;>
    by_cases hne : (m_block * kBlockM ≥ actual_seqlen_q ∨ actual_seqlen_k = 0) <;>
    simp [hp, hh, hne, Event.flag_index, Event.is_flag_write]

theorem tile_not_early (kBlockM actual_seqlen_q m_block : Int) (hM : 0 < kBlockM)
    (hm : m_block < total_tiles kBlockM actual_seqlen_q) :
    m_block * kBlockM < actual_seqlen_q := by
  have h1 := (ceil_div_spec actual_seqlen_q kBlockM hM).1
  rw [← total_tiles_eq] at h1
  have h2 : m_block * kBlockM ≤ (total_tiles kBlockM actual_seqlen_q - 1) * kBlockM :=
    mul_le_mul_of_nonneg_right (by omega) (le_of_lt hM)
  omega

theorem mirrored_is_publisher (kBlockM actual_seqlen_q m_block : Int)
    (hh : is_helper kBlockM actual_seqlen_q m_block = true) :
    is_publisher kBlockM actual_seqlen_q (reverse_m_block kBlockM actual_seqlen_q m_block)
      = true := by
  simp only [is_helper, is_publisher, reverse_m_block, decide_eq_true_eq] at hh ⊢
  generalize total_tiles kBlockM actual_seqlen_q = T at hh ⊢
  omega

/-- Claim C26: the flag rendezvous is consistent.  Launch through `compute_attn_casual`
with `gridDim.x = T`, the tile count.  A helper tile `m_block ≥ 0` is the tile of the unit
`blockIdx.x = T - 1 - m_block`, and that unit polls `CompleteMask[bidh][bidb][m_block]` and
no other element.  The unit whose tile is the mirrored tile `T - 1 - m_block` is the unit
`blockIdx.x = m_block`; it is a publisher, it resets and sets
`CompleteMask[bidh][bidb][m_block]`, the element the helper polls, and writes no other
element.  And two distinct units of the same batch entry and head never write the same
element. -/
theorem flag_rendezvous_consistent (Share_Q_K_smem : Bool)
    (kBlockM actual_seqlen_q actual_seqlen_k bidb bidh m_block : Int)
    (hM : 0 < kBlockM) (hk : actual_seqlen_k ≠ 0) (hm : 0 ≤ m_block)
    (hh : is_helper kBlockM actual_seqlen_q m_block = true) :
    (∀ h b i, Event.atomicCAS_spin h b i
        ∈ compute_attn_casual_events true Share_Q_K_smem kBlockM actual_seqlen_q
          actual_seqlen_k bidb bidh (total_tiles kBlockM actual_seqlen_q)
          (total_tiles kBlockM actual_seqlen_q - 1 - m_block)
      ↔ (h = bidh ∧ b = bidb ∧ i = m_block)) ∧
    (∀ x : Int, total_tiles kBlockM actual_seqlen_q - 1 - x
        = reverse_m_block kBlockM actual_seqlen_q m_block ↔ x = m_block) ∧
    is_publisher kBlockM actual_seqlen_q (reverse_m_block kBlockM actual_seqlen_q m_block)
      = true ∧
    Event.atomicAnd bidh bidb m_block 0
      ∈ compute_attn_casual_events true Share_Q_K_smem kBlockM actual_seqlen_q
        actual_seqlen_k bidb bidh (total_tiles kBlockM actual_seqlen_q) m_block ∧
    Event.atomicOr bidh bidb m_block 1
      ∈ compute_attn_casual_events true Share_Q_K_smem kBlockM actual_seqlen_q
        actual_seqlen_k bidb bidh (total_tiles kBlockM actual_seqlen_q) m_block ∧
    (∀ e ∈ compute_attn_casual_events true Share_Q_K_smem kBlockM actual_seqlen_q
        actual_seqlen_k bidb bidh (total_tiles kBlockM actual_seqlen_q) m_block,
      e.is_flag_write = true → e.flag_index = some (bidh, bidb, m_block)) ∧
    (∀ (x1 x2 : Int) (e1 e2 : Event), x1 ≠ x2 →
      e1 ∈ compute_attn_casual_events true Share_Q_K_smem kBlockM actual_seqlen_q
        actual_seqlen_k bidb bidh (total_tiles kBlockM actual_seqlen_q) x1 →
      e2 ∈ compute_attn_casual_events true Share_Q_K_smem kBlockM actual_seqlen_q
        actual_seqlen_k bidb bidh (total_tiles kBlockM actual_seqlen_q) x2 →
      e1.is_flag_write = true → e2.is_flag_write = true →
      e1.flag_index ≠ e2.flag_index) := by
  have hp := helper_not_publisher _ _ _ hh
  have hmp := mirrored_is_publisher _ _ _ hh
  have hmh := publisher_not_helper _ _ _ hmp
  have hT : m_block + 1 < (total_tiles kBlockM actual_seqlen_q + 1) / 2 := by
    simpa [is_helper] using hh
  have hne : ¬ (m_block * kBlockM ≥ actual_seqlen_q ∨ actual_seqlen_k = 0) := by
    have := tile_not_early kBlockM actual_seqlen_q m_block hM (by omega)
    omega
  have hne2 : ¬ (reverse_m_block kBlockM actual_seqlen_q m_block * kBlockM ≥ actual_seqlen_q
      ∨ actual_seqlen_k = 0) := by
    have := tile_not_early kBlockM actual_seqlen_q
      (reverse_m_block kBlockM actual_seqlen_q m_block) hM (by unfold reverse_m_block; omega)
    omega
  have e1 : total_tiles kBlockM actual_seqlen_q - 1
      - (total_tiles kBlockM actual_seqlen_q - 1 - m_block) = m_block := by ring
  have e2 : total_tiles kBlockM actual_seqlen_q - 1 - m_block
      = reverse_m_block kBlockM actual_seqlen_q m_block := by
    unfold reverse_m_block; ring
  refine ⟨?_, ?_, hmp, ?_, ?_, ?_, ?_⟩
  · intro h b i
    simp only [compute_attn_casual_events, Bool.not_true, Bool.false_eq_true, if_false, e1]
    cases Share_Q_K_smem <;>
      simp [compute_attn_1rowblock_causal_events, hp, hne, hh]
  · intro x
    rw [← e2]
    constructor <;> intro h <;> omega
  · simp only [compute_attn_casual_events, Bool.not_true, Bool.false_eq_true, if_false, e2]
    simp [compute_attn_1rowblock_causal_events, hmp]
  · simp only [compute_attn_casual_events, Bool.not_true, Bool.false_eq_true, if_false, e2]
    cases Share_Q_K_smem <;>
      simp [compute_attn_1rowblock_causal_events, hmp, hne2, hmh]
  · intro e he hw
    simp only [compute_attn_casual_events, Bool.not_true, Bool.false_eq_true, if_false] at he
    rcases causal_events_flag_index _ _ _ _ _ _ _ _ e he with h | h | h
    · rw [h.2] at hw; exact absurd hw (by simp)
    · exact h.2.1
    · rw [h.1] at hw; exact absurd hw (by simp)
  · intro x1 x2 a b hx ha hb hwa hwb
    simp only [compute_attn_casual_events, Bool.not_true, Bool.false_eq_true, if_false]
      at ha hb
    have ia : a.flag_index = some (bidh, bidb, x1) := by
      rcases causal_events_flag_index _ _ _ _ _ _ _ _ a ha with h | h | h
      · rw [h.2] at hwa; exact absurd hwa (by simp)
      · exact h.2.1
      · rw [h.1] at hwa; exact absurd hwa (by simp)
    have ib : b.flag_index = some (bidh, bidb, x2) := by
      rcases causal_events_flag_index _ _ _ _ _ _ _ _ b hb with h | h | h
      · rw [h.2] at hwb; exact absurd hwb (by simp)
      · exact h.2.1
      · rw [h.1] at hwb; exact absurd hwb (by simp)
    rw [ia, ib]
    intro h
    simp only [Option.some.injEq, Prod.mk.injEq, true_and] at h
    exact hx h

/-- The flag accesses of a unit stay inside the grid when the head and batch indices do,
the unit index does if the unit is a publisher, and the tile index does if the unit is a
helper. -/
theorem causal_events_in_bounds (Share_Q_K_smem : Bool)
    (kBlockM actual_seqlen_q actual_seqlen_k bidb bidh m_block blockIdx_x : Int)
    (hh0 : 0 ≤ bidh) (hh1 : bidh < 32) (hb0 : 0 ≤ bidb) (hb1 : bidb < 32)
    (hx : is_publisher kBlockM actual_seqlen_q m_block = true →
      0 ≤ blockIdx_x ∧ blockIdx_x < 1024)
    (hm : is_helper kBlockM actual_seqlen_q m_block = true → 0 ≤ m_block ∧ m_block < 1024)
    (e : Event)
    (he : e ∈ compute_attn_1rowblock_causal_events Share_Q_K_smem kBlockM actual_seqlen_q
      actual_seqlen_k bidb bidh m_block blockIdx_x) :
    e.flag_in_bounds = true := by
  rcases causal_events_flag_index _ _ _ _ _ _ _ _ e he with h | h | h
  · simp only [Event.flag_in_bounds, h.1]
  · have := hx h.2.2
    simp only [Event.flag_in_bounds, h.2.1, decide_eq_true_eq]
    omega
  · have := hm h.2.2
    simp only [Event.flag_in_bounds, h.2.1, decide_eq_true_eq]
    omega

/-- A launch through `compute_attn_casual` with `gridDim.x` the tile count, at least 3 and
at most 2050, and head and batch indices below 32, keeps every flag access inside the
grid. -/
theorem casual_events_in_bounds (Share_Q_K_smem : Bool)
    (kBlockM actual_seqlen_q actual_seqlen_k bidb bidh : Int)
    (hT : total_tiles kBlockM actual_seqlen_q ≤ 2050)
    (hh0 : 0 ≤ bidh) (hh1 : bidh < 32) (hb0 : 0 ≤ bidb) (hb1 : bidb < 32)
    (x : Int) (hx0 : 0 ≤ x) (hx : x < total_tiles kBlockM actual_seqlen_q) (e : Event)
    (he : e ∈ compute_attn_casual_events true Share_Q_K_smem kBlockM actual_seqlen_q
      actual_seqlen_k bidb bidh (total_tiles kBlockM actual_seqlen_q) x) :
    e.flag_in_bounds = true := by
  simp only [compute_attn_casual_events, Bool.not_true, Bool.false_eq_true, if_false] at he
  refine causal_events_in_bounds _ _ _ _ _ _ _ _ hh0 hh1 hb0 hb1 ?_ ?_ e he
  · intro hp
    simp only [is_publisher, decide_eq_true_eq] at hp
    generalize total_tiles kBlockM actual_seqlen_q = T at hT hx hp
    omega
  · intro hh
    simp only [is_helper, decide_eq_true_eq] at hh
    generalize total_tiles kBlockM actual_seqlen_q = T at hT hx hh
    omega

/-- Claim C30, amended.  The flag grid is `CompleteMask[32][32][1024]`, indexed
`[bidh][bidb][tile]`.  With head and batch indices in `[0, 32)` and `blockIdx.x`, `m_block`
in `[0, 1024)`, every reset, set and poll of a unit of `compute_attn_1rowblock_causal` is
in bounds.  For a launch through `compute_attn_casual` with `gridDim.x = T`, the tile
count: with `T ≤ 2` no unit touches the grid, whatever the head and batch indices; with
`3 ≤ T ≤ 2050` and head and batch indices in `[0, 32)` every access is in bounds; with
`T ≥ 3` and a head or batch index outside `[0, 32)` the reset of unit 0 is out of bounds;
and with `T ≥ 2051` the reset of unit 1024 is out of bounds.  Nothing guards the
accesses. -/
theorem flag_grid_bounds (Share_Q_K_smem : Bool)
    (kBlockM actual_seqlen_q actual_seqlen_k bidb bidh : Int) :
    (∀ m_block blockIdx_x : Int, 0 ≤ bidh → bidh < 32 → 0 ≤ bidb → bidb < 32 →
      0 ≤ blockIdx_x → blockIdx_x < 1024 → 0 ≤ m_block → m_block < 1024 →
      ∀ e ∈ compute_attn_1rowblock_causal_events Share_Q_K_smem kBlockM actual_seqlen_q
        actual_seqlen_k bidb bidh m_block blockIdx_x, e.flag_in_bounds = true) ∧
    (total_tiles kBlockM actual_seqlen_q ≤ 2 →
      ∀ x : Int, 0 ≤ x → x < total_tiles kBlockM actual_seqlen_q →
      ∀ e ∈ compute_attn_casual_events true Share_Q_K_smem kBlockM actual_seqlen_q
        actual_seqlen_k bidb bidh (total_tiles kBlockM actual_seqlen_q) x,
      e.flag_index = none) ∧
    (total_tiles kBlockM actual_seqlen_q ≤ 2050 →
      0 ≤ bidh → bidh < 32 → 0 ≤ bidb → bidb < 32 →
      ∀ x : Int, 0 ≤ x → x < total_tiles kBlockM actual_seqlen_q →
      ∀ e ∈ compute_attn_casual_events true Share_Q_K_smem kBlockM actual_seqlen_q
        actual_seqlen_k bidb bidh (total_tiles kBlockM actual_seqlen_q) x,
      e.flag_in_bounds = true) ∧
    (3 ≤ total_tiles kBlockM actual_seqlen_q →
      (bidh < 0 ∨ 32 ≤ bidh ∨ bidb < 0 ∨ 32 ≤ bidb) →
      Event.atomicAnd bidh bidb 0 0
        ∈ compute_attn_casual_events true Share_Q_K_smem kBlockM actual_seqlen_q
          actual_seqlen_k bidb bidh (total_tiles kBlockM actual_seqlen_q) 0 ∧
      (Event.atomicAnd bidh bidb 0 0).flag_in_bounds = false) ∧
    (2051 ≤ total_tiles kBlockM actual_seqlen_q →
      Event.atomicAnd bidh bidb 1024 0
        ∈ compute_attn_casual_events true Share_Q_K_smem kBlockM actual_seqlen_q
          actual_seqlen_k bidb bidh (total_tiles kBlockM actual_seqlen_q) 1024 ∧
      (Event.atomicAnd bidh bidb 1024 0).flag_in_bounds = false) := by
  refine ⟨?_, ?_, ?_, ?_, ?_⟩
  · intro m x hh0 hh1 hb0 hb1 hx0 hx1 hm0 hm1 e he
    exact causal_events_in_bounds _ _ _ _ _ _ _ _ hh0 hh1 hb0 hb1 (fun _ => ⟨hx0, hx1⟩)
      (fun _ => ⟨hm0, hm1⟩) e he
  · intro hT x hx0 hx e he
    simp only [compute_attn_casual_events, Bool.not_true, Bool.false_eq_true, if_false] at he
    rcases causal_events_flag_index _ _ _ _ _ _ _ _ e he with h | h | h
    · exact h.1
    · have hp := h.2.2
      simp only [is_publisher, decide_eq_true_eq] at hp
      generalize total_tiles kBlockM actual_seqlen_q = T at hT hx hp
      omega
    · have hh := h.2.2
      simp only [is_helper, decide_eq_true_eq] at hh
      generalize total_tiles kBlockM actual_seqlen_q = T at hT hx hh
      omega
  · intro hT hh0 hh1 hb0 hb1 x hx0 hx e he
    exact casual_events_in_bounds _ _ _ _ _ _ hT hh0 hh1 hb0 hb1 x hx0 hx e he
  · intro hT hout
    have hp : is_publisher kBlockM actual_seqlen_q
        (total_tiles kBlockM actual_seqlen_q - 1 - 0) = true := by
      simp only [is_publisher, decide_eq_true_eq]
      generalize total_tiles kBlockM actual_seqlen_q = T at hT
      omega
    constructor
    · simp only [compute_attn_casual_events, Bool.not_true, Bool.false_eq_true, if_false]
      simp only [compute_attn_1rowblock_causal_events, hp, if_true]
      exact List.mem_append_left _ (List.mem_singleton.2 rfl)
    · simp only [Event.flag_in_bounds, Event.flag_index, decide_eq_false_iff_not]
      omega
  · intro hT
    have hp : is_publisher kBlockM actual_seqlen_q
        (total_tiles kBlockM actual_seqlen_q - 1 - 1024) = true := by
      simp only [is_publisher, decide_eq_true_eq]
      generalize total_tiles kBlockM actual_seqlen_q = T at hT
      omega
    constructor
    · simp only [compute_attn_casual_events, Bool.not_true, Bool.false_eq_true, if_false]
      simp only [compute_attn_1rowblock_causal_events, hp, if_true]
      exact List.mem_append_left _ (List.mem_singleton.2 rfl)
    · simp only [Event.flag_in_bounds, Event.flag_index, decide_eq_false_iff_not]
      omega

/-- Claim C30 as stated fails in its second half.  A launch with 33 heads and 41 batch
entries, tile size 128 and `actual_seqlen_q = 256`, so two query tiles: the units of head
32 and batch entry 40 touch no flag at all.  And a launch with 1025 query tiles
(`actual_seqlen_q = 131200`): for head 0 and batch entry 0 every flag access of every unit
is in bounds. -/
theorem flag_grid_large_launch_in_bounds :
    total_tiles 128 256 = 2 ∧
    (compute_attn_casual_events true false 128 256 256 40 32 2 0).map Event.flag_index
      = [none, none, none, none] ∧
    (compute_attn_casual_events true false 128 256 256 40 32 2 1).map Event.flag_index
      = [none, none, none, none] ∧
    total_tiles 128 131200 = 1025 ∧
    (∀ x : Int, 0 ≤ x → x < 1025 →
      ∀ e ∈ compute_attn_casual_events true false 128 131200 131200 0 0 1025 x,
        e.flag_in_bounds = true) := by
  refine ⟨by decide, by decide, by decide, by decide, ?_⟩
  intro x hx0 hx e he
  have hT : total_tiles 128 131200 = 1025 := by decide
  exact casual_events_in_bounds false 128 131200 131200 0 0 (by rw [hT]; decide) (by decide)
    (by decide) (by decide) (by decide) x hx0 (by rw [hT]; exact hx) e (by rw [hT]; exact he)

/-! ## Instances

Two key tiles of one key each, on a single row and a single output column, and the two
partial states `max1 = 2, sum1 = 3` and `max2 = 5, sum2 = 1.5`. -/

theorem output_is_softmax_average_witness :
    [Key.mk (fun _ : Unit => (0 : ℝ)) (fun _ : Unit => (1 : ℝ))] ≠ [] ∧
      (epilogue Real.log false
        (attn_tiles (fun x : ℝ => 2 ^ x) false (fin 1)
          (SoftmaxState.mk (fun _ => nan) (fun _ => nan) (fun _ _ => nan))
          (([Key.mk (fun _ : Unit => (0 : ℝ)) (fun _ : Unit => (1 : ℝ))]
            :: [[Key.mk (fun _ => 1) (fun _ => 2)]]).map KVTile.ofKeys))
        (fin 1) (fin 1)).acc_o () ()
      = fin ((([Key.mk (fun _ : Unit => (0 : ℝ)) (fun _ : Unit => (1 : ℝ))]
            :: [[Key.mk (fun _ => 1) (fun _ => 2)]]).flatten.map fun k =>
          (2 : ℝ) ^ (1 * k.score ())
            / (([Key.mk (fun _ : Unit => (0 : ℝ)) (fun _ : Unit => (1 : ℝ))]
                :: [[Key.mk (fun _ => 1) (fun _ => 2)]]).flatten.map fun k1 =>
                (2 : ℝ) ^ (1 * k1.score ())).sum * k.v ()).sum) :=
  ⟨by simp, output_is_softmax_average false Real.log 1 (fin 1) (fin 1) _ _ _ (by simp) () ()⟩

theorem running_state_invariant_witness :
    [Key.mk (fun _ : Unit => (0 : ℝ)) (fun _ : Unit => (1 : ℝ))] ≠ [] ∧
      ∃ M : ℝ,
        (attn_tiles (fun x : ℝ => 2 ^ x) false (fin 1)
          (SoftmaxState.mk (fun _ => nan) (fun _ => nan) (fun _ _ => nan))
          (([Key.mk (fun _ : Unit => (0 : ℝ)) (fun _ : Unit => (1 : ℝ))]
            :: [[Key.mk (fun _ => 1) (fun _ => 2)]]).map KVTile.ofKeys)).scores_max ()
          = fin M ∧
        (∃ k ∈ ([Key.mk (fun _ : Unit => (0 : ℝ)) (fun _ : Unit => (1 : ℝ))]
            :: [[Key.mk (fun _ => 1) (fun _ => 2)]]).flatten, k.score () = M) ∧
        (∀ k ∈ ([Key.mk (fun _ : Unit => (0 : ℝ)) (fun _ : Unit => (1 : ℝ))]
            :: [[Key.mk (fun _ => 1) (fun _ => 2)]]).flatten, k.score () ≤ M) ∧
        (attn_tiles (fun x : ℝ => 2 ^ x) false (fin 1)
          (SoftmaxState.mk (fun _ => nan) (fun _ => nan) (fun _ _ => nan))
          (([Key.mk (fun _ : Unit => (0 : ℝ)) (fun _ : Unit => (1 : ℝ))]
            :: [[Key.mk (fun _ => 1) (fun _ => 2)]]).map KVTile.ofKeys)).scores_sum ()
          = fin ((([Key.mk (fun _ : Unit => (0 : ℝ)) (fun _ : Unit => (1 : ℝ))]
            :: [[Key.mk (fun _ => 1) (fun _ => 2)]]).flatten.map fun k =>
              (2 : ℝ) ^ (1 * (k.score () - M))).sum) :=
  ⟨by simp, running_state_invariant false 1 _ _ _ (by simp) ()⟩

theorem online_softmax_order_independent_witness :
    attn_tiles (fun x : ℝ => 2 ^ x) false (fin 1)
        (SoftmaxState.mk (fun _ => nan) (fun _ => nan) (fun _ _ => nan))
        (([Key.mk (fun _ : Unit => (0 : ℝ)) (fun _ : Unit => (1 : ℝ))]
          :: [Key.mk (fun _ => 1) (fun _ => 2)]
          :: [[Key.mk (fun _ => 3) (fun _ => 5)]]).map KVTile.ofKeys)
      = attn_tiles (fun x : ℝ => 2 ^ x) false (fin 1)
        (SoftmaxState.mk (fun _ => nan) (fun _ => nan) (fun _ _ => nan))
        (([Key.mk (fun _ : Unit => (3 : ℝ)) (fun _ : Unit => (5 : ℝ))]
          :: [Key.mk (fun _ => 0) (fun _ => 1)]
          :: [[Key.mk (fun _ => 1) (fun _ => 2)]]).map KVTile.ofKeys) :=
  (online_softmax_order_independent false 1 _
    [[Key.mk (fun _ : Unit => (0 : ℝ)) (fun _ : Unit => (1 : ℝ))],
      [Key.mk (fun _ => 1) (fun _ => 2)], [Key.mk (fun _ => 3) (fun _ => 5)]]
    [[Key.mk (fun _ : Unit => (3 : ℝ)) (fun _ : Unit => (5 : ℝ))],
      [Key.mk (fun _ => 0) (fun _ => 1)], [Key.mk (fun _ => 1) (fun _ => 2)]]
    (List.perm_append_comm :
      List.Perm
        ([[Key.mk (fun _ : Unit => (0 : ℝ)) (fun _ : Unit => (1 : ℝ))],
          [Key.mk (fun _ => 1) (fun _ => 2)]] ++ [[Key.mk (fun _ => 3) (fun _ => 5)]])
        ([[Key.mk (fun _ : Unit => (3 : ℝ)) (fun _ : Unit => (5 : ℝ))]]
          ++ [[Key.mk (fun _ => 0) (fun _ => 1)], [Key.mk (fun _ => 1) (fun _ => 2)]]))
    (by simp)).1

theorem rescale_max_monotone_witness :
    scores_scale (fun x : ℝ => 2 ^ x) true (fin 2)
        ((softmax_rescale_o (fun x : ℝ => 2 ^ x) false true (fun _ : Unit => [fin 1, ninf])
          (SoftmaxState.mk (fun _ => fin 2) (fun _ => fin 3) (fun _ (_ : Unit) => fin 1))
          (fin 1)).2.scores_max ()) (fin 1) = fin 1 :=
  ((rescale_max_monotone true (fun _ : Unit => [fin 1, ninf])
    (SoftmaxState.mk (fun _ => fin 2) (fun _ => fin 3) (fun _ (_ : Unit) => fin 1)) 1 ()
    (by simp)).2.2 2 rfl (by simp [reduce_max, le, gt])).2.1

theorem merge_implements_formulas_witness :
    (softmax_merge_o (fun x : ℝ => 2 ^ x)
        (MergeState.mk (fun _ : Unit => fin 2) (fun _ => fin 3) (fun _ => fin 5)
          (fun _ => fin (3 / 2)) (fun _ (_ : Unit) => fin 1) (fun _ _ => fin 4))
        (fin 1)).acc_o_2 () ()
      = fin (1 * (1 / (1 + 3 / 2 / 3 * (2 : ℝ) ^ ((1 : ℝ) * (5 - 2))))
          + 4 * (1 - 1 / (1 + 3 / 2 / 3 * (2 : ℝ) ^ ((1 : ℝ) * (5 - 2))))) :=
  (merge_implements_formulas
    (MergeState.mk (fun _ : Unit => fin 2) (fun _ => fin 3) (fun _ => fin 5)
      (fun _ => fin (3 / 2)) (fun _ (_ : Unit) => fin 1) (fun _ _ => fin 4))
    1 () () 2 3 5 (3 / 2) 1 4 rfl rfl rfl rfl rfl rfl (by norm_num) (by positivity)).2.2.1

theorem merge_exact_witness :
    (softmax_merge_o (fun x : ℝ => 2 ^ x)
        (MergeState.mk (fun _ : Unit => fin 0)
          (fun mi => fin ([Key.mk (fun _ : Unit => (0 : ℝ)) (fun _ : Unit => (1 : ℝ))].map
            fun k => (2 : ℝ) ^ ((1 : ℝ) * (k.score mi - 0))).sum)
          (fun _ => fin 1)
          (fun mi => fin ([Key.mk (fun _ : Unit => (1 : ℝ)) (fun _ : Unit => (2 : ℝ))].map
            fun k => (2 : ℝ) ^ ((1 : ℝ) * (k.score mi - 1))).sum)
          (fun mi ni => fin (([Key.mk (fun _ : Unit => (0 : ℝ)) (fun _ : Unit => (1 : ℝ))].map
              fun k => (2 : ℝ) ^ ((1 : ℝ) * (k.score mi - 0)) * k.v ni).sum
            / ([Key.mk (fun _ : Unit => (0 : ℝ)) (fun _ : Unit => (1 : ℝ))].map
              fun k => (2 : ℝ) ^ ((1 : ℝ) * (k.score mi - 0))).sum))
          (fun mi ni => fin (([Key.mk (fun _ : Unit => (1 : ℝ)) (fun _ : Unit => (2 : ℝ))].map
              fun k => (2 : ℝ) ^ ((1 : ℝ) * (k.score mi - 1)) * k.v ni).sum
            / ([Key.mk (fun _ : Unit => (1 : ℝ)) (fun _ : Unit => (2 : ℝ))].map
              fun k => (2 : ℝ) ^ ((1 : ℝ) * (k.score mi - 1))).sum)))
        (fin 1)).scores_max_1 () = fin (max 0 1) :=
  (merge_exact _ 1 () () [Key.mk (fun _ : Unit => (0 : ℝ)) (fun _ : Unit => (1 : ℝ))]
    [Key.mk (fun _ : Unit => (1 : ℝ)) (fun _ : Unit => (2 : ℝ))] 0 1 (by simp) (by simp)
    (by simp) (by simp) rfl rfl rfl rfl rfl rfl).1

theorem merge_order_independent_witness :
    (softmax_merge_o (fun x : ℝ => 2 ^ x)
        (MergeState.mk (fun _ : Unit => fin 2) (fun _ => fin 3) (fun _ => fin 5)
          (fun _ => fin (3 / 2)) (fun _ (_ : Unit) => fin 1) (fun _ _ => fin 4))
        (fin 1)).acc_o_2 () ()
      = (softmax_merge_o (fun x : ℝ => 2 ^ x)
        (MergeState.mk (fun _ : Unit => fin 2) (fun _ => fin 3) (fun _ => fin 5)
          (fun _ => fin (3 / 2)) (fun _ (_ : Unit) => fin 1) (fun _ _ => fin 4)).swap
        (fin 1)).acc_o_2 () () :=
  (merge_order_independent
    (MergeState.mk (fun _ : Unit => fin 2) (fun _ => fin 3) (fun _ => fin 5)
      (fun _ => fin (3 / 2)) (fun _ (_ : Unit) => fin 1) (fun _ _ => fin 4))
    1 () () 2 3 5 (3 / 2) 1 4 rfl rfl rfl rfl rfl rfl (by norm_num) (by norm_num)).1

theorem epilogue_nondegenerate_witness :
    (epilogue Real.log true
        (SoftmaxState.mk (fun _ : Unit => fin 1)
          (fun _ => fin ([Key.mk (fun _ : Unit => (1 : ℝ)) (fun _ : Unit => (3 : ℝ))].map
            fun k => (2 : ℝ) ^ (1 * Real.logb 2 (Real.exp 1) * (k.score () - 1))).sum)
          (fun _ (_ : Unit) => fin 3))
        (fin 1) (fin 4)).lse ()
      = fin (Real.log ([Key.mk (fun _ : Unit => (1 : ℝ)) (fun _ : Unit => (3 : ℝ))].map
          fun k => Real.exp (1 * k.score ())).sum) := by
  have h := epilogue_nondegenerate true
    (SoftmaxState.mk (fun _ : Unit => fin 1)
      (fun _ => fin ([Key.mk (fun _ : Unit => (1 : ℝ)) (fun _ : Unit => (3 : ℝ))].map
        fun k => (2 : ℝ) ^ (1 * Real.logb 2 (Real.exp 1) * (k.score () - 1))).sum)
      (fun _ (_ : Unit) => fin 3))
    (fin 1) (fin 4) () (by simp) (by simp)
  have h2 := h.2.2 _ 1 1 4 rfl rfl rfl rfl
  exact h2.2.2 [Key.mk (fun _ : Unit => (1 : ℝ)) (fun _ : Unit => (3 : ℝ))] (by simp) rfl

theorem epilogue_degenerate_witness :
    (epilogue Real.log true
        (SoftmaxState.mk (fun _ : Unit => fin 1) (fun _ => nan) (fun _ (_ : Unit) => fin 3))
        (fin 1) (fin 4)).lse () = pinf :=
  (epilogue_degenerate Real.log true
    (SoftmaxState.mk (fun _ : Unit => fin 1) (fun _ => nan) (fun _ (_ : Unit) => fin 3))
    (fin 1) (fin 4) () (Or.inr rfl)).1

/-! ## Instances for the schedules, the flags and the stores

Four query tiles of 128 rows with key tiles of 64 (tile 0 is the helper of tile 3), a
ragged sequence of 500 rows, and one-row and two-row tiles for the stores. -/

theorem role_assignment_witness :
    (is_helper 128 512 0 = true ↔
        is_publisher 128 512 (reverse_m_block 128 512 0) = true) ∧
      reverse_m_block 128 512 0 = total_tiles 128 512 - 1 - 0 :=
  ⟨(role_assignment 128 512 0 (by decide) (by decide)).2.2.2.2.2.1,
    (role_assignment 128 512 0 (by decide) (by decide)).2.1⟩

theorem causal_tiles_not_above_diagonal_witness :
    ∃ steps, compute_attn_1rowblock_steps true false 128 64 500 500 3 = some steps ∧
      steps ≠ [] ∧
      ∀ s ∈ steps, 0 ≤ s.n_block ∧ s.k_tile = s.n_block ∧ s.v_tile = s.n_block ∧
        s.n_block * 64 ≤ (3 + 1) * 128 - 1 ∧ s.n_block * 64 < 500 :=
  causal_tiles_not_above_diagonal false 128 64 500 500 3 (by decide) (by decide) (by decide)
    (by decide) (by decide)

theorem causal_unmasked_tiles_below_diagonal_witness :
    ∃ pre post, compute_attn_1rowblock_steps true false 128 64 500 500 3 = some (pre ++ post) ∧
      pre.length ≤ (ceil_div 128 64).toNat ∧
      (∀ s ∈ pre, s.mask = Mask.causal) ∧
      (∀ s ∈ post, s.mask = Mask.none ∧ s.k_tile = s.n_block ∧ s.v_tile = s.n_block ∧
        (s.n_block + 1) * 64 - 1 ≤ 3 * 128 ∧ (s.n_block + 1) * 64 ≤ 500) ∧
      ∀ s ∈ pre ++ post,
        (3 * 128 < (s.n_block + 1) * 64 - 1 ∨ 500 < (s.n_block + 1) * 64) → s ∈ pre :=
  causal_unmasked_tiles_below_diagonal false 128 64 500 500 3 (by decide) (by decide)
    (by decide) (by decide) (by decide) (Or.inl ⟨2, rfl⟩)

theorem rendezvous_partition_witness :
    ∃ own frag,
      compute_attn_1rowblock_causal_own_steps 128 64 512 512 (reverse_m_block 128 512 0)
        = some own ∧
      compute_attn_1rowblock_causal_frag_steps 128 64 512 512 0 = some frag ∧
      own.map (fun s => (s.k_tile, s.v_tile))
        = (List.range (ceil_div 128 64 * (total_tiles 128 512 / 2 + 1)).toNat).map
          (fun (i : Nat) => ((i : Int), (i : Int))) ∧
      frag.map (fun s => (s.k_tile, s.v_tile))
        = (List.range
            (min (ceil_div 512 64) (ceil_div ((reverse_m_block 128 512 0 + 1) * 128) 64)
              - ceil_div 128 64 * (total_tiles 128 512 / 2 + 1)).toNat).map
          (fun (i : Nat) =>
            (min (ceil_div 512 64) (ceil_div ((reverse_m_block 128 512 0 + 1) * 128) 64)
                - 1 - i,
              min (ceil_div 512 64) (ceil_div ((reverse_m_block 128 512 0 + 1) * 128) 64)
                - 1 - i)) ∧
      0 < ceil_div 128 64 * (total_tiles 128 512 / 2 + 1) ∧
      ceil_div 128 64 * (total_tiles 128 512 / 2 + 1)
        < min (ceil_div 512 64) (ceil_div ((reverse_m_block 128 512 0 + 1) * 128) 64) ∧
      List.Perm ((own ++ frag).map fun s => s.k_tile)
        ((List.range
            (min (ceil_div 512 64)
              (ceil_div ((reverse_m_block 128 512 0 + 1) * 128) 64)).toNat).map
          fun (i : Nat) => (i : Int)) :=
  rendezvous_partition 128 64 512 0 (by decide) (by decide) ⟨2, rfl⟩ (by decide) (by decide)

theorem flag_set_index_witness :
    Event.atomicOr 0 0 0 1 ∈ compute_attn_casual_events true false 128 512 512 0 0 4 0
      ↔ ((0 : Int) = 0 ∧ (0 : Int) = 0 ∧ (0 : Int) = 0 ∧ 1 = 1) :=
  (flag_set_index false 128 512 512 0 0 4 0 (by decide) (by decide) (by decide)).1 0 0 0 1

theorem helper_polls_own_index_witness :
    ∃ pre post,
      compute_attn_1rowblock_causal_events false 128 512 512 0 0 0 3
        = pre ++ Event.atomicCAS_spin 0 0 0 :: Event.syncthreads :: post ∧
      (∀ e ∈ pre, e.is_load = false) ∧
      (∀ h b i, Event.atomicCAS_spin h b i ∉ pre ++ post) ∧
      (∀ e ∈ post, e.is_load = true →
        e = Event.load_o (reverse_m_block 128 512 0) ∨
        e = Event.load_scores_max (reverse_m_block 128 512 0) ∨
        e = Event.load_scores_sum (reverse_m_block 128 512 0)) ∧
      Event.load_o (reverse_m_block 128 512 0) ∈ post ∧
      Event.load_scores_max (reverse_m_block 128 512 0) ∈ post ∧
      Event.load_scores_sum (reverse_m_block 128 512 0) ∈ post :=
  helper_polls_own_index false 128 512 512 0 0 0 3 (by decide) (by decide) (by decide)

theorem flag_writes_of_unit_witness :
    List.Chain' (fun a b => a ≤ b)
      (flag_values (compute_attn_1rowblock_causal_events false 128 512 512 0 0 3 0)
        (fun _ _ _ => 0) 0 0 0) :=
  (flag_writes_of_unit false 128 512 512 0 0 3 0 (fun _ _ _ => 0) rfl).2.1

theorem ragged_tile_rows_witness :
    GmemAgree 1
      (compute_attn_1rowblock_gmem (fun x : ℝ => 2 ^ x) Real.log
        (Operands.mk (fun q _ => if q < 1 then fin 0 else nan) (fun _ (_ : Unit) => fin 1))
        true false 2 2 1 1 0 (fin 1) (fin 1)
        (SoftmaxState.mk (fun mi => if mi < 1 then fin 0 else nan) (fun _ => fin 0)
          (fun _ _ => fin 0))
        (Gmem.mk (fun _ _ => fin 0) (fun _ => fin 0) (fun _ => fin 0) (fun _ => fin 0)))
      (compute_attn_1rowblock_gmem (fun x : ℝ => 2 ^ x) Real.log
        (Operands.mk (fun q _ => if q < 1 then fin 0 else fin 5) (fun _ (_ : Unit) => fin 1))
        true false 2 2 1 1 0 (fin 1) (fin 1)
        (SoftmaxState.mk (fun _ => fin 0) (fun _ => fin 0) (fun _ _ => fin 0))
        (Gmem.mk (fun _ _ => fin 0) (fun _ => fin 0) (fun _ => fin 0) (fun _ => fin 0))) :=
  (ragged_tile_rows (fun x : ℝ => 2 ^ x) Real.log
    (Operands.mk (fun q _ => if q < 1 then fin 0 else fin 5) (fun _ (_ : Unit) => fin 1))
    (Operands.mk (fun q _ => if q < 1 then fin 0 else nan) (fun _ (_ : Unit) => fin 1))
    true false 2 2 1 1 0 (fin 1) (fin 1)
    (SoftmaxState.mk (fun _ => fin 0) (fun _ => fin 0) (fun _ _ => fin 0))
    (SoftmaxState.mk (fun mi => if mi < 1 then fin 0 else nan) (fun _ => fin 0)
      (fun _ _ => fin 0))
    (SoftmaxState.mk (fun _ => fin 0) (fun _ => fin 0) (fun _ _ => fin 0))
    (SoftmaxState.mk (fun _ => fin 0) (fun _ => fin 0) (fun _ _ => fin 0))
    (Gmem.mk (fun _ _ => fin 0) (fun _ => fin 0) (fun _ => fin 0) (fun _ => fin 0))
    (Gmem.mk (fun _ _ => fin 0) (fun _ => fin 0) (fun _ => fin 0) (fun _ => fin 0))
    (by intro q k hq; simp [hq]) rfl
    (by
      intro mi hmi
      have : mi < 1 := by omega
      exact ⟨by simp [this], rfl, fun _ => rfl⟩)
    (fun _ _ => ⟨rfl, rfl, rfl, fun _ => rfl⟩)).2.1

theorem fully_masked_row_lse_witness :
    (compute_attn_1rowblock_gmem (fun x : ℝ => 2 ^ x) Real.log
        (Operands.mk (fun _ _ => ninf) (fun _ (_ : Unit) => fin 1)) true true 1 1 1 1 0
        (fin 1) (fin 1) (SoftmaxState.mk (fun _ => fin 0) (fun _ => fin 0) (fun _ _ => fin 0))
        (Gmem.mk (fun _ _ => fin 0) (fun _ => fin 0) (fun _ => fin 0)
          (fun _ => fin 0))).softmax_lse (0 * 1 + ((0 : Nat) : Int)) = pinf := by
  have h := (fully_masked_row_lse (fun x : ℝ => 2 ^ x) Real.log
    (Operands.mk (fun _ _ => ninf) (fun _ (_ : Unit) => fin 1)) true true 1 1 1 1 0
    (fin 1) (fin 1) (SoftmaxState.mk (fun _ => fin 0) (fun _ => fin 0) (fun _ _ => fin 0))
    (SoftmaxState.mk (fun _ => fin 0) (fun _ => fin 0) (fun _ _ => fin 0))
    (Gmem.mk (fun _ _ => fin 0) (fun _ => fin 0) (fun _ => fin 0) (fun _ => fin 0))
    0 (by norm_num)).1 (by norm_num)
  have e : compute_attn_1rowblock_steps true true 1 1 1 1 0
      = some [Step.mk 0 0 0 true true Mask.causal true] := by decide
  refine h _ (by rw [compute_attn_1rowblock_state, e]; rfl) ?_
  left
  simp [run_step, attn_tile, softmax_rescale_o, reduce_max, reduce_sum, scale_apply_exp2,
    acc_s, apply_mask_causal, fmax, gt, feq, Flt.exp2, Flt.sum, ninf_sub_fin,
    fin_one_mul_ninf]

/-! ## Instances for the loops, the counts, the dispatch and the flag grid -/

theorem plain_kernel_tile_order_witness :
    ∃ steps : List Step,
      compute_attn_1rowblock_steps true false 128 64 300 300 0 = some steps ∧
      steps.map (fun s => (s.n_block, s.k_tile, s.v_tile, s.Is_first))
        = [(1, 1, 1, true), (0, 0, 0, false)] := by
  obtain ⟨_, s, h2, h3, _⟩ := plain_kernel_tile_order true false 128 64 300 300 0
    (by decide) (by decide) (by decide) (by decide) (by decide)
  exact ⟨s, h2, h3.trans (by decide)⟩

theorem wave_balance_tile_counts_witness :
    ((compute_attn_1rowblock_causal_tile_count (2 * 64) 64 (5 * (2 * 64)) (5 * (2 * 64)) 1 :
        Nat) : Int) = 2 * ((5 + 1) / 2) ∧
      is_helper (2 * 64) (5 * (2 * 64)) 1 = true :=
  ⟨(wave_balance_tile_counts true 64 2 5 1 (by decide) (by decide) (by decide) (by decide)
    (by decide)).1 (by decide), by decide⟩

theorem compute_attn_casual_dispatch_witness :
    compute_attn_casual false 5 6 4 1 2 3 = KernelCall.compute_attn_1rowblock true 2 3 2 ∧
      compute_attn_casual true 5 6 4 1 2 3
        = KernelCall.compute_attn_1rowblock_causal true 5 6 2 :=
  ⟨(compute_attn_casual_dispatch 5 6 4 1 2 3 (by decide) (by decide)).1,
    (compute_attn_casual_dispatch 5 6 4 1 2 3 (by decide) (by decide)).2.1⟩

theorem flag_rendezvous_consistent_witness :
    (∀ h b i, Event.atomicCAS_spin h b i
        ∈ compute_attn_casual_events true false 128 512 512 0 0 (total_tiles 128 512)
          (total_tiles 128 512 - 1 - 0)
      ↔ (h = 0 ∧ b = 0 ∧ i = 0)) ∧
    Event.atomicOr 0 0 0 1
      ∈ compute_attn_casual_events true false 128 512 512 0 0 (total_tiles 128 512) 0 :=
  ⟨(flag_rendezvous_consistent false 128 512 512 0 0 0 (by decide) (by decide) (by decide)
      (by decide)).1,
    (flag_rendezvous_consistent false 128 512 512 0 0 0 (by decide) (by decide) (by decide)
      (by decide)).2.2.2.2.1⟩

theorem flag_grid_bounds_witness :
    (∀ e ∈ compute_attn_1rowblock_causal_events false 128 512 512 0 0 3 0,
        e.flag_in_bounds = true) ∧
      Event.atomicAnd 32 0 0 0
        ∈ compute_attn_casual_events true false 128 512 512 0 32 (total_tiles 128 512) 0 ∧
      (Event.atomicAnd 32 0 0 0).flag_in_bounds = false :=
  ⟨(flag_grid_bounds false 128 512 512 0 0).1 3 0 (by decide) (by decide) (by decide)
      (by decide) (by decide) (by decide) (by decide) (by decide),
    (flag_grid_bounds false 128 512 512 0 32).2.2.2.1 (by decide) (by decide)⟩

end FlashFwd
